import Mathlib

/-!
Table data restore of gpbackup (`restore/data.go`).

A shallow embedding of `restore/data.go`:

* `CheckRowsRestored`, `CopyTableIn`, `restoreSingleTableData` are pure functions of
  their arguments and of the collaborators they call (`connectionPool.Exec`, the file
  path helpers, the flags), which are fields of `Env`;
* `restoreDataFromTimestamp` starts `NumConns` goroutines that share a buffered
  channel, two atomic counters and the `wasTerminated` flag.  It is embedded as an
  interleaving transition system: `step` performs one atomic action of the main
  goroutine, of one worker, or of the signal handler, and `run` folds `step` over a
  schedule (a list of events).  Every theorem about the pool quantifies over all
  schedules;
* `GetDependencies` and the sequencer of the catalog objects, of which only the tests
  are among the sources, follow the specification.
-/

namespace Gpbackup

/-! ## Errors and results -/

/-- The fields of `pgx.PgError` that occur in `data.go` or in its `Error()` text. -/
structure PgError where
  Severity : String
  Code : String
  Message : String
  Where : String
deriving DecidableEq, Repr

/-- A Go `error` value, by the way it was built. -/
inductive GoError where
  /-- a value of dynamic type `pgx.PgError` -/
  | pg (e : PgError)
  /-- an error of any other dynamic type (for instance a connection-level error) -/
  | other (msg : String)
  /-- the result of `errors.New(msg)` -/
  | new (msg : String)
  /-- the result of `errors.Wrap(cause, msg)` -/
  | wrap (cause : GoError) (msg : String)
deriving DecidableEq, Repr

/-- A Go call either returns a value or panics. -/
inductive Outcome (α : Type) where
  | ret (a : α)
  | panic
deriving DecidableEq, Repr

/-- One entry of the backup's table of contents (`utils.MasterDataEntry`), with the
fields `data.go` reads.  `Oid` is a `uint32`, `RowsCopied` an `int64`. -/
structure MasterDataEntry where
  Schema : String
  Name : String
  Oid : Nat
  AttributeString : String
  RowsCopied : Int
deriving DecidableEq, Repr

/-- What `data.go` reads from its surroundings: the flags and configuration, and the
collaborators defined in other packages.  The two collaborators whose answer depends
on the state of the cluster (`Exec` and `CheckAgentErrorsOnSegments`) take as first
argument the logical time of the call, so that successive calls may answer
differently. -/
structure Env where
  /-- `backupConfig.SingleDataFile` -/
  SingleDataFile : Bool
  /-- `MustGetFlagBool(utils.ON_ERROR_CONTINUE)` -/
  OnErrorContinue : Bool
  /-- `MustGetFlagString(utils.PLUGIN_CONFIG)` -/
  PluginConfigFlag : String
  /-- `pluginConfig.ExecutablePath` -/
  ExecutablePath : String
  /-- `pluginConfig.ConfigPath` -/
  ConfigPath : String
  /-- `utils.GetPipeThroughProgram().InputCommand` -/
  InputCommand : String
  /-- `utils.GetPipeThroughProgram().Extension` -/
  Extension : String
  /-- `connectionPool.NumConns`; a Go value below 0 starts no worker, as 0 does -/
  NumConns : Nat
  /-- `gplog.GetVerbosity() > gplog.LOGINFO` -/
  VerbosityAboveInfo : Bool
  /-- `connectionPool.ValidateConnNum` -/
  ValidateConnNum : Nat → Nat
  /-- `utils.MakeFQN` -/
  MakeFQN : String → String → String
  /-- `fpInfo.GetSegmentPipePathForCopyCommand()` -/
  GetSegmentPipePathForCopyCommand : String
  /-- `fpInfo.GetTableBackupFilePathForCopyCommand(oid, extension, singleDataFile)` -/
  GetTableBackupFilePathForCopyCommand : Nat → String → Bool → String
  /-- `connectionPool.Exec(query, whichConn)` at a logical time: the affected-row
  count when `err == nil`, the error otherwise. -/
  Exec : Nat → String → Nat → Except GoError Int
  /-- `utils.CheckAgentErrorsOnSegments(globalCluster, globalFPInfo)` at a logical time -/
  CheckAgentErrorsOnSegments : Nat → Option GoError
  /-- `fpInfo.Timestamp` -/
  Timestamp : String
  /-- `gplog.GetLogFilePath()` -/
  LogFilePath : String
  /-- the value of `dataProgressBar.NotPrint` when `restoreDataFromTimestamp` is called -/
  NotPrint : Bool

/-! ## The sequential functions -/

/-- The package variable `tableDelim`. -/
def tableDelim : String := ","

/-- The text `fmt.Sprintf("%d", n)` prints for an `int64`. -/
def fmtInt (n : Int) : String := toString n

/-- The text `fmt.Sprintf("%d", n)` prints for a `uint32`. -/
def fmtUint (n : Nat) : String := toString n

/-- `readFromDestinationCommand` of `CopyTableIn` after the `if`/`else if`. -/
def readFromDestinationCommand (env : Env) (singleDataFile : Bool) : String :=
  if singleDataFile then "cat"
  else if env.PluginConfigFlag ≠ "" then
    env.ExecutablePath ++ " restore_data " ++ env.ConfigPath
  else "cat"

/-- `customPipeThroughCommand` of `CopyTableIn` after the `if`/`else if`. -/
def customPipeThroughCommand (env : Env) (singleDataFile : Bool) : String :=
  if singleDataFile then "cat -" else env.InputCommand

/-- The `query` string `CopyTableIn` passes to `connectionPool.Exec`. -/
def copyQuery (env : Env) (tableName tableAttributes destinationToRead : String)
    (singleDataFile : Bool) : String :=
  let copyCommand := "PROGRAM '" ++ readFromDestinationCommand env singleDataFile ++ " "
    ++ destinationToRead ++ " | " ++ customPipeThroughCommand env singleDataFile ++ "'"
  "COPY " ++ tableName ++ tableAttributes ++ " FROM " ++ copyCommand
    ++ " WITH CSV DELIMITER '" ++ tableDelim ++ "' ON SEGMENT;"

/-- `CopyTableIn`, given the `Exec` of the moment of the call.  The type assertion
`err.(pgx.PgError)` panics when the error has another dynamic type. -/
def CopyTableIn (env : Env) (exec : String → Nat → Except GoError Int)
    (tableName tableAttributes destinationToRead : String) (singleDataFile : Bool)
    (whichConn : Nat) : Outcome (Int × Option GoError) :=
  let whichConn := env.ValidateConnNum whichConn
  let query := copyQuery env tableName tableAttributes destinationToRead singleDataFile
  match exec query whichConn with
  | .error err =>
    let errStr := "Error loading data into table " ++ tableName
    match err with
    | .pg e =>
      let errStr := if e.Where ≠ "" then errStr ++ ": " ++ e.Where else errStr
      .ret (0, some (.wrap err errStr))
    | _ => .panic
  | .ok numRows => .ret (numRows, none)

/-- `CheckRowsRestored`: `none` is the `nil` error. -/
def CheckRowsRestored (rowsRestored rowsBackedUp : Int) (tableName : String) :
    Option GoError :=
  if rowsRestored ≠ rowsBackedUp then
    some (.new ("Expected to restore " ++ fmtInt rowsBackedUp ++ " rows to table "
      ++ tableName ++ ", but restored " ++ fmtInt rowsRestored ++ " instead"))
  else none

/-- The `destinationToRead` computed by `restoreSingleTableData`. -/
def destinationToRead (env : Env) (entry : MasterDataEntry) : String :=
  if env.SingleDataFile then
    env.GetSegmentPipePathForCopyCommand ++ "_" ++ fmtUint entry.Oid
  else
    env.GetTableBackupFilePathForCopyCommand entry.Oid env.Extension env.SingleDataFile

/-- The line `restoreSingleTableData` hands to `gplog.Verbose`. -/
def restoreVerboseLine (env : Env) (entry : MasterDataEntry) (tableNum totalTables : Nat) :
    String :=
  let name := env.MakeFQN entry.Schema entry.Name
  if env.VerbosityAboveInfo then
    "Reading data for table " ++ name ++ " from file (table " ++ fmtUint tableNum
      ++ " of " ++ fmtUint totalTables ++ ")"
  else "Reading data for table " ++ name ++ " from file"

/-- `restoreSingleTableData`, given the `Exec` of the moment of the call: the error it
returns (`none` for `nil`), or a panic.  `tableNum` and `totalTables` only reach the
log line (`restoreVerboseLine`). -/
def restoreSingleTableData (env : Env) (exec : String → Nat → Except GoError Int)
    (entry : MasterDataEntry) (_tableNum : Nat) (_totalTables : Nat) (whichConn : Nat) :
    Outcome (Option GoError) :=
  let name := env.MakeFQN entry.Schema entry.Name
  match CopyTableIn env exec name entry.AttributeString (destinationToRead env entry)
      env.SingleDataFile whichConn with
  | .panic => .panic
  | .ret (numRowsRestored, err) =>
    match err with
    | some e => .ret (some e)
    | none =>
      let numRowsBackedUp := entry.RowsCopied
      match CheckRowsRestored numRowsRestored numRowsBackedUp name with
      | some e => .ret (some e)
      | none => .ret none

/-! ## The worker pool of `restoreDataFromTimestamp` -/

/-- What the run does that can be seen from outside, in the order it happens.  The
entries `dequeue` and `restore` record a receive from the channel and a call of
`restoreSingleTableData` with its arguments and its result. -/
inductive Effect where
  /-- `gplog.Verbose(line)` -/
  | verbose (line : String)
  /-- `utils.VerifyHelperVersionOnSegments(version, globalCluster)` -/
  | verifyHelperVersion
  /-- `utils.WriteOidListToSegments(filteredOids, globalCluster, fpInfo)` -/
  | writeOidList (filteredOids : List String)
  /-- `utils.CreateFirstSegmentPipeOnAllHosts(firstOid, globalCluster, fpInfo)` -/
  | createFirstSegmentPipe (firstOid : String)
  /-- `utils.StartGpbackupHelpers(globalCluster, fpInfo, "--restore-agent", pluginConfigFlag,
  "", onErrorContinue)` -/
  | startHelpers (pluginConfigFlag : String) (onErrorContinue : Bool)
  /-- `setGUCsForConnection(gucStatements, whichConn)` -/
  | setGUCs (whichConn : Nat)
  /-- worker `whichConn` received `entry` from `tasks` -/
  | dequeue (whichConn : Nat) (entry : MasterDataEntry)
  /-- `restoreSingleTableData(&fpInfo, entry, tableNum, totalTables, whichConn)` and
  what it returned -/
  | restore (whichConn : Nat) (entry : MasterDataEntry) (tableNum totalTables : Nat)
      (result : Outcome (Option GoError))
  /-- `gplog.Error(err.Error())` -/
  | logError (err : GoError)
  /-- `gplog.Error("Encountered %d error(s) during table data restore; see log file %s
  for a list of table errors.", numErrors, logFilePath)` -/
  | summary (numErrors : Int) (logFilePath : String)
deriving DecidableEq, Repr

/-- Where a worker goroutine stands in the body of `go func(whichConn int)`. -/
inductive WorkerPc where
  /-- before `setGUCsForConnection` -/
  | start
  /-- at `for entry := range tasks`, about to receive -/
  | recv
  /-- holding `entry`, at `if wasTerminated` -/
  | check (entry : MasterDataEntry)
  /-- holding `entry`, at the call of `restoreSingleTableData` -/
  | call (entry : MasterDataEntry)
  /-- inside `if err != nil`, before `gplog.Error` and `atomic.AddInt32` -/
  | failed (err : GoError)
  /-- at `if backupConfig.SingleDataFile` -/
  | agent
  /-- at `atomic.AddUint32(&tableNum, 1)` -/
  | advance
  /-- at `dataProgressBar.Increment()` -/
  | incr
  /-- the goroutine has returned -/
  | done
  /-- the goroutine has panicked -/
  | crashed
deriving DecidableEq, Repr

/-- Where the calling goroutine stands in `restoreDataFromTimestamp`. -/
inductive MainPc where
  /-- at the head of the function -/
  | entry
  /-- at `if wasTerminated` after `CreateFirstSegmentPipeOnAllHosts` -/
  | termCheck
  /-- at the head of `for i := 0; i < connectionPool.NumConns; i++` with this `i` -/
  | spawn (i : Nat)
  /-- in `for _, entry := range dataEntries`, with these entries still to send -/
  | send (rest : List MasterDataEntry)
  /-- at `close(tasks)` -/
  | close
  /-- at `workerPool.Wait()` -/
  | wait
  /-- at `if numErrors > 0` -/
  | summary
  /-- the function has returned -/
  | returned
deriving DecidableEq, Repr

/-- The state shared by the goroutines, their program counters, and the record of what
has been done so far. -/
structure PoolState where
  mainPc : MainPc
  /-- the worker started for `whichConn = i` is at position `i` -/
  workers : List WorkerPc
  /-- the content of the channel `tasks`, oldest first -/
  tasks : List MasterDataEntry
  /-- `tasks` has been closed -/
  closed : Bool
  /-- the `uint32` variable `tableNum` -/
  tableNum : Nat
  /-- the `int32` variable `numErrors` -/
  numErrors : Int
  /-- the package variable `wasTerminated` -/
  wasTerminated : Bool
  /-- `dataProgressBar.NotPrint` -/
  notPrint : Bool
  /-- the number of calls of `dataProgressBar.Increment()` -/
  progress : Nat
  /-- logical time: the number of events so far -/
  clock : Nat
  /-- a goroutine has panicked, which ends the process -/
  panicked : Bool
  trace : List Effect
deriving DecidableEq, Repr

/-- Addition on `int32` wraps around. -/
def wrapInt32 (x : Int) : Int := (x + 2 ^ 31) % 2 ^ 32 - 2 ^ 31

/-- Addition on `uint32` wraps around. -/
def wrapUint32 (x : Nat) : Nat := x % 2 ^ 32

/-- The state in which `restoreDataFromTimestamp` is entered. -/
def PoolState.init (env : Env) : PoolState where
  mainPc := .entry
  workers := []
  tasks := []
  closed := false
  tableNum := 1
  numErrors := 0
  wasTerminated := false
  notPrint := env.NotPrint
  progress := 0
  clock := 0
  panicked := false
  trace := []

/-- Worker `i` moves to `pc`. -/
def PoolState.setPc (s : PoolState) (i : Nat) (pc : WorkerPc) : PoolState :=
  { s with workers := s.workers.set i pc }

/-- Appends effects to the record. -/
def PoolState.emit (s : PoolState) (es : List Effect) : PoolState :=
  { s with trace := s.trace ++ es }

/-- One action of the calling goroutine.  A send on the full channel and a `Wait` with
a worker still running are blocked: they leave the state as it is. -/
def mainStep (env : Env) (dataEntries : List MasterDataEntry) (s : PoolState) : PoolState :=
  match s.mainPc with
  | .entry =>
    if dataEntries.length = 0 then
      { s.emit [.verbose ("No data to restore for timestamp = " ++ env.Timestamp)] with
        mainPc := .returned }
    else if env.SingleDataFile then
      { s.emit [.verbose
            "Initializing pipes and gpbackup_helper on segments for single data file restore",
          .verifyHelperVersion,
          .writeOidList (dataEntries.map fun entry => fmtUint entry.Oid),
          .createFirstSegmentPipe
            (fmtUint ((dataEntries.head?.map fun entry => entry.Oid).getD 0))] with
        mainPc := .termCheck }
    else { s with mainPc := .spawn 0 }
  | .termCheck =>
    if s.wasTerminated then { s with mainPc := .returned }
    else { s.emit [.startHelpers env.PluginConfigFlag env.OnErrorContinue] with
           mainPc := .spawn 0 }
  | .spawn i =>
    if i < env.NumConns then
      { s with workers := s.workers ++ [.start], mainPc := .spawn (i + 1) }
    else { s with mainPc := .send dataEntries }
  | .send [] => { s with mainPc := .close }
  | .send (entry :: rest) =>
    if s.tasks.length < dataEntries.length then
      { s with tasks := s.tasks ++ [entry], mainPc := .send rest }
    else s
  | .close => { s with closed := true, mainPc := .wait }
  | .wait =>
    if s.workers.all (fun pc => pc = .done) then { s with mainPc := .summary } else s
  | .summary =>
    if s.numErrors > 0 then
      { s.emit [.summary s.numErrors env.LogFilePath] with mainPc := .returned }
    else { s with mainPc := .returned }
  | .returned => s

/-- One action of the worker started for `whichConn = i`.  A receive on the empty, open
channel is blocked; a worker that does not exist, has returned or has panicked does
nothing. -/
def workerStep (env : Env) (dataEntries : List MasterDataEntry) (i : Nat) (s : PoolState) :
    PoolState :=
  match s.workers[i]? with
  | none => s
  | some .start => (s.emit [.setGUCs i]).setPc i .recv
  | some .recv =>
    match s.tasks with
    | entry :: rest => ({ s with tasks := rest }.emit [.dequeue i entry]).setPc i (.check entry)
    | [] => if s.closed then s.setPc i .done else s
  | some (.check entry) =>
    if s.wasTerminated then { s with notPrint := true }.setPc i .done
    else s.setPc i (.call entry)
  | some (.call entry) =>
    let result := restoreSingleTableData env (env.Exec s.clock) entry s.tableNum
      dataEntries.length i
    let s := s.emit [.verbose (restoreVerboseLine env entry s.tableNum dataEntries.length),
      .restore i entry s.tableNum dataEntries.length result]
    match result with
    | .panic => { s with panicked := true }.setPc i .crashed
    | .ret none => s.setPc i .agent
    | .ret (some err) => s.setPc i (.failed err)
  | some (.failed err) =>
    let s := { s.emit [.logError err] with numErrors := wrapInt32 (s.numErrors + 1) }
    if !env.OnErrorContinue then { s with notPrint := true }.setPc i .done
    else s.setPc i .agent
  | some .agent =>
    if env.SingleDataFile then
      match env.CheckAgentErrorsOnSegments s.clock with
      | some agentErr => (s.emit [.logError agentErr]).setPc i .done
      | none => s.setPc i .advance
    else s.setPc i .advance
  | some .advance => { s with tableNum := wrapUint32 (s.tableNum + 1) }.setPc i .incr
  | some .incr => { s with progress := s.progress + 1 }.setPc i .recv
  | some .done => s
  | some .crashed => s

/-- Who acts next: the calling goroutine, a worker, or the signal handler that sets
`wasTerminated`. -/
inductive Event where
  | main
  | worker (i : Nat)
  | interrupt
deriving DecidableEq, Repr

/-- One event.  After a panic nothing happens any more; otherwise the chosen goroutine
performs its next action and the logical time advances. -/
def step (env : Env) (dataEntries : List MasterDataEntry) (s : PoolState) (ev : Event) :
    PoolState :=
  if s.panicked then s
  else
    let t := match ev with
      | .main => mainStep env dataEntries s
      | .worker i => workerStep env dataEntries i s
      | .interrupt => { s with wasTerminated := true }
    { t with clock := s.clock + 1 }

/-- The state after the events of a schedule, from a given state. -/
def runFrom (env : Env) (dataEntries : List MasterDataEntry) (s : PoolState)
    (sched : List Event) : PoolState :=
  sched.foldl (step env dataEntries) s

/-- The state after the events of a schedule, from the call of
`restoreDataFromTimestamp`. -/
def run (env : Env) (dataEntries : List MasterDataEntry) (sched : List Event) : PoolState :=
  runFrom env dataEntries (PoolState.init env) sched

/-- `restoreDataFromTimestamp` has returned. -/
def PoolState.returned (s : PoolState) : Prop := s.mainPc = .returned ∧ s.panicked = false

instance (s : PoolState) : Decidable s.returned := by
  unfold PoolState.returned; infer_instance

/-! ### Reading the record -/

/-- The entries `restoreSingleTableData` was called for, in the order of the calls. -/
def attempts (tr : List Effect) : List MasterDataEntry :=
  tr.filterMap fun
    | .restore _ entry _ _ _ => some entry
    | _ => none

/-- The entries worker `i` called `restoreSingleTableData` for. -/
def attemptsBy (i : Nat) (tr : List Effect) : List MasterDataEntry :=
  tr.filterMap fun
    | .restore j entry _ _ _ => if j = i then some entry else none
    | _ => none

/-- The entries worker `i` received from the channel. -/
def dequeuesBy (i : Nat) (tr : List Effect) : List MasterDataEntry :=
  tr.filterMap fun
    | .dequeue j entry => if j = i then some entry else none
    | _ => none

/-- The entries received from the channel, by any worker. -/
def dequeues (tr : List Effect) : List MasterDataEntry :=
  tr.filterMap fun
    | .dequeue _ entry => some entry
    | _ => none

/-- The number of calls of `restoreSingleTableData` that returned `nil`. -/
def successes (tr : List Effect) : Nat :=
  tr.countP fun
    | .restore _ _ _ _ (.ret none) => true
    | _ => false

/-- The connections of the calls of `restoreSingleTableData` that did not return `nil`. -/
def failedConns (tr : List Effect) : List Nat :=
  tr.filterMap fun
    | .restore _ _ _ _ (.ret none) => none
    | .restore j _ _ _ _ => some j
    | _ => none

/-- The run-level summaries logged. -/
def summaries (tr : List Effect) : List Int :=
  tr.filterMap fun
    | .summary n _ => some n
    | _ => none

/-- The schedule holds no interrupt: no termination is requested during the run. -/
def noInterrupt (sched : List Event) : Prop := Event.interrupt ∉ sched

instance (sched : List Event) : Decidable (noInterrupt sched) := by
  unfold noInterrupt; infer_instance

/-! ### Quantities used in the invariants -/

/-- The entries a worker holds: received and not yet handed to
`restoreSingleTableData`. -/
def held : WorkerPc → List MasterDataEntry
  | .check entry => [entry]
  | .call entry => [entry]
  | _ => []

/-- The number of entries a worker holds. -/
def heldLen : WorkerPc → Nat
  | .check _ => 1
  | .call _ => 1
  | _ => 0

/-- The number of times a worker holds the entry `e`. -/
def heldCount (e : MasterDataEntry) : WorkerPc → Nat
  | .check entry => if entry = e then 1 else 0
  | .call entry => if entry = e then 1 else 0
  | _ => 0

/-- The sum of a quantity over the workers. -/
def total (f : WorkerPc → Nat) (workers : List WorkerPc) : Nat := (workers.map f).sum

/-- The progress of the calling goroutine through `restoreDataFromTimestamp`. -/
def MainPc.phase : MainPc → Nat
  | .entry => 0
  | .termCheck => 1
  | .spawn _ => 2
  | .send _ => 3
  | .close => 4
  | .wait => 5
  | .summary => 6
  | .returned => 7

/-- The entries the calling goroutine has still to send. -/
def MainPc.unsent (des : List MasterDataEntry) : MainPc → List MasterDataEntry
  | .entry => des
  | .termCheck => des
  | .spawn _ => des
  | .send rest => rest
  | _ => []

/-- The worker has a failed restore that it has not yet counted. -/
def isFailed : WorkerPc → Nat
  | .failed _ => 1
  | _ => 0

/-- The worker has called `restoreSingleTableData` for an entry and has not yet advanced
the progress bar for it. -/
def inFlight : WorkerPc → Nat
  | .failed _ => 1
  | .agent => 1
  | .advance => 1
  | .incr => 1
  | _ => 0

/-- The number of calls of `restoreSingleTableData` that returned an error. -/
def failures (tr : List Effect) : Nat :=
  tr.countP fun
    | .restore _ _ _ _ (.ret (some _)) => true
    | _ => false

/-- What holds in every state of every run, whatever the schedule and the answers of
the collaborators. -/
structure Sound (env : Env) (des : List MasterDataEntry) (s : PoolState) : Prop where
  tasks_mem : ∀ e ∈ s.tasks, e ∈ des
  held_mem : ∀ (j : Nat) (pc : WorkerPc), s.workers[j]? = some pc → ∀ e ∈ held pc, e ∈ des
  workers_le : s.workers.length ≤ env.NumConns
  spawn_len : ∀ i, s.mainPc = .spawn i → s.workers.length = i
  early : s.mainPc.phase ≤ 1 → s.workers = []
  full : 3 ≤ s.mainPc.phase → s.mainPc.phase ≤ 6 → s.workers.length = env.NumConns
  quiet : s.workers = [] → dequeues s.trace = [] ∧ attempts s.trace = []
  fifo : s.mainPc.phase ≤ 6 → dequeues s.trace ++ s.tasks ++ s.mainPc.unsent des = des
  fifo_ret : s.mainPc = .returned →
    (dequeues s.trace ++ s.tasks = des ∧ s.workers.length = env.NumConns) ∨
    (s.workers = [] ∧ (des = [] ∨ s.wasTerminated = true))
  closed_phase : s.closed = true → 5 ≤ s.mainPc.phase
  phase_closed : s.mainPc.phase = 5 ∨ s.mainPc.phase = 6 → s.closed = true
  all_done : 6 ≤ s.mainPc.phase →
    ∀ (j : Nat) (pc : WorkerPc), s.workers[j]? = some pc → pc = .done
  held_le : (attempts s.trace).length + total heldLen s.workers ≤ (dequeues s.trace).length
  errs : ∃ c : Nat, s.numErrors = wrapInt32 c ∧ c + total isFailed s.workers = failures s.trace

/-- The worker has left the loop after a restore that did not return `nil`, or is about
to count such a restore. -/
def stopped : WorkerPc → Bool
  | .failed _ => true
  | .done => true
  | .crashed => true
  | _ => false

/-- The record tells the truth: every recorded call of `restoreSingleTableData` was made
by a worker that exists, for an entry of `dataEntries`, and returned what the function
returns at some time; a summary is only logged for a positive `numErrors`, by the calling
goroutine as its last action. -/
structure Faithful (env : Env) (des : List MasterDataEntry) (s : PoolState) : Prop where
  restore_ok : ∀ c e tn tot r, Effect.restore c e tn tot r ∈ s.trace →
    e ∈ des ∧ c < s.workers.length ∧ tot = des.length ∧
      ∃ t, restoreSingleTableData env (env.Exec t) e tn des.length c = r
  summary_pos : ∀ n ∈ summaries s.trace, 0 < n ∧ n = s.numErrors ∧ s.mainPc = .returned
  failed_stopped : env.OnErrorContinue = false → ∀ (j : Nat) (pc : WorkerPc),
    s.workers[j]? = some pc → j ∈ failedConns s.trace → stopped pc = true
  failed_nodup : env.OnErrorContinue = false → (failedConns s.trace).Nodup

/-- The collaborators never make a worker leave its loop: the helper agents report no
error, and every call of `restoreSingleTableData` for an entry of `dataEntries` on a
connection of the pool returns, with an error only when on-error-continue is on. -/
structure Calm (env : Env) (des : List MasterDataEntry) : Prop where
  agent : env.SingleDataFile = true → ∀ t, env.CheckAgentErrorsOnSegments t = none
  restore : ∀ t tn conn, ∀ e ∈ des, conn < env.NumConns →
    restoreSingleTableData env (env.Exec t) e tn des.length conn = .ret none ∨
    (env.OnErrorContinue = true ∧
      ∃ err, restoreSingleTableData env (env.Exec t) e tn des.length conn = .ret (some err))

/-- What holds in every state of a run in which no worker leaves its loop early: no
termination was requested, nothing panicked, a worker has returned only on the closed,
empty channel, every received entry is held by a worker or was handed to
`restoreSingleTableData`, and the progress bar has advanced once for every call that is
not still being handled. -/
structure Steady (env : Env) (des : List MasterDataEntry) (s : PoolState) : Prop where
  not_terminated : s.wasTerminated = false
  not_panicked : s.panicked = false
  workers_ok : ∀ (j : Nat) (pc : WorkerPc), s.workers[j]? = some pc →
    pc ≠ .crashed ∧ (pc = .done → s.tasks = [] ∧ s.closed = true) ∧
      (∀ err, pc = .failed err → env.OnErrorContinue = true)
  counts : ∀ e, (attempts s.trace).count e + total (heldCount e) s.workers
    = (dequeues s.trace).count e
  progress : s.progress + total inFlight s.workers = (attempts s.trace).length

/-- The number of actions a worker can still perform before it receives again. -/
def workerRank : WorkerPc → Nat
  | .start => 2
  | .recv => 1
  | .check _ => 7
  | .call _ => 6
  | .failed _ => 5
  | .agent => 4
  | .advance => 3
  | .incr => 2
  | .done => 0
  | .crashed => 0

/-- The number of actions the calling goroutine can still perform; each worker it has
still to start is counted with the first action of that worker. -/
def mainRank (numConns totalTables : Nat) : MainPc → Nat
  | .entry => 3 * numConns + totalTables + 7
  | .termCheck => 3 * numConns + totalTables + 6
  | .spawn i => 3 * (numConns - i) + totalTables + 5
  | .send rest => rest.length + 4
  | .close => 3
  | .wait => 2
  | .summary => 1
  | .returned => 0

/-- A bound on the number of actions that can still happen: every action of a goroutine
decreases it. -/
def remaining (env : Env) (des : List MasterDataEntry) (s : PoolState) : Nat :=
  mainRank env.NumConns des.length s.mainPc + total workerRank s.workers
    + 8 * (s.tasks.length + (s.mainPc.unsent des).length)

/-- The worker is winding down: it has returned, or its next action is to return
without receiving an entry or calling `restoreSingleTableData`. -/
def winding (env : Env) (s : PoolState) : WorkerPc → Bool
  | .done => true
  | .failed _ => !env.OnErrorContinue
  | .check _ => s.wasTerminated
  | _ => false

/-! ### Sample data -/

/-- A sample environment: plain files or a single data file, no plugin, `Exec` always
succeeds and reports 5 rows, and the helper agents report `agentErr` at every check. -/
def sampleEnv (singleDataFile onErrorContinue : Bool) (numConns : Nat)
    (agentErr : Option GoError) : Env where
  SingleDataFile := singleDataFile
  OnErrorContinue := onErrorContinue
  PluginConfigFlag := ""
  ExecutablePath := ""
  ConfigPath := ""
  InputCommand := "gzip -d -c"
  Extension := ".gz"
  NumConns := numConns
  VerbosityAboveInfo := false
  ValidateConnNum := fun whichConn => whichConn
  MakeFQN := fun schema name => schema ++ "." ++ name
  GetSegmentPipePathForCopyCommand := "<SEG_DATA_DIR>/gpbackup_<SEGID>_20190809230424_pipe"
  GetTableBackupFilePathForCopyCommand := fun oid extension _ =>
    "<SEG_DATA_DIR>/gpbackup_<SEGID>_20190809230424_" ++ fmtUint oid ++ extension
  Exec := fun _ _ _ => .ok 5
  CheckAgentErrorsOnSegments := fun _ => agentErr
  Timestamp := "20190809230424"
  LogFilePath := "gprestore_20190809.log"
  NotPrint := false

/-- A sample entry: table `public.t<oid>` with `rows` rows recorded in the backup. -/
def sampleEntry (oid : Nat) (rows : Int) : MasterDataEntry where
  Schema := "public"
  Name := "t"
  Oid := oid
  AttributeString := "(i)"
  RowsCopied := rows

/-- The schedule in which the calling goroutine performs `n` actions in a row. -/
def mainRuns (n : Nat) : List Event := List.replicate n .main

/-- The schedule in which worker `i` performs `n` actions in a row. -/
def workerRuns (i n : Nat) : List Event := List.replicate n (.worker i)

/-- Ten sample tables, all with 5 rows recorded. -/
def tenTables : List MasterDataEntry := (List.range 10).map fun n => sampleEntry (n + 1) 5

/-- The schedule in which each of the workers `0 .. k-1` performs one action in turn,
`n` times over. -/
def roundRobin (k n : Nat) : List Event :=
  (List.range n).flatMap fun _ => (List.range k).map Event.worker

/-! ### Further readings of the record -/

/-- The oid lists written to the segments (`utils.WriteOidListToSegments`). -/
def oidLists (tr : List Effect) : List (List String) :=
  tr.filterMap fun
    | .writeOidList filteredOids => some filteredOids
    | _ => none

/-- The oids the first segment pipes were created for
(`utils.CreateFirstSegmentPipeOnAllHosts`). -/
def firstPipes (tr : List Effect) : List String :=
  tr.filterMap fun
    | .createFirstSegmentPipe firstOid => some firstOid
    | _ => none

/-- The connection index a worker's effect carries. -/
def Effect.whichConn : Effect → Option Nat
  | .setGUCs whichConn => some whichConn
  | .dequeue whichConn _ => some whichConn
  | .restore whichConn _ _ _ _ => some whichConn
  | _ => none

/-- The summaries that `restoreDataFromTimestamp` has logged when it stands where the
state says: none before it returns, and after it one if `numErrors > 0`, none
otherwise. -/
def summaryOf (s : PoolState) : List Int :=
  if s.mainPc = .returned then (if 0 < s.numErrors then [s.numErrors] else []) else []


/-- The oid lists that `restoreDataFromTimestamp` has written when it stands where the
state says: none before its first action, and after it the list of the rendered oids of
`dataEntries` in single-data-file mode with entries to restore, none otherwise. -/
def setupOids (env : Env) (des : List MasterDataEntry) (s : PoolState) : List (List String) :=
  if s.mainPc ≠ .entry ∧ env.SingleDataFile = true ∧ des ≠ [] then
    [des.map fun entry => fmtUint entry.Oid]
  else []

/-- The oids that `restoreDataFromTimestamp` has created first pipes for when it stands
where the state says. -/
def setupPipe (env : Env) (des : List MasterDataEntry) (s : PoolState) : List String :=
  if s.mainPc ≠ .entry ∧ env.SingleDataFile = true ∧ des ≠ [] then
    [fmtUint ((des.head?.map fun entry => entry.Oid).getD 0)]
  else []

/-! ## The catalog dependency resolver

`GetDependencies` and the sequencer that orders the objects are not among the sources
at hand: only the tests of `GetDependencies` are (`integration/dependency_queries_test.go`).
The definitions of this section follow the specification, sections 3, 4.1 and 4.2. -/

/-- Modelled from the spec: `backup.DepEntry` (the spec's `CatalogObjectRef`), of which
the tests only show the fields `Classid` and `Objid`: the catalog class of an object and
its id within the class.  Equality is structural. -/
structure DepEntry where
  Classid : Nat
  Objid : Nat
deriving DecidableEq, Repr

/-- Modelled from the spec: the relationship kinds of section 4.1, by which
`GetDependencies` (not among the sources) derives its edges. -/
inductive Relationship where
  /-- a child table and a direct parent table -/
  | inheritance
  /-- a table and the external protocol it uses -/
  | tableProtocol
  /-- a protocol and one of its read, write or validator functions -/
  | protocolFunction
  /-- a view and a relation referenced in its defining query -/
  | viewRelation
  /-- a function and a user-defined type of its argument list or return type, found by
  scanning the argument and return types -/
  | functionType
  /-- a domain and its base type -/
  | domainBase
  /-- a composite type and the type of one of its attributes: one row per attribute -/
  | compositeAttribute
  /-- a user-defined base type and its input or output function -/
  | baseTypeFunction
deriving DecidableEq, Repr

/-- Modelled from the spec: one row of the catalog relationship data that
`GetDependencies` (not among the sources) queries: by the rule of its kind, `dependent`
is to be created after `prerequisite`. -/
structure CatalogRow where
  kind : Relationship
  dependent : DepEntry
  prerequisite : DepEntry
deriving DecidableEq, Repr

/-- Modelled from the spec: the dependency mapping `GetDependencies` (not among the
sources) returns, from a dependent to the set of its prerequisites; the dependents are
kept in the order of the backup set. -/
abbrev DependencyMap := List (DepEntry × List DepEntry)

/-- Modelled from the spec: the lookup in the mapping of `GetDependencies` (not among the
sources); no entry means no prerequisites. -/
def prerequisites : DependencyMap → DepEntry → List DepEntry
  | [], _ => []
  | (dependent, deps) :: rest, object =>
    if dependent = object then deps else prerequisites rest object

/-- Modelled from the spec: in the catalog, `function` is an input or output function of
the base type `baseType` (part of `GetDependencies`, not among the sources). -/
def isIOFunctionOf (catalog : List CatalogRow) (function baseType : DepEntry) : Bool :=
  catalog.any fun row =>
    decide (row.kind = .baseTypeFunction ∧ row.dependent = baseType ∧ row.prerequisite = function)

/-- Modelled from the spec: the rule for the one legitimate mutual dependency (part of
`GetDependencies`, not among the sources): every row gives an edge, except the row
that argument and return type scanning finds from an input or output function to its own
base type. -/
def edgeAsserted (catalog : List CatalogRow) (row : CatalogRow) : Bool :=
  !(decide (row.kind = .functionType) &&
    isIOFunctionOf catalog row.dependent row.prerequisite)

/-- Modelled from the spec: the prerequisites `GetDependencies` (not among the sources)
records for an object: the prerequisites of the asserted rows of the object, restricted
to the backup set, each once. -/
def prerequisitesOf (catalog : List CatalogRow) (backupSet : List DepEntry)
    (object : DepEntry) : List DepEntry :=
  ((catalog.filter fun row =>
      edgeAsserted catalog row && decide (row.dependent = object) &&
        decide (row.prerequisite ∈ backupSet)).map fun row => row.prerequisite).dedup

/-- Modelled from the spec: `backup.GetDependencies` (the spec's `build`), which is not
among the sources; `catalog` stands for the relationship data it reads through the
connection.  The mapping has an entry for every object of the backup set that has a
prerequisite in the backup set, and for no other. -/
def GetDependencies (catalog : List CatalogRow) (backupSet : List DepEntry) : DependencyMap :=
  backupSet.filterMap fun object =>
    match prerequisitesOf catalog backupSet object with
    | [] => none
    | deps => some (object, deps)

/-- Modelled from the spec: the test of the sequencer (not among the sources) that all
prerequisites of an object have been emitted. -/
def ready (mapping : DependencyMap) (emitted : List DepEntry) (object : DepEntry) : Bool :=
  (prerequisites mapping object).all fun p => decide (p ∈ emitted)

/-- Modelled from the spec: the loop of the sequencer (not among the sources).  It emits
the first of the remaining objects, in the original order, all of whose prerequisites
have been emitted, until none remains; when objects remain and none can be emitted it
fails, naming them (`CycleDetected`).  Each round emits one object, so `fuel` rounds
suffice for `fuel` remaining objects. -/
def sequenceFrom (mapping : DependencyMap) :
    Nat → List DepEntry → List DepEntry → Except (List DepEntry) (List DepEntry)
  | 0, emitted, remaining => if remaining = [] then .ok emitted else .error remaining
  | fuel + 1, emitted, remaining =>
    match remaining.find? (ready mapping emitted) with
    | none => if remaining = [] then .ok emitted else .error remaining
    | some next => sequenceFrom mapping fuel (emitted ++ [next]) (remaining.erase next)

/-- Modelled from the spec: the sequencer (`sequence` of section 4.2), which is not among
the sources: the objects in an order in which every prerequisite precedes its dependent,
ties broken by the original order, or `CycleDetected` with the objects that cannot be
ordered. -/
def sequence (objects : List DepEntry) (mapping : DependencyMap) :
    Except (List DepEntry) (List DepEntry) :=
  sequenceFrom mapping objects.length [] objects

/-- The sample catalog of a base type with its input and output function: the two rows
of the type, and the two rows that scanning the functions finds (`tin` returns the type,
`tout` takes it). -/
def baseTypeCatalog (t tin tout : DepEntry) : List CatalogRow :=
  [⟨.baseTypeFunction, t, tin⟩, ⟨.baseTypeFunction, t, tout⟩, ⟨.functionType, tin, t⟩,
    ⟨.functionType, tout, t⟩]

/-- The sample catalog of a composite type with `n` attributes of the type `base`. -/
def compositeCatalog (composite base : DepEntry) (n : Nat) : List CatalogRow :=
  List.replicate n ⟨.compositeAttribute, composite, base⟩

/-- The relation of the mapping: `p` is a prerequisite of `q`. -/
def dependsOn (mapping : DependencyMap) (p q : DepEntry) : Prop :=
  p ∈ prerequisites mapping q

/-- The mapping has no cycle: no object is, through any chain of edges, a prerequisite
of itself. -/
def Acyclic (mapping : DependencyMap) : Prop :=
  ∀ object, ¬ Relation.TransGen (dependsOn mapping) object object

/-- In the list every prerequisite of an object stands before the object. -/
def Ordered (mapping : DependencyMap) (sorted : List DepEntry) : Prop :=
  ∀ before object after, sorted = before ++ object :: after →
    ∀ p ∈ prerequisites mapping object, p ∈ before

/-- A sample environment with a storage plugin configured. -/
def pluginEnv : Env :=
  { sampleEnv false false 1 none with
    PluginConfigFlag := "/tmp/s3.yaml"
    ExecutablePath := "/usr/bin/s3_plugin"
    ConfigPath := "/tmp/s3.yaml" }

/-- A sample environment with plain files in which `Exec` answers the copy of the table
with oid `bad` with a connection-level error, which is not a `pgx.PgError`, and every
other copy with 5 rows. -/
def brokenEnv (onErrorContinue : Bool) (numConns bad : Nat) : Env :=
  { sampleEnv false onErrorContinue numConns none with
    Exec := fun _ query _ =>
      if query = copyQuery (sampleEnv false onErrorContinue numConns none) "public.t" "(i)"
          (destinationToRead (sampleEnv false onErrorContinue numConns none)
            (sampleEntry bad 5)) false
      then .error (.other "conn is dead") else .ok 5 }

/-! ### Quantities of the later claims -/

/-- The connections `setGUCsForConnection` was called for, in the order of the calls. -/
def gucConns (tr : List Effect) : List Nat :=
  tr.filterMap fun
    | .setGUCs whichConn => some whichConn
    | _ => none

/-- The number of calls of `setGUCsForConnection` a worker has made: none before its
first action, one after it. -/
def gucsDone : Option WorkerPc → Nat
  | some .start => 0
  | some _ => 1
  | none => 0

/-- In the record every call of `restoreSingleTableData` stands after a call of
`setGUCsForConnection` for the same connection. -/
def Prepared (tr : List Effect) : Prop :=
  ∀ before c e tn tot r after, tr = before ++ Effect.restore c e tn tot r :: after →
    Effect.setGUCs c ∈ before

/-- The state of a run over an empty `dataEntries`: nothing has happened but, once the
calling goroutine has acted, the log line and the return. -/
structure Untouched (env : Env) (s : PoolState) : Prop where
  workers : s.workers = []
  tasks : s.tasks = []
  closed : s.closed = false
  progress : s.progress = 0
  numErrors : s.numErrors = 0
  tableNum : s.tableNum = 1
  notPrint : s.notPrint = env.NotPrint
  panicked : s.panicked = false
  record : (s.mainPc = .entry ∧ s.trace = []) ∨
    (s.mainPc = .returned ∧
      s.trace = [.verbose ("No data to restore for timestamp = " ++ env.Timestamp)])

/-- The worker has added 1 to `tableNum` and has not yet advanced the progress bar. -/
def atIncr : WorkerPc → Nat
  | .incr => 1
  | _ => 0

/-- The values of `tableNum` handed to `restoreSingleTableData`, in the order of the
calls. -/
def attemptNums (tr : List Effect) : List Nat :=
  tr.filterMap fun
    | .restore _ _ tableNum _ _ => some tableNum
    | _ => none

/-- The worker has left its loop. -/
def exited : WorkerPc → Bool
  | .done => true
  | .crashed => true
  | _ => false

/-! ## Theorems -/

/-! ### Schedules -/

theorem runFrom_append (env : Env) (des : List MasterDataEntry) (s : PoolState)
    (a b : List Event) :
    runFrom env des s (a ++ b) = runFrom env des (runFrom env des s a) b := by
  simp [runFrom, List.foldl_append]

theorem runFrom_cons (env : Env) (des : List MasterDataEntry) (s : PoolState)
    (ev : Event) (sched : List Event) :
    runFrom env des s (ev :: sched) = runFrom env des (step env des s ev) sched := rfl

theorem run_append (env : Env) (des : List MasterDataEntry) (a b : List Event) :
    run env des (a ++ b) = runFrom env des (run env des a) b :=
  runFrom_append env des _ a b

/-- A property kept by every action of every goroutine, by the signal handler and by the
passing of time is kept by `step`. -/
theorem step_preserves (env : Env) (des : List MasterDataEntry) (P : PoolState → Prop)
    (hclock : ∀ s c, P s → P { s with clock := c })
    (hmain : ∀ s, P s → P (mainStep env des s))
    (hworker : ∀ s i, P s → P (workerStep env des i s))
    (hint : ∀ s, P s → P { s with wasTerminated := true })
    (s : PoolState) (ev : Event) (h : P s) : P (step env des s ev) := by
  unfold step
  split
  · exact h
  · cases ev with
    | main => exact hclock _ _ (hmain s h)
    | worker i => exact hclock _ _ (hworker s i h)
    | interrupt => exact hclock _ _ (hint s h)

theorem runFrom_preserves (env : Env) (des : List MasterDataEntry) (P : PoolState → Prop)
    (hstep : ∀ s ev, P s → P (step env des s ev))
    (sched : List Event) : ∀ s, P s → P (runFrom env des s sched) := by
  induction sched with
  | nil => intro s h; exact h
  | cons ev rest ih => intro s h; exact ih _ (hstep s ev h)

/-! ### Sums over the workers -/

theorem total_nil (f : WorkerPc → Nat) : total f [] = 0 := rfl

theorem total_cons (f : WorkerPc → Nat) (a : WorkerPc) (l : List WorkerPc) :
    total f (a :: l) = f a + total f l := by
  simp [total]

theorem total_append (f : WorkerPc → Nat) (l₁ l₂ : List WorkerPc) :
    total f (l₁ ++ l₂) = total f l₁ + total f l₂ := by
  simp [total]

theorem total_set (f : WorkerPc → Nat) {l : List WorkerPc} {i : Nat} {a : WorkerPc}
    (h : l[i]? = some a) (b : WorkerPc) :
    total f (l.set i b) + f a = total f l + f b := by
  induction l generalizing i with
  | nil => simp at h
  | cons x xs ih =>
    cases i with
    | zero =>
      simp at h
      subst h
      simp [total_cons]
      omega
    | succ n =>
      simp at h
      have := ih h
      simp [total_cons]
      omega

theorem total_ge (f : WorkerPc → Nat) {l : List WorkerPc} {i : Nat} {a : WorkerPc}
    (h : l[i]? = some a) : f a ≤ total f l := by
  induction l generalizing i with
  | nil => simp at h
  | cons x xs ih =>
    cases i with
    | zero =>
      simp at h
      subst h
      simp [total_cons]
    | succ n =>
      simp at h
      have := ih h
      simp [total_cons]
      omega

theorem total_set_eq (f : WorkerPc → Nat) {l : List WorkerPc} {i : Nat} {a : WorkerPc}
    (h : l[i]? = some a) (b : WorkerPc) :
    total f (l.set i b) = total f l - f a + f b := by
  have h1 := total_set f h b
  have h2 := total_ge f h
  omega

theorem total_eq_zero (f : WorkerPc → Nat) {l : List WorkerPc}
    (h : ∀ pc ∈ l, f pc = 0) : total f l = 0 := by
  induction l with
  | nil => rfl
  | cons x xs ih =>
    rw [total_cons, h x (List.mem_cons_self _ _), ih fun pc hpc => h pc (List.mem_cons_of_mem _ hpc)]

/-- A property of every worker still holds after one worker has moved, when it holds of
that worker at its new position and is kept for the others. -/
theorem forall_getElem?_set {Q Q' : Nat → WorkerPc → Prop} {l : List WorkerPc} {i : Nat}
    {b : WorkerPc} (h : ∀ (j : Nat) (pc : WorkerPc), l[j]? = some pc → Q j pc)
    (hmono : ∀ (j : Nat) (pc : WorkerPc), j ≠ i → Q j pc → Q' j pc)
    (hb : i < l.length → Q' i b) :
    ∀ (j : Nat) (pc : WorkerPc), (l.set i b)[j]? = some pc → Q' j pc := by
  intro j pc hj
  rw [List.getElem?_set] at hj
  split at hj
  · next hij =>
    subst hij
    split at hj
    · next hlt => cases hj; exact hb hlt
    · cases hj
  · next hij => exact hmono j pc (fun h' => hij h'.symm) (h j pc hj)

/-! ### Reading the record -/

@[simp]
theorem attempts_nil : attempts [] = [] := rfl

@[simp]
theorem attempts_cons (ef : Effect) (tr : List Effect) :
    attempts (ef :: tr) = (match ef with
      | .restore _ entry _ _ _ => [entry]
      | _ => []) ++ attempts tr := by
  cases ef <;> simp [attempts]

@[simp]
theorem attempts_append (a b : List Effect) :
    attempts (a ++ b) = attempts a ++ attempts b := by
  simp [attempts, List.filterMap_append]

@[simp]
theorem attemptsBy_nil (i : Nat) : attemptsBy i [] = [] := rfl

@[simp]
theorem attemptsBy_cons (i : Nat) (ef : Effect) (tr : List Effect) :
    attemptsBy i (ef :: tr) = (match ef with
      | .restore j entry _ _ _ => if j = i then [entry] else []
      | _ => []) ++ attemptsBy i tr := by
  cases ef <;> simp [attemptsBy, List.filterMap_cons]
  next j e _ _ _ => by_cases h : j = i <;> simp [h]

@[simp]
theorem attemptsBy_append (i : Nat) (a b : List Effect) :
    attemptsBy i (a ++ b) = attemptsBy i a ++ attemptsBy i b := by
  simp [attemptsBy, List.filterMap_append]

@[simp]
theorem dequeues_nil : dequeues [] = [] := rfl

@[simp]
theorem dequeues_cons (ef : Effect) (tr : List Effect) :
    dequeues (ef :: tr) = (match ef with
      | .dequeue _ entry => [entry]
      | _ => []) ++ dequeues tr := by
  cases ef <;> simp [dequeues]

@[simp]
theorem dequeues_append (a b : List Effect) :
    dequeues (a ++ b) = dequeues a ++ dequeues b := by
  simp [dequeues, List.filterMap_append]

@[simp]
theorem dequeuesBy_nil (i : Nat) : dequeuesBy i [] = [] := rfl

@[simp]
theorem dequeuesBy_cons (i : Nat) (ef : Effect) (tr : List Effect) :
    dequeuesBy i (ef :: tr) = (match ef with
      | .dequeue j entry => if j = i then [entry] else []
      | _ => []) ++ dequeuesBy i tr := by
  cases ef <;> simp [dequeuesBy, List.filterMap_cons]
  next j e => by_cases h : j = i <;> simp [h]

@[simp]
theorem dequeuesBy_append (i : Nat) (a b : List Effect) :
    dequeuesBy i (a ++ b) = dequeuesBy i a ++ dequeuesBy i b := by
  simp [dequeuesBy, List.filterMap_append]

@[simp]
theorem successes_nil : successes [] = 0 := rfl

@[simp]
theorem successes_cons (ef : Effect) (tr : List Effect) :
    successes (ef :: tr) = (match ef with
      | .restore _ _ _ _ (.ret none) => 1
      | _ => 0) + successes tr := by
  unfold successes
  rw [List.countP_cons, Nat.add_comm]
  cases ef <;> simp
  next r => rcases r with (_ | _) | _ <;> simp

@[simp]
theorem successes_append (a b : List Effect) :
    successes (a ++ b) = successes a + successes b := by
  simp [successes, List.countP_append]

@[simp]
theorem failures_nil : failures [] = 0 := rfl

@[simp]
theorem failures_cons (ef : Effect) (tr : List Effect) :
    failures (ef :: tr) = (match ef with
      | .restore _ _ _ _ (.ret (some _)) => 1
      | _ => 0) + failures tr := by
  unfold failures
  rw [List.countP_cons, Nat.add_comm]
  cases ef <;> simp
  next r => rcases r with (_ | _) | _ <;> simp

@[simp]
theorem failures_append (a b : List Effect) :
    failures (a ++ b) = failures a + failures b := by
  simp [failures, List.countP_append]

@[simp]
theorem failedConns_nil : failedConns [] = [] := rfl

@[simp]
theorem failedConns_cons (ef : Effect) (tr : List Effect) :
    failedConns (ef :: tr) = (match ef with
      | .restore _ _ _ _ (.ret none) => []
      | .restore j _ _ _ _ => [j]
      | _ => []) ++ failedConns tr := by
  unfold failedConns
  rw [List.filterMap_cons]
  split <;> split <;> simp_all

@[simp]
theorem failedConns_append (a b : List Effect) :
    failedConns (a ++ b) = failedConns a ++ failedConns b := by
  simp [failedConns, List.filterMap_append]

@[simp]
theorem summaries_nil : summaries [] = [] := rfl

@[simp]
theorem summaries_cons (ef : Effect) (tr : List Effect) :
    summaries (ef :: tr) = (match ef with
      | .summary n _ => [n]
      | _ => []) ++ summaries tr := by
  cases ef <;> simp [summaries]

@[simp]
theorem summaries_append (a b : List Effect) :
    summaries (a ++ b) = summaries a ++ summaries b := by
  simp [summaries, List.filterMap_append]

/-! ### Case analysis of the actions -/

/-- Case analysis of one action of a worker: a property holds after `workerStep` when it
holds after each of the actions a worker can perform.  In every case the last hypothesis
tells where the worker stands. -/
theorem workerStep_cases {env : Env} {des : List MasterDataEntry} {i : Nat} {s : PoolState}
    {P : PoolState → Prop}
    (idle : P s)
    (start : s.workers[i]? = some .start → P ((s.emit [.setGUCs i]).setPc i .recv))
    (recv : ∀ entry rest, s.tasks = entry :: rest → s.workers[i]? = some .recv →
      P (({ s with tasks := rest }.emit [.dequeue i entry]).setPc i (.check entry)))
    (eof : s.tasks = [] → s.closed = true → s.workers[i]? = some .recv →
      P (s.setPc i .done))
    (term : ∀ entry, s.wasTerminated = true → s.workers[i]? = some (.check entry) →
      P ({ s with notPrint := true }.setPc i .done))
    (pass : ∀ entry, s.wasTerminated = false → s.workers[i]? = some (.check entry) →
      P (s.setPc i (.call entry)))
    (callPanic : ∀ entry,
      restoreSingleTableData env (env.Exec s.clock) entry s.tableNum des.length i = .panic →
      s.workers[i]? = some (.call entry) →
      P ({ s.emit [.verbose (restoreVerboseLine env entry s.tableNum des.length),
            .restore i entry s.tableNum des.length .panic] with panicked := true }.setPc i
              .crashed))
    (callOk : ∀ entry,
      restoreSingleTableData env (env.Exec s.clock) entry s.tableNum des.length i
        = .ret none →
      s.workers[i]? = some (.call entry) →
      P ((s.emit [.verbose (restoreVerboseLine env entry s.tableNum des.length),
            .restore i entry s.tableNum des.length (.ret none)]).setPc i .agent))
    (callErr : ∀ entry err,
      restoreSingleTableData env (env.Exec s.clock) entry s.tableNum des.length i
        = .ret (some err) →
      s.workers[i]? = some (.call entry) →
      P ((s.emit [.verbose (restoreVerboseLine env entry s.tableNum des.length),
            .restore i entry s.tableNum des.length (.ret (some err))]).setPc i
              (.failed err)))
    (failStop : ∀ err, env.OnErrorContinue = false → s.workers[i]? = some (.failed err) →
      P ({ s.emit [.logError err] with
            numErrors := wrapInt32 (s.numErrors + 1), notPrint := true }.setPc i .done))
    (failCont : ∀ err, env.OnErrorContinue = true → s.workers[i]? = some (.failed err) →
      P ({ s.emit [.logError err] with
            numErrors := wrapInt32 (s.numErrors + 1) }.setPc i .agent))
    (agentErr : ∀ err, env.SingleDataFile = true →
      env.CheckAgentErrorsOnSegments s.clock = some err → s.workers[i]? = some .agent →
      P ((s.emit [.logError err]).setPc i .done))
    (agentOk : (env.SingleDataFile = true → env.CheckAgentErrorsOnSegments s.clock = none) →
      s.workers[i]? = some .agent → P (s.setPc i .advance))
    (advance : s.workers[i]? = some .advance →
      P ({ s with tableNum := wrapUint32 (s.tableNum + 1) }.setPc i .incr))
    (incr : s.workers[i]? = some .incr →
      P ({ s with progress := s.progress + 1 }.setPc i .recv)) :
    P (workerStep env des i s) := by
  unfold workerStep
  split
  · exact idle
  · next h => exact start h
  · next h =>
    split
    · next e rest ht => exact recv e rest ht h
    · next ht =>
      split
      · next hc => exact eof ht hc h
      · exact idle
  · next e h =>
    split
    · next ht => exact term e ht h
    · next ht => exact pass e (by simpa using ht) h
  · next e h =>
    have h1 := fun hr => callPanic e hr h
    have h2 := fun hr => callOk e hr h
    have h3 := fun err hr => callErr e err hr h
    revert h1 h2 h3
    generalize restoreSingleTableData env (env.Exec s.clock) e s.tableNum des.length i = r
    intro h1 h2 h3
    match r with
    | .panic => exact h1 rfl
    | .ret none => exact h2 rfl
    | .ret (some err) => exact h3 err rfl
  · next err h =>
    cases hc : env.OnErrorContinue
    · simpa [hc] using failStop err hc h
    · simpa [hc] using failCont err hc h
  · next h =>
    split
    · next hs =>
      split
      · next e he => exact agentErr e hs he h
      · next he => exact agentOk (fun _ => he) h
    · next hs => exact agentOk (fun h' => absurd h' hs) h
  · next h => exact advance h
  · next h => exact incr h
  · exact idle
  · exact idle

/-- Case analysis of one action of the calling goroutine.  In every case the last
hypothesis tells where the calling goroutine stands. -/
theorem mainStep_cases {env : Env} {des : List MasterDataEntry} {s : PoolState}
    {P : PoolState → Prop}
    (idle : P s)
    (empty : des = [] → s.mainPc = .entry →
      P { s.emit [.verbose ("No data to restore for timestamp = " ++ env.Timestamp)] with
          mainPc := .returned })
    (setup : des ≠ [] → env.SingleDataFile = true → s.mainPc = .entry →
      P { s.emit [.verbose
            "Initializing pipes and gpbackup_helper on segments for single data file restore",
          .verifyHelperVersion,
          .writeOidList (des.map fun entry => fmtUint entry.Oid),
          .createFirstSegmentPipe
            (fmtUint ((des.head?.map fun entry => entry.Oid).getD 0))] with
        mainPc := .termCheck })
    (plain : des ≠ [] → env.SingleDataFile = false → s.mainPc = .entry →
      P { s with mainPc := .spawn 0 })
    (termRet : s.wasTerminated = true → s.mainPc = .termCheck →
      P { s with mainPc := .returned })
    (termGo : s.wasTerminated = false → s.mainPc = .termCheck →
      P { s.emit [.startHelpers env.PluginConfigFlag env.OnErrorContinue] with
          mainPc := .spawn 0 })
    (spawn : ∀ i, i < env.NumConns → s.mainPc = .spawn i →
      P { s with workers := s.workers ++ [.start], mainPc := .spawn (i + 1) })
    (spawnEnd : ∀ i, ¬ i < env.NumConns → s.mainPc = .spawn i →
      P { s with mainPc := .send des })
    (sendEnd : s.mainPc = .send [] → P { s with mainPc := .close })
    (send : ∀ entry rest, s.tasks.length < des.length → s.mainPc = .send (entry :: rest) →
      P { s with tasks := s.tasks ++ [entry], mainPc := .send rest })
    (close : s.mainPc = .close → P { s with closed := true, mainPc := .wait })
    (wait : (∀ pc ∈ s.workers, pc = .done) → s.mainPc = .wait →
      P { s with mainPc := .summary })
    (summaryLog : s.numErrors > 0 → s.mainPc = .summary →
      P { s.emit [.summary s.numErrors env.LogFilePath] with mainPc := .returned })
    (summaryQuiet : ¬ s.numErrors > 0 → s.mainPc = .summary →
      P { s with mainPc := .returned }) :
    P (mainStep env des s) := by
  unfold mainStep
  split
  · next h =>
    split
    · next h0 => exact empty (List.length_eq_zero.mp h0) h
    · next h0 =>
      have h0 : des ≠ [] := fun hd => h0 (by simp [hd])
      split
      · next hs => exact setup h0 hs h
      · next hs => exact plain h0 (by simpa using hs) h
  · next h =>
    split
    · next ht => exact termRet ht h
    · next ht => exact termGo (by simpa using ht) h
  · next i h =>
    split
    · next hi => exact spawn i hi h
    · next hi => exact spawnEnd i hi h
  · next h => exact sendEnd h
  · next e rest h =>
    split
    · next hl => exact send e rest hl h
    · exact idle
  · next h => exact close h
  · next h =>
    split
    · next hw => exact wait (by simpa using hw) h
    · exact idle
  · next h =>
    split
    · next hn => exact summaryLog hn h
    · next hn => exact summaryQuiet hn h
  · exact idle

/-! ### The invariant of all runs -/

theorem sound_init (env : Env) (des : List MasterDataEntry) :
    Sound env des (PoolState.init env) := by
  constructor <;> simp [PoolState.init, MainPc.phase, MainPc.unsent, dequeues, attempts,
    total, failures]
  simp [wrapInt32]


set_option maxHeartbeats 1000000 in
theorem sound_main (env : Env) (des : List MasterDataEntry) (s : PoolState)
    (h : Sound env des s) : Sound env des (mainStep env des s) := by
  apply mainStep_cases
  · exact h
  all_goals
    intros
    obtain ⟨h1, h2, h3, h4, h5, h6, h7, h8, h9, h10, h11, h12, h13, h14⟩ := h
    constructor <;> simp only [PoolState.emit] <;> (try assumption)
  all_goals
    try (simp [*, MainPc.phase, MainPc.unsent, total_append, total_cons, total_nil,
      isFailed, held, heldLen, List.getElem?_append]; done)
  all_goals
    try (simp_all [MainPc.phase, MainPc.unsent, total_append, total_cons, total_nil,
      isFailed, held, heldLen, List.getElem?_append]; done)
  case spawn.mk.held_mem =>
    intro j pc hj
    rw [List.getElem?_append] at hj
    split at hj
    · exact h2 j pc hj
    · have : pc = .start := by
        rcases Nat.eq_zero_or_pos (j - s.workers.length) with h0 | h0
        · simp [h0] at hj; exact hj.symm
        · rw [List.getElem?_eq_none (by simp; omega)] at hj; cases hj
      subst this
      simp [held]
  case spawn.mk.workers_le =>
    rename_i i hlt hi
    have := h4 i hi
    simp
    omega
  case spawnEnd.mk.full =>
    rename_i i hlt hi
    have := h4 i hi
    intros
    omega
  case send.mk.tasks_mem =>
    rename_i e rest hl hm
    have := h8 (by simp [hm, MainPc.phase])
    intro x hx
    rw [← this]
    simp [hm, MainPc.unsent]
    rcases List.mem_append.mp hx with hx | hx
    · exact Or.inr (Or.inl hx)
    · simp at hx; exact Or.inr (Or.inr (Or.inl hx))
  case wait.mk.all_done =>
    rename_i hall hm
    intro _ j pc hj
    exact hall pc (List.getElem?_mem hj)
  case summaryLog.mk.all_done =>
    rename_i hn hm
    intro _
    exact h12 (by simp [hm, MainPc.phase])
  case summaryQuiet.mk.all_done =>
    rename_i hn hm
    intro _
    exact h12 (by simp [hm, MainPc.phase])

theorem workerStep_mainPc (env : Env) (des : List MasterDataEntry) (i : Nat) (s : PoolState) :
    (workerStep env des i s).mainPc = s.mainPc := by
  apply workerStep_cases (P := fun t => t.mainPc = s.mainPc) <;> intros <;> rfl

theorem workerStep_closed (env : Env) (des : List MasterDataEntry) (i : Nat) (s : PoolState) :
    (workerStep env des i s).closed = s.closed := by
  apply workerStep_cases (P := fun t => t.closed = s.closed) <;> intros <;> rfl

theorem workerStep_wasTerminated (env : Env) (des : List MasterDataEntry) (i : Nat)
    (s : PoolState) : (workerStep env des i s).wasTerminated = s.wasTerminated := by
  apply workerStep_cases (P := fun t => t.wasTerminated = s.wasTerminated) <;> intros <;> rfl

theorem workerStep_length (env : Env) (des : List MasterDataEntry) (i : Nat) (s : PoolState) :
    (workerStep env des i s).workers.length = s.workers.length := by
  apply workerStep_cases (P := fun t => t.workers.length = s.workers.length) <;> intros <;> simp [PoolState.setPc, PoolState.emit]

theorem workerStep_nil (env : Env) (des : List MasterDataEntry) (i : Nat) (s : PoolState) :
    (workerStep env des i s).workers = [] ↔ s.workers = [] := by
  rw [← List.length_eq_zero, workerStep_length, List.length_eq_zero]

theorem sound_worker_tasks (env : Env) (des : List MasterDataEntry) (s : PoolState) (i : Nat)
    (h : Sound env des s) : ∀ e ∈ (workerStep env des i s).tasks, e ∈ des := by
  refine And.left (b := True) ?_
  apply workerStep_cases (P := fun t => (∀ e ∈ t.tasks, e ∈ des) ∧ True)
  case recv =>
    intro e rest ht _
    refine ⟨fun x hx => ?_, trivial⟩
    exact h.tasks_mem x (by rw [ht]; exact List.mem_cons_of_mem _ hx)
  all_goals intros; exact ⟨h.tasks_mem, trivial⟩

theorem sound_worker_held (env : Env) (des : List MasterDataEntry) (s : PoolState) (i : Nat)
    (h : Sound env des s) : ∀ (j : Nat) (pc : WorkerPc),
      (workerStep env des i s).workers[j]? = some pc → ∀ e ∈ held pc, e ∈ des := by
  refine And.left (b := True) ?_
  apply workerStep_cases (P := fun t => (∀ (j : Nat) (pc : WorkerPc),
      t.workers[j]? = some pc → ∀ e ∈ held pc, e ∈ des) ∧ True)
  · exact ⟨h.held_mem, trivial⟩
  case recv =>
    intro e rest ht _
    refine ⟨forall_getElem?_set h.held_mem (fun _ _ _ hq => hq) ?_, trivial⟩
    intro _ x hx
    simp [held] at hx
    subst hx
    exact h.tasks_mem _ (by simp [ht])
  case pass =>
    intro e _ hpc
    refine ⟨forall_getElem?_set h.held_mem (fun _ _ _ hq => hq) ?_, trivial⟩
    intro _ x hx
    exact h.held_mem i _ hpc x (by simpa [held] using hx)
  all_goals
    intros
    refine ⟨forall_getElem?_set h.held_mem (fun _ _ _ hq => hq) ?_, trivial⟩
    simp [held]

theorem sound_worker_quiet (env : Env) (des : List MasterDataEntry) (s : PoolState) (i : Nat)
    (h : Sound env des s) : (workerStep env des i s).workers = [] →
      dequeues (workerStep env des i s).trace = [] ∧
        attempts (workerStep env des i s).trace = [] := by
  intro h0
  have h0 := (workerStep_nil env des i s).mp h0
  have hq := h.quiet h0
  have : workerStep env des i s = s := by
    unfold workerStep
    simp [h0]
  rw [this]
  exact hq

theorem sound_worker_fifo (env : Env) (des : List MasterDataEntry) (s : PoolState) (i : Nat) :
    dequeues (workerStep env des i s).trace ++ (workerStep env des i s).tasks
      = dequeues s.trace ++ s.tasks := by
  apply workerStep_cases (P := fun t => dequeues t.trace ++ t.tasks
      = dequeues s.trace ++ s.tasks)
  · rfl
  case recv =>
    intro e rest ht _
    simp [PoolState.setPc, PoolState.emit, ht]
  all_goals
    intros
    simp [PoolState.setPc, PoolState.emit]

theorem sound_worker_all_done (env : Env) (des : List MasterDataEntry) (s : PoolState) (i : Nat)
    (h : Sound env des s) (h6 : 6 ≤ s.mainPc.phase) : workerStep env des i s = s := by
  have hd := h.all_done h6
  unfold workerStep
  cases hpc : s.workers[i]? with
  | none => rfl
  | some pc =>
    have := hd i pc hpc
    subst this
    rfl

theorem sound_worker_held_le (env : Env) (des : List MasterDataEntry) (s : PoolState) (i : Nat)
    (h : Sound env des s) :
    (attempts (workerStep env des i s).trace).length
      + total heldLen (workerStep env des i s).workers
      ≤ (dequeues (workerStep env des i s).trace).length := by
  have h13 := h.held_le
  apply workerStep_cases (P := fun t => (attempts t.trace).length
      + total heldLen t.workers ≤ (dequeues t.trace).length)
  · exact h13
  all_goals
    intros
    rename_i hpc
    have hge := total_ge heldLen hpc
    simp only [PoolState.setPc, PoolState.emit, total_set_eq _ hpc]
    simp [heldLen] at hge ⊢
    omega

theorem wrapInt32_succ (c : Nat) :
    wrapInt32 (wrapInt32 c + 1) = wrapInt32 ((c + 1 : Nat) : Int) := by
  unfold wrapInt32
  push_cast
  omega

theorem sound_worker_errs (env : Env) (des : List MasterDataEntry) (s : PoolState) (i : Nat)
    (h : Sound env des s) :
    ∃ c : Nat, (workerStep env des i s).numErrors = wrapInt32 c ∧
      c + total isFailed (workerStep env des i s).workers
        = failures (workerStep env des i s).trace := by
  obtain ⟨c, hc1, hc2⟩ := h.errs
  apply workerStep_cases (P := fun t => ∃ c : Nat, t.numErrors = wrapInt32 c ∧
      c + total isFailed t.workers = failures t.trace)
  · exact ⟨c, hc1, hc2⟩
  case failStop =>
    intro err _ hpc
    refine ⟨c + 1, ?_, ?_⟩
    · simp only [PoolState.setPc, PoolState.emit, hc1, wrapInt32_succ]
    · have hge := total_ge isFailed hpc
      simp only [PoolState.setPc, PoolState.emit, total_set_eq _ hpc]
      simp [isFailed] at hge ⊢
      omega
  case failCont =>
    intro err _ hpc
    refine ⟨c + 1, ?_, ?_⟩
    · simp only [PoolState.setPc, PoolState.emit, hc1, wrapInt32_succ]
    · have hge := total_ge isFailed hpc
      simp only [PoolState.setPc, PoolState.emit, total_set_eq _ hpc]
      simp [isFailed] at hge ⊢
      omega
  all_goals
    intros
    rename_i hpc
    refine ⟨c, ?_, ?_⟩
    · simpa only [PoolState.setPc, PoolState.emit] using hc1
    · have hge := total_ge isFailed hpc
      simp only [PoolState.setPc, PoolState.emit, total_set_eq _ hpc]
      simp [isFailed] at hge ⊢
      omega

theorem sound_worker (env : Env) (des : List MasterDataEntry) (s : PoolState) (i : Nat)
    (h : Sound env des s) : Sound env des (workerStep env des i s) := by
  by_cases h6 : 6 ≤ s.mainPc.phase
  · rw [sound_worker_all_done env des s i h h6]; exact h
  have hf := sound_worker_fifo env des s i
  constructor
  · exact sound_worker_tasks env des s i h
  · exact sound_worker_held env des s i h
  · rw [workerStep_length]; exact h.workers_le
  · rw [workerStep_length, workerStep_mainPc]; exact h.spawn_len
  · rw [workerStep_nil, workerStep_mainPc]; exact h.early
  · rw [workerStep_length, workerStep_mainPc]; exact h.full
  · exact sound_worker_quiet env des s i h
  · rw [workerStep_mainPc, hf]; exact h.fifo
  · rw [workerStep_mainPc]
    intro hr
    rw [hr] at h6
    simp [MainPc.phase] at h6
  · rw [workerStep_mainPc, workerStep_closed]; exact h.closed_phase
  · rw [workerStep_mainPc, workerStep_closed]; exact h.phase_closed
  · rw [workerStep_mainPc]; intro h6'; exact absurd h6' h6
  · exact sound_worker_held_le env des s i h
  · exact sound_worker_errs env des s i h

theorem sound_step (env : Env) (des : List MasterDataEntry) (s : PoolState) (ev : Event)
    (h : Sound env des s) : Sound env des (step env des s ev) := by
  refine step_preserves env des (Sound env des) ?_ (fun s h => sound_main env des s h)
    (fun s i h => sound_worker env des s i h) ?_ s ev h
  · intro s c h
    obtain ⟨h1, h2, h3, h4, h5, h6, h7, h8, h9, h10, h11, h12, h13, h14⟩ := h
    exact ⟨h1, h2, h3, h4, h5, h6, h7, h8, h9, h10, h11, h12, h13, h14⟩
  · intro s h
    obtain ⟨h1, h2, h3, h4, h5, h6, h7, h8, h9, h10, h11, h12, h13, h14⟩ := h
    refine ⟨h1, h2, h3, h4, h5, h6, h7, h8, ?_, h10, h11, h12, h13, h14⟩
    intro hr
    rcases h9 hr with h | ⟨h, h' | h'⟩
    · exact Or.inl h
    · exact Or.inr ⟨h, Or.inl h'⟩
    · exact Or.inr ⟨h, Or.inr rfl⟩

theorem sound_runFrom (env : Env) (des : List MasterDataEntry) (sched : List Event)
    (s : PoolState) (h : Sound env des s) : Sound env des (runFrom env des s sched) :=
  runFrom_preserves env des (Sound env des) (fun s ev h => sound_step env des s ev h) sched s h

theorem sound_run (env : Env) (des : List MasterDataEntry) (sched : List Event) :
    Sound env des (run env des sched) :=
  sound_runFrom env des sched _ (sound_init env des)

theorem faithful_init (env : Env) (des : List MasterDataEntry) :
    Faithful env des (PoolState.init env) := by
  constructor <;> simp [PoolState.init]

theorem mainStep_workers_length (env : Env) (des : List MasterDataEntry) (s : PoolState) :
    s.workers.length ≤ (mainStep env des s).workers.length := by
  apply mainStep_cases (P := fun t => s.workers.length ≤ t.workers.length) <;> intros <;>
    simp [PoolState.emit]

theorem mainStep_getElem? (env : Env) (des : List MasterDataEntry) (s : PoolState)
    (j : Nat) (hj : j < s.workers.length) :
    (mainStep env des s).workers[j]? = s.workers[j]? := by
  apply mainStep_cases (P := fun t => t.workers[j]? = s.workers[j]?) <;> intros <;>
    simp [PoolState.emit, List.getElem?_append, hj]

theorem mainStep_restore_mem (env : Env) (des : List MasterDataEntry) (s : PoolState)
    (c : Nat) (e : MasterDataEntry) (tn tot : Nat) (r : Outcome (Option GoError)) :
    Effect.restore c e tn tot r ∈ (mainStep env des s).trace ↔
      Effect.restore c e tn tot r ∈ s.trace := by
  apply mainStep_cases (P := fun t => Effect.restore c e tn tot r ∈ t.trace ↔
      Effect.restore c e tn tot r ∈ s.trace) <;> intros <;> simp [PoolState.emit]

theorem mainStep_failedConns (env : Env) (des : List MasterDataEntry) (s : PoolState) :
    failedConns (mainStep env des s).trace = failedConns s.trace := by
  apply mainStep_cases (P := fun t => failedConns t.trace = failedConns s.trace) <;>
    intros <;> simp [PoolState.emit]

theorem mainStep_attempts (env : Env) (des : List MasterDataEntry) (s : PoolState) :
    attempts (mainStep env des s).trace = attempts s.trace := by
  apply mainStep_cases (P := fun t => attempts t.trace = attempts s.trace) <;>
    intros <;> simp [PoolState.emit]

theorem mainStep_dequeues (env : Env) (des : List MasterDataEntry) (s : PoolState) :
    dequeues (mainStep env des s).trace = dequeues s.trace := by
  apply mainStep_cases (P := fun t => dequeues t.trace = dequeues s.trace) <;>
    intros <;> simp [PoolState.emit]

theorem mainStep_numErrors (env : Env) (des : List MasterDataEntry) (s : PoolState) :
    (mainStep env des s).numErrors = s.numErrors := by
  apply mainStep_cases (P := fun t => t.numErrors = s.numErrors) <;> intros <;> rfl

theorem mainStep_progress (env : Env) (des : List MasterDataEntry) (s : PoolState) :
    (mainStep env des s).progress = s.progress := by
  apply mainStep_cases (P := fun t => t.progress = s.progress) <;> intros <;> rfl

theorem mainStep_wasTerminated (env : Env) (des : List MasterDataEntry) (s : PoolState) :
    (mainStep env des s).wasTerminated = s.wasTerminated := by
  apply mainStep_cases (P := fun t => t.wasTerminated = s.wasTerminated) <;> intros <;> rfl

theorem mainStep_panicked (env : Env) (des : List MasterDataEntry) (s : PoolState) :
    (mainStep env des s).panicked = s.panicked := by
  apply mainStep_cases (P := fun t => t.panicked = s.panicked) <;> intros <;> rfl

theorem mem_failedConns {j : Nat} {tr : List Effect} (h : j ∈ failedConns tr) :
    ∃ e tn tot r, Effect.restore j e tn tot r ∈ tr := by
  induction tr with
  | nil => simp at h
  | cons ef tr ih =>
    rw [failedConns_cons, List.mem_append] at h
    rcases h with h | h
    · cases ef with
      | restore c e tn tot r =>
        refine ⟨e, tn, tot, r, ?_⟩
        rcases r with (_ | _) | _ <;> simp at h <;> simp [h]
      | _ => simp at h
    · obtain ⟨e, tn, tot, r, hm⟩ := ih h
      exact ⟨e, tn, tot, r, List.mem_cons_of_mem _ hm⟩

theorem faithful_main (env : Env) (des : List MasterDataEntry) (s : PoolState)
    (h : Faithful env des s) : Faithful env des (mainStep env des s) := by
  obtain ⟨h1, h2, h3, h4⟩ := h
  constructor
  · intro c e tn tot r hm
    rw [mainStep_restore_mem] at hm
    obtain ⟨a, b, c', d⟩ := h1 c e tn tot r hm
    exact ⟨a, Nat.lt_of_lt_of_le b (mainStep_workers_length env des s), c', d⟩
  · refine And.left (b := True) ?_
    apply mainStep_cases (P := fun t => (∀ n ∈ summaries t.trace,
      0 < n ∧ n = t.numErrors ∧ t.mainPc = .returned) ∧ True)
    · exact ⟨h2, trivial⟩
    case summaryLog =>
      intro hn hm
      refine ⟨?_, trivial⟩
      intro n hn'
      simp [PoolState.emit] at hn'
      rcases hn' with hn' | hn'
      · have := (h2 n hn').2.2
        rw [hm] at this
        cases this
      · subst hn'
        exact ⟨hn, rfl, rfl⟩
    all_goals
      intros
      rename_i hm
      refine ⟨?_, trivial⟩
      intro n hn'
      simp [PoolState.emit] at hn'
      have := (h2 n hn').2.2
      rw [hm] at this
      cases this
  · intro hc j pc hj hf
    rw [mainStep_failedConns] at hf
    by_cases hlt : j < s.workers.length
    · rw [mainStep_getElem? env des s j hlt] at hj
      exact h3 hc j pc hj hf
    · obtain ⟨e, tn, tot, r, hm⟩ := mem_failedConns hf
      exact absurd (h1 j e tn tot r hm).2.1 hlt
  · intro hc
    rw [mainStep_failedConns]
    exact h4 hc

theorem workerStep_summaries (env : Env) (des : List MasterDataEntry) (i : Nat)
    (s : PoolState) : summaries (workerStep env des i s).trace = summaries s.trace := by
  apply workerStep_cases (P := fun t => summaries t.trace = summaries s.trace) <;>
    intros <;> simp [PoolState.emit, PoolState.setPc]

theorem faithful_worker (env : Env) (des : List MasterDataEntry) (s : PoolState) (i : Nat)
    (hS : Sound env des s) (h : Faithful env des s) :
    Faithful env des (workerStep env des i s) := by
  obtain ⟨h1, h2, h3, h4⟩ := h
  constructor
  · refine And.left (b := True) ?_
    apply workerStep_cases (P := fun t => (∀ c e tn tot r,
      Effect.restore c e tn tot r ∈ t.trace → e ∈ des ∧ c < t.workers.length ∧
        tot = des.length ∧ ∃ t, restoreSingleTableData env (env.Exec t) e tn des.length c = r)
      ∧ True)
    · exact ⟨h1, trivial⟩
    case callPanic =>
      intro entry hr hpc
      refine ⟨?_, trivial⟩
      intro c e tn tot r hm
      simp only [PoolState.emit, PoolState.setPc, List.length_set] at hm ⊢
      rcases List.mem_append.mp hm with hm | hm
      · exact h1 c e tn tot r hm
      · simp at hm
        obtain ⟨rfl, rfl, rfl, rfl, rfl⟩ := hm
        exact ⟨hS.held_mem c _ hpc _ (by simp [held]), (List.getElem?_eq_some.mp hpc).1, rfl,
          s.clock, hr⟩
    case callOk =>
      intro entry hr hpc
      refine ⟨?_, trivial⟩
      intro c e tn tot r hm
      simp only [PoolState.emit, PoolState.setPc, List.length_set] at hm ⊢
      rcases List.mem_append.mp hm with hm | hm
      · exact h1 c e tn tot r hm
      · simp at hm
        obtain ⟨rfl, rfl, rfl, rfl, rfl⟩ := hm
        exact ⟨hS.held_mem c _ hpc _ (by simp [held]), (List.getElem?_eq_some.mp hpc).1, rfl,
          s.clock, hr⟩
    case callErr =>
      intro entry err hr hpc
      refine ⟨?_, trivial⟩
      intro c e tn tot r hm
      simp only [PoolState.emit, PoolState.setPc, List.length_set] at hm ⊢
      rcases List.mem_append.mp hm with hm | hm
      · exact h1 c e tn tot r hm
      · simp at hm
        obtain ⟨rfl, rfl, rfl, rfl, rfl⟩ := hm
        exact ⟨hS.held_mem c _ hpc _ (by simp [held]), (List.getElem?_eq_some.mp hpc).1, rfl,
          s.clock, hr⟩
    all_goals
      intros
      refine ⟨?_, trivial⟩
      intro c e tn tot r hm
      simp only [PoolState.emit, PoolState.setPc, List.length_set] at hm ⊢
      first
        | exact h1 c e tn tot r hm
        | exact h1 c e tn tot r (by simpa using hm)
  · intro n hn
    rw [workerStep_summaries] at hn
    have hr := (h2 n hn).2.2
    rw [sound_worker_all_done env des s i hS (by simp [hr, MainPc.phase])]
    exact h2 n hn
  · intro hc
    refine And.left (b := True) ?_
    apply workerStep_cases (P := fun t => (∀ (j : Nat) (pc : WorkerPc),
      t.workers[j]? = some pc → j ∈ failedConns t.trace → stopped pc = true) ∧ True)
    · exact ⟨h3 hc, trivial⟩
    case failCont =>
      intro err hc' _
      rw [hc] at hc'
      cases hc'
    all_goals
      intros
      rename_i hpc
      refine ⟨forall_getElem?_set (h3 hc) ?_ ?_, trivial⟩
      · intro j pc hji hq hj
        apply hq
        simp only [PoolState.emit, PoolState.setPc] at hj
        simpa [hji] using hj
      · intro _ hj
        first
          | rfl
          | exact absurd (h3 hc i _ hpc (by simpa [PoolState.emit, PoolState.setPc] using hj))
              (by simp [stopped])
  · intro hc
    have h3' := h3 hc
    have h4' := h4 hc
    apply workerStep_cases (P := fun t => (failedConns t.trace).Nodup)
    · exact h4'
    case callPanic =>
      intro entry hr hpc
      simp only [PoolState.emit, PoolState.setPc]
      simp
      rw [List.nodup_append]
      refine ⟨h4', by simp, ?_⟩
      intro a ha hb
      simp at hb
      subst hb
      have := h3' a _ hpc ha
      simp [stopped] at this
    case callErr =>
      intro entry err hr hpc
      simp only [PoolState.emit, PoolState.setPc]
      simp
      rw [List.nodup_append]
      refine ⟨h4', by simp, ?_⟩
      intro a ha hb
      simp at hb
      subst hb
      have := h3' a _ hpc ha
      simp [stopped] at this
    all_goals
      intros
      simpa [PoolState.emit, PoolState.setPc] using h4'

theorem faithful_step (env : Env) (des : List MasterDataEntry) (s : PoolState) (ev : Event)
    (hS : Sound env des s) (h : Faithful env des s) : Faithful env des (step env des s ev) := by
  unfold Gpbackup.step
  split
  · exact h
  · have hclock : ∀ (t : PoolState) (c : Nat), Faithful env des t →
        Faithful env des { t with clock := c } := by
      intro t c ht
      obtain ⟨h1, h2, h3, h4⟩ := ht
      exact ⟨h1, h2, h3, h4⟩
    cases ev with
    | main => exact hclock _ _ (faithful_main env des s h)
    | worker i => exact hclock _ _ (faithful_worker env des s i hS h)
    | interrupt =>
      obtain ⟨h1, h2, h3, h4⟩ := h
      exact ⟨h1, h2, h3, h4⟩

theorem faithful_runFrom (env : Env) (des : List MasterDataEntry) (sched : List Event) :
    ∀ s, Sound env des s → Faithful env des s → Faithful env des (runFrom env des s sched) := by
  induction sched with
  | nil => intro s _ h; exact h
  | cons ev rest ih =>
    intro s hS h
    exact ih _ (sound_step env des s ev hS) (faithful_step env des s ev hS h)

theorem faithful_run (env : Env) (des : List MasterDataEntry) (sched : List Event) :
    Faithful env des (run env des sched) :=
  faithful_runFrom env des sched _ (sound_init env des) (faithful_init env des)

theorem steady_init (env : Env) (des : List MasterDataEntry) :
    Steady env des (PoolState.init env) := by
  constructor <;> simp [PoolState.init, total]

theorem mainStep_getElem?_new (env : Env) (des : List MasterDataEntry) (s : PoolState)
    (j : Nat) (pc : WorkerPc) (h : (mainStep env des s).workers[j]? = some pc) :
    s.workers[j]? = some pc ∨ pc = .start := by
  revert h
  apply mainStep_cases (P := fun t => t.workers[j]? = some pc →
    s.workers[j]? = some pc ∨ pc = .start)
  case spawn =>
    intro i _ _ h
    simp only [List.getElem?_append] at h
    split at h
    · exact Or.inl h
    · rcases Nat.eq_zero_or_pos (j - s.workers.length) with h0 | h0
      · simp [h0] at h; exact Or.inr h.symm
      · rw [List.getElem?_eq_none (by simp; omega)] at h; cases h
  all_goals
    intros
    rename_i h
    exact Or.inl h

theorem mainStep_total (env : Env) (des : List MasterDataEntry) (s : PoolState)
    (f : WorkerPc → Nat) (hf : f .start = 0) :
    total f (mainStep env des s).workers = total f s.workers := by
  apply mainStep_cases (P := fun t => total f t.workers = total f s.workers) <;> intros <;>
    simp [PoolState.emit, total_append, total_cons, total_nil, hf]

theorem mainStep_late (env : Env) (des : List MasterDataEntry) (s : PoolState)
    (hp : 5 ≤ s.mainPc.phase) :
    (mainStep env des s).workers = s.workers ∧ (mainStep env des s).tasks = s.tasks ∧
      (mainStep env des s).closed = s.closed := by
  apply mainStep_cases (P := fun t => t.workers = s.workers ∧ t.tasks = s.tasks ∧
      t.closed = s.closed)
  · exact ⟨rfl, rfl, rfl⟩
  case wait => intros; exact ⟨rfl, rfl, rfl⟩
  case summaryLog => intros; exact ⟨rfl, rfl, rfl⟩
  case summaryQuiet => intros; exact ⟨rfl, rfl, rfl⟩
  all_goals
    intros
    rename_i hm
    simp [hm, MainPc.phase] at hp

theorem steady_main (env : Env) (des : List MasterDataEntry) (s : PoolState)
    (hS : Sound env des s) (h : Steady env des s) : Steady env des (mainStep env des s) := by
  obtain ⟨h1, h2, h3, h4, h5⟩ := h
  constructor
  · rw [mainStep_wasTerminated]; exact h1
  · rw [mainStep_panicked]; exact h2
  · by_cases hp : 5 ≤ s.mainPc.phase
    · obtain ⟨e1, e2, e3⟩ := mainStep_late env des s hp
      rw [e1, e2, e3]
      exact h3
    · intro j pc hj
      rcases mainStep_getElem?_new env des s j pc hj with hj' | hj'
      · obtain ⟨a, b, c⟩ := h3 j pc hj'
        refine ⟨a, ?_, c⟩
        intro hd
        exact absurd (hS.closed_phase (b hd).2) hp
      · subst hj'
        simp
  · intro e
    rw [mainStep_attempts, mainStep_dequeues, mainStep_total _ _ _ _ rfl]
    exact h4 e
  · rw [mainStep_attempts, mainStep_progress, mainStep_total _ _ _ _ rfl]
    exact h5

theorem steady_worker_panicked (env : Env) (des : List MasterDataEntry) (s : PoolState)
    (i : Nat) (hS : Sound env des s) (hC : Calm env des) (h : Steady env des s) :
    (workerStep env des i s).panicked = false := by
  apply workerStep_cases (P := fun t => t.panicked = false)
  · exact h.not_panicked
  case callPanic =>
    intro e hr hpc
    have hlt : i < env.NumConns :=
      Nat.lt_of_lt_of_le (List.getElem?_eq_some.mp hpc).1 hS.workers_le
    have he := hS.held_mem i _ hpc e (by simp [held])
    rcases hC.restore s.clock s.tableNum i e he hlt with h' | ⟨_, err, h'⟩ <;>
      rw [hr] at h' <;> cases h'
  all_goals
    intros
    exact h.not_panicked

theorem steady_worker_ok (env : Env) (des : List MasterDataEntry) (s : PoolState)
    (i : Nat) (hS : Sound env des s) (hC : Calm env des) (h : Steady env des s) :
    ∀ (j : Nat) (pc : WorkerPc), (workerStep env des i s).workers[j]? = some pc →
      pc ≠ .crashed ∧ (pc = .done → (workerStep env des i s).tasks = [] ∧
        (workerStep env des i s).closed = true) ∧
      (∀ err, pc = .failed err → env.OnErrorContinue = true) := by
  obtain ⟨h1, h2, h3, h4, h5⟩ := h
  refine And.left (b := True) ?_
  apply workerStep_cases (P := fun t => (∀ (j : Nat) (pc : WorkerPc),
    t.workers[j]? = some pc → pc ≠ .crashed ∧ (pc = .done → t.tasks = [] ∧ t.closed = true) ∧
      (∀ err, pc = .failed err → env.OnErrorContinue = true)) ∧ True)
  · exact ⟨h3, trivial⟩
  case recv =>
    intro e rest ht hpc
    refine ⟨forall_getElem?_set h3 ?_ ?_, trivial⟩
    · intro j pc _ hq
      refine ⟨hq.1, ?_, hq.2.2⟩
      intro hd
      have := (hq.2.1 hd).1
      rw [ht] at this
      cases this
    · intro _
      simp
  case eof =>
    intro ht hc hpc
    refine ⟨forall_getElem?_set h3 (fun _ _ _ hq => hq) ?_, trivial⟩
    intro _
    simp [PoolState.setPc, ht, hc]
  case term =>
    intro e ht _
    rw [h1] at ht
    cases ht
  case callPanic =>
    intro e hr hpc
    have hlt : i < env.NumConns :=
      Nat.lt_of_lt_of_le (List.getElem?_eq_some.mp hpc).1 hS.workers_le
    have he := hS.held_mem i _ hpc e (by simp [held])
    rcases hC.restore s.clock s.tableNum i e he hlt with h' | ⟨_, err, h'⟩ <;>
      rw [hr] at h' <;> cases h'
  case callErr =>
    intro e err hr hpc
    have hlt : i < env.NumConns :=
      Nat.lt_of_lt_of_le (List.getElem?_eq_some.mp hpc).1 hS.workers_le
    have he := hS.held_mem i _ hpc e (by simp [held])
    have hcont : env.OnErrorContinue = true := by
      rcases hC.restore s.clock s.tableNum i e he hlt with h' | ⟨hc, _⟩
      · rw [hr] at h'; cases h'
      · exact hc
    refine ⟨forall_getElem?_set h3 (fun _ _ _ hq => hq) ?_, trivial⟩
    intro _
    simp [hcont]
  case failStop =>
    intro err hc hpc
    have := (h3 i _ hpc).2.2 err rfl
    rw [hc] at this
    cases this
  case agentErr =>
    intro err hs he _
    rw [hC.agent hs] at he
    cases he
  all_goals
    intros
    refine ⟨forall_getElem?_set h3 (fun _ _ _ hq => hq) ?_, trivial⟩
    intro _
    simp [PoolState.setPc, PoolState.emit]

theorem count_singleton_eq (e entry : MasterDataEntry) :
    List.count e [entry] = if entry = e then 1 else 0 := by
  by_cases h : entry = e
  · simp [h]
  · have h' : ¬ e = entry := fun h'' => h h''.symm
    simp [h, List.count_singleton, h']

theorem steady_worker_counts (env : Env) (des : List MasterDataEntry) (s : PoolState)
    (i : Nat) (h : Steady env des s) (e : MasterDataEntry) :
    (attempts (workerStep env des i s).trace).count e
      + total (heldCount e) (workerStep env des i s).workers
      = (dequeues (workerStep env des i s).trace).count e := by
  have h4 := h.counts e
  apply workerStep_cases (P := fun t => (attempts t.trace).count e
      + total (heldCount e) t.workers = (dequeues t.trace).count e)
  · exact h4
  case term =>
    intro e ht _
    rw [h.not_terminated] at ht
    cases ht
  all_goals
    intros
    rename_i hpc
    have hge := total_ge (heldCount e) hpc
    simp only [PoolState.setPc, PoolState.emit, total_set_eq _ hpc]
    simp [heldCount, count_singleton_eq] at hge ⊢
    try omega

theorem steady_worker_progress (env : Env) (des : List MasterDataEntry) (s : PoolState)
    (i : Nat) (hS : Sound env des s) (hC : Calm env des) (h : Steady env des s) :
    (workerStep env des i s).progress + total inFlight (workerStep env des i s).workers
      = (attempts (workerStep env des i s).trace).length := by
  have h5 := h.progress
  apply workerStep_cases (P := fun t => t.progress + total inFlight t.workers
      = (attempts t.trace).length)
  · exact h5
  case callPanic =>
    intro e hr hpc
    have hlt : i < env.NumConns :=
      Nat.lt_of_lt_of_le (List.getElem?_eq_some.mp hpc).1 hS.workers_le
    have he := hS.held_mem i _ hpc e (by simp [held])
    rcases hC.restore s.clock s.tableNum i e he hlt with h' | ⟨_, err, h'⟩ <;>
      rw [hr] at h' <;> cases h'
  case failStop =>
    intro err hc hpc
    have := (h.workers_ok i _ hpc).2.2 err rfl
    rw [hc] at this
    cases this
  case agentErr =>
    intro err hs he _
    rw [hC.agent hs] at he
    cases he
  all_goals
    intros
    rename_i hpc
    have hge := total_ge inFlight hpc
    simp only [PoolState.setPc, PoolState.emit, total_set_eq _ hpc]
    simp [inFlight] at hge ⊢
    try omega

theorem steady_worker (env : Env) (des : List MasterDataEntry) (s : PoolState) (i : Nat)
    (hS : Sound env des s) (hC : Calm env des) (h : Steady env des s) :
    Steady env des (workerStep env des i s) := by
  constructor
  · rw [workerStep_wasTerminated]; exact h.not_terminated
  · exact steady_worker_panicked env des s i hS hC h
  · exact steady_worker_ok env des s i hS hC h
  · exact steady_worker_counts env des s i h
  · exact steady_worker_progress env des s i hS hC h

theorem steady_step (env : Env) (des : List MasterDataEntry) (s : PoolState) (ev : Event)
    (hev : ev ≠ .interrupt) (hS : Sound env des s) (hC : Calm env des)
    (h : Steady env des s) : Steady env des (step env des s ev) := by
  unfold Gpbackup.step
  split
  · exact h
  · have hclock : ∀ (t : PoolState) (c : Nat), Steady env des t →
        Steady env des { t with clock := c } := by
      intro t c ht
      obtain ⟨h1, h2, h3, h4, h5⟩ := ht
      exact ⟨h1, h2, h3, h4, h5⟩
    cases ev with
    | main => exact hclock _ _ (steady_main env des s hS h)
    | worker i => exact hclock _ _ (steady_worker env des s i hS hC h)
    | interrupt => exact absurd rfl hev

theorem steady_runFrom (env : Env) (des : List MasterDataEntry) (hC : Calm env des)
    (sched : List Event) (hint : noInterrupt sched) :
    ∀ s, Sound env des s → Steady env des s → Steady env des (runFrom env des s sched) := by
  induction sched with
  | nil => intro s _ h; exact h
  | cons ev rest ih =>
    intro s hS h
    have hev : ev ≠ .interrupt := fun he => hint (by simp [he])
    have hrest : noInterrupt rest := fun hm => hint (List.mem_cons_of_mem _ hm)
    exact ih hrest _ (sound_step env des s ev hS) (steady_step env des s ev hev hS hC h)

theorem steady_run (env : Env) (des : List MasterDataEntry) (hC : Calm env des)
    (sched : List Event) (hint : noInterrupt sched) : Steady env des (run env des sched) :=
  steady_runFrom env des hC sched hint _ (sound_init env des) (steady_init env des)

/-- In a run in which no worker leaves its loop early, with at least one connection, the
calls of `restoreSingleTableData` made when `restoreDataFromTimestamp` has returned are a
rearrangement of `dataEntries`, and the progress bar has advanced once for each. -/
theorem steady_returned (env : Env) (des : List MasterDataEntry) (s : PoolState)
    (hk : 1 ≤ env.NumConns) (hS : Sound env des s) (h : Steady env des s)
    (hret : s.mainPc = .returned) :
    (attempts s.trace).Perm des ∧ s.progress = des.length ∧
      total isFailed s.workers = 0 := by
  have hdone := hS.all_done (by simp [hret, MainPc.phase])
  have hzero : ∀ f : WorkerPc → Nat, f .done = 0 → total f s.workers = 0 := by
    intro f hf
    apply total_eq_zero
    intro pc hpc
    obtain ⟨j, hj⟩ := List.mem_iff_getElem?.mp hpc
    rw [hdone j pc hj, hf]
  have hprog := h.progress
  rw [hzero inFlight rfl] at hprog
  have hcounts : ∀ e, (attempts s.trace).count e = (dequeues s.trace).count e := by
    intro e
    have := h.counts e
    rw [hzero (heldCount e) rfl] at this
    simpa using this
  have hperm : (attempts s.trace).Perm (dequeues s.trace) := List.perm_iff_count.mpr hcounts
  rcases hS.fifo_ret hret with ⟨hf, hlen⟩ | ⟨hw, hd | ht⟩
  · have h0 : 0 < s.workers.length := by omega
    obtain ⟨pc, hpc⟩ : ∃ pc, s.workers[0]? = some pc :=
      ⟨s.workers[0], List.getElem?_eq_getElem h0⟩
    have hpd := hdone 0 pc hpc
    have ht := ((h.workers_ok 0 pc hpc).2.1 hpd).1
    rw [ht, List.append_nil] at hf
    rw [hf] at hperm
    refine ⟨hperm, ?_, hzero isFailed rfl⟩
    rw [← hperm.length_eq]
    simpa using hprog
  · have hq := hS.quiet hw
    subst hd
    refine ⟨by rw [hq.2], ?_, hzero isFailed rfl⟩
    simp [hq.2] at hprog
    simpa using hprog
  · rw [h.not_terminated] at ht
    cases ht

theorem step_main (env : Env) (des : List MasterDataEntry) (s : PoolState)
    (hnp : s.panicked = false) :
    step env des s .main = { mainStep env des s with clock := s.clock + 1 } := by
  simp [step, hnp]

theorem step_worker (env : Env) (des : List MasterDataEntry) (s : PoolState) (i : Nat)
    (hnp : s.panicked = false) :
    step env des s (.worker i) = { workerStep env des i s with clock := s.clock + 1 } := by
  simp [step, hnp]

theorem step_interrupt (env : Env) (des : List MasterDataEntry) (s : PoolState)
    (hnp : s.panicked = false) :
    step env des s .interrupt = { s with wasTerminated := true, clock := s.clock + 1 } := by
  simp [step, hnp]

theorem step_panicked (env : Env) (des : List MasterDataEntry) (s : PoolState) (ev : Event)
    (hp : s.panicked = true) : step env des s ev = s := by
  simp [step, hp]

/-- The calling goroutine can act and its action decreases `remaining`, unless it has
returned or waits for a worker. -/
theorem mainStep_remaining (env : Env) (des : List MasterDataEntry) (s : PoolState)
    (hS : Sound env des s) :
    s.mainPc = .returned ∨ (s.mainPc = .wait ∧ ∃ pc ∈ s.workers, pc ≠ .done) ∨
      remaining env des (mainStep env des s) < remaining env des s := by
  have hf := hS.fifo
  unfold mainStep
  split
  · next hm =>
    right; right
    split
    · next h0 =>
      simp [remaining, hm, mainRank, MainPc.unsent, PoolState.emit]
      omega
    · split <;> simp [remaining, hm, mainRank, MainPc.unsent, PoolState.emit]
  · next hm =>
    right; right
    split
    · simp [remaining, hm, mainRank, MainPc.unsent, PoolState.emit]
      omega
    · simp [remaining, hm, mainRank, MainPc.unsent, PoolState.emit]
  · next i hm =>
    right; right
    split
    · simp [remaining, hm, mainRank, MainPc.unsent, total_append, total_cons, total_nil,
        workerRank]
      omega
    · simp [remaining, hm, mainRank, MainPc.unsent]
      omega
  · next hm =>
    right; right
    simp [remaining, hm, mainRank, MainPc.unsent]
  · next e rest hm =>
    right; right
    have hfifo := hf (by simp [hm, MainPc.phase])
    have hl := congrArg List.length hfifo
    simp only [hm, MainPc.unsent, List.length_append, List.length_cons] at hl
    have hlt : s.tasks.length < des.length := by omega
    rw [if_pos hlt]
    simp [remaining, hm, mainRank, MainPc.unsent]
    omega
  · next hm =>
    right; right
    simp [remaining, hm, mainRank, MainPc.unsent]
  · next hm =>
    split
    · right; right
      simp [remaining, hm, mainRank, MainPc.unsent]
    · next hall =>
      right; left
      refine ⟨hm, ?_⟩
      simpa using hall
  · next hm =>
    right; right
    split <;> simp [remaining, hm, mainRank, MainPc.unsent, PoolState.emit]
  · next hm => exact Or.inl hm

/-- A worker can act and its action decreases `remaining`, unless it has returned or
panicked, or waits on the empty open channel. -/
theorem workerStep_remaining (env : Env) (des : List MasterDataEntry) (s : PoolState)
    (i : Nat) (pc : WorkerPc) (hpc : s.workers[i]? = some pc) :
    pc = .done ∨ pc = .crashed ∨ (pc = .recv ∧ s.tasks = [] ∧ s.closed = false) ∨
      remaining env des (workerStep env des i s) < remaining env des s := by
  have hset := fun b => total_set workerRank hpc b
  cases pc with
  | start =>
    right; right; right
    have := hset .recv
    simp only [workerStep, hpc]
    simp [remaining, PoolState.emit, PoolState.setPc, workerRank] at this ⊢
    omega
  | recv =>
    cases ht : s.tasks with
    | nil =>
      cases hc : s.closed with
      | false => exact Or.inr (Or.inr (Or.inl ⟨rfl, rfl, rfl⟩))
      | true =>
        right; right; right
        have := hset .done
        simp only [workerStep, hpc, ht, hc]
        simp [remaining, PoolState.emit, PoolState.setPc, workerRank, ht] at this ⊢
        omega
    | cons e rest =>
      right; right; right
      have := hset (.check e)
      simp only [workerStep, hpc, ht]
      simp [remaining, PoolState.emit, PoolState.setPc, workerRank, ht] at this ⊢
      omega
  | check e =>
    right; right; right
    have h1 := hset .done
    have h2 := hset (.call e)
    simp only [workerStep, hpc]
    split <;> simp [remaining, PoolState.emit, PoolState.setPc, workerRank] at h1 h2 ⊢ <;> omega
  | call e =>
    right; right; right
    have h1 := hset .crashed
    have h2 := hset .agent
    have h3 := fun err => hset (.failed err)
    simp only [workerStep, hpc]
    split
    · simp [remaining, PoolState.emit, PoolState.setPc, workerRank] at h1 ⊢
      omega
    · simp [remaining, PoolState.emit, PoolState.setPc, workerRank] at h2 ⊢
      omega
    · next err _ =>
      have h3 := h3 err
      simp [remaining, PoolState.emit, PoolState.setPc, workerRank] at h3 ⊢
      omega
  | failed err =>
    right; right; right
    have h1 := hset .done
    have h2 := hset .agent
    simp only [workerStep, hpc]
    split <;> simp [remaining, PoolState.emit, PoolState.setPc, workerRank] at h1 h2 ⊢ <;> omega
  | agent =>
    right; right; right
    have h1 := hset .done
    have h2 := hset .advance
    simp only [workerStep, hpc]
    split
    · split <;>
        simp [remaining, PoolState.emit, PoolState.setPc, workerRank] at h1 h2 ⊢ <;> omega
    · simp [remaining, PoolState.emit, PoolState.setPc, workerRank] at h1 h2 ⊢
      omega
  | advance =>
    right; right; right
    have := hset .incr
    simp only [workerStep, hpc]
    simp [remaining, PoolState.emit, PoolState.setPc, workerRank] at this ⊢
    omega
  | incr =>
    right; right; right
    have := hset .recv
    simp only [workerStep, hpc]
    simp [remaining, PoolState.emit, PoolState.setPc, workerRank] at this ⊢
    omega
  | done => exact Or.inl rfl
  | crashed => exact Or.inr (Or.inl rfl)

/-- A worker that has panicked has ended the process. -/
theorem crashed_panicked (env : Env) (des : List MasterDataEntry) (sched : List Event) :
    ∀ (j : Nat), (run env des sched).workers[j]? = some .crashed →
      (run env des sched).panicked = true := by
  have key : ∀ s, (∀ (j : Nat) (pc : WorkerPc), s.workers[j]? = some pc → pc = .crashed →
      s.panicked = true) → ∀ ev, (∀ (j : Nat) (pc : WorkerPc),
        (step env des s ev).workers[j]? = some pc → pc = .crashed →
        (step env des s ev).panicked = true) := by
    intro s h ev
    refine step_preserves env des (fun t => ∀ (j : Nat) (pc : WorkerPc),
      t.workers[j]? = some pc → pc = .crashed → t.panicked = true) ?_ ?_ ?_ ?_ s ev h
    · intro t c ht
      exact ht
    · intro t ht j pc hj hpc
      rw [mainStep_panicked]
      rcases mainStep_getElem?_new env des t j pc hj with hj' | hj'
      · exact ht j pc hj' hpc
      · rw [hj'] at hpc
        cases hpc
    · intro t i ht
      refine And.left (b := True) ?_
      apply workerStep_cases (P := fun u => (∀ (j : Nat) (pc : WorkerPc),
        u.workers[j]? = some pc → pc = .crashed → u.panicked = true) ∧ True)
      · exact ⟨ht, trivial⟩
      case callPanic =>
        intros
        exact ⟨fun _ _ _ _ => rfl, trivial⟩
      all_goals
        intros
        refine ⟨forall_getElem?_set ht (fun _ _ _ hq => hq) ?_, trivial⟩
        intro _ hc
        cases hc
    · intro t ht
      exact ht
  have := runFrom_preserves env des (fun t => ∀ (j : Nat) (pc : WorkerPc),
    t.workers[j]? = some pc → pc = .crashed → t.panicked = true)
    (fun s ev h => key s h ev) sched
    (PoolState.init env) (by simp [PoolState.init])
  intro j hj
  exact this j _ hj rfl

theorem remaining_clock (env : Env) (des : List MasterDataEntry) (s : PoolState) (c : Nat) :
    remaining env des { s with clock := c } = remaining env des s := rfl

/-- As long as `restoreDataFromTimestamp` has neither returned nor panicked, some
goroutine can act, and its action decreases `remaining`: the run cannot deadlock. -/
theorem exists_decreasing (env : Env) (des : List MasterDataEntry) (sched : List Event)
    (hnp : (run env des sched).panicked = false)
    (hnr : (run env des sched).mainPc ≠ .returned) :
    ∃ ev, ev ≠ Event.interrupt ∧
      remaining env des (step env des (run env des sched) ev)
        < remaining env des (run env des sched) := by
  have hS := sound_run env des sched
  rcases mainStep_remaining env des _ hS with h | ⟨hw, pc, hmem, hne⟩ | h
  · exact absurd h hnr
  · obtain ⟨j, hj⟩ := List.mem_iff_getElem?.mp hmem
    rcases workerStep_remaining env des _ j pc hj with h | h | ⟨_, _, hc⟩ | h
    · exact absurd h hne
    · subst h
      have := crashed_panicked env des sched j hj
      rw [hnp] at this
      cases this
    · have := hS.phase_closed (Or.inl (by simp [hw, MainPc.phase]))
      rw [hc] at this
      cases this
    · refine ⟨.worker j, by simp, ?_⟩
      rw [step_worker env des _ j hnp, remaining_clock]
      exact h
  · refine ⟨.main, by simp, ?_⟩
    rw [step_main env des _ hnp, remaining_clock]
    exact h

/-- Every run can be continued, without any interrupt, until `restoreDataFromTimestamp`
has returned or a goroutine has panicked. -/
theorem can_finish (env : Env) (des : List MasterDataEntry) (sched : List Event) :
    ∃ ext, noInterrupt ext ∧ ((run env des (sched ++ ext)).mainPc = .returned ∨
      (run env des (sched ++ ext)).panicked = true) := by
  have key : ∀ n sched, remaining env des (run env des sched) ≤ n →
      ∃ ext, noInterrupt ext ∧ ((run env des (sched ++ ext)).mainPc = .returned ∨
        (run env des (sched ++ ext)).panicked = true) := by
    intro n
    induction n with
    | zero =>
      intro sched hle
      by_cases hnr : (run env des sched).mainPc = .returned
      · exact ⟨[], by simp [noInterrupt], by simp [hnr]⟩
      · cases hp : (run env des sched).panicked with
        | true => exact ⟨[], by simp [noInterrupt], by simp [hp]⟩
        | false =>
          obtain ⟨ev, _, hlt⟩ := exists_decreasing env des sched hp hnr
          omega
    | succ n ih =>
      intro sched hle
      by_cases hnr : (run env des sched).mainPc = .returned
      · exact ⟨[], by simp [noInterrupt], by simp [hnr]⟩
      · cases hp : (run env des sched).panicked with
        | true => exact ⟨[], by simp [noInterrupt], by simp [hp]⟩
        | false =>
          obtain ⟨ev, hev, hlt⟩ := exists_decreasing env des sched hp hnr
          have hrun : run env des (sched ++ [ev]) = step env des (run env des sched) ev := by
            rw [run_append]; rfl
          obtain ⟨ext, hext, hfin⟩ := ih (sched ++ [ev]) (by rw [hrun]; omega)
          refine ⟨ev :: ext, ?_, ?_⟩
          · intro hm
            rcases List.mem_cons.mp hm with h | h
            · exact hev h.symm
            · exact hext h
          · simpa using hfin
  exact key _ sched (Nat.le_refl _)

theorem mainStep_attemptsBy (env : Env) (des : List MasterDataEntry) (s : PoolState) (i : Nat) :
    attemptsBy i (mainStep env des s).trace = attemptsBy i s.trace := by
  apply mainStep_cases (P := fun t => attemptsBy i t.trace = attemptsBy i s.trace) <;>
    intros <;> simp [PoolState.emit]

theorem mainStep_dequeuesBy (env : Env) (des : List MasterDataEntry) (s : PoolState) (i : Nat) :
    dequeuesBy i (mainStep env des s).trace = dequeuesBy i s.trace := by
  apply mainStep_cases (P := fun t => dequeuesBy i t.trace = dequeuesBy i s.trace) <;>
    intros <;> simp [PoolState.emit]

theorem workerStep_attemptsBy_ne (env : Env) (des : List MasterDataEntry) (s : PoolState)
    (i j : Nat) (hne : j ≠ i) :
    attemptsBy i (workerStep env des j s).trace = attemptsBy i s.trace := by
  apply workerStep_cases (P := fun t => attemptsBy i t.trace = attemptsBy i s.trace) <;>
    intros <;> simp [PoolState.emit, PoolState.setPc, hne]

theorem workerStep_dequeuesBy_ne (env : Env) (des : List MasterDataEntry) (s : PoolState)
    (i j : Nat) (hne : j ≠ i) :
    dequeuesBy i (workerStep env des j s).trace = dequeuesBy i s.trace := by
  apply workerStep_cases (P := fun t => dequeuesBy i t.trace = dequeuesBy i s.trace) <;>
    intros <;> simp [PoolState.emit, PoolState.setPc, hne]

theorem workerStep_getElem?_ne (env : Env) (des : List MasterDataEntry) (s : PoolState)
    (i j : Nat) (hne : j ≠ i) :
    (workerStep env des j s).workers[i]? = s.workers[i]? := by
  apply workerStep_cases (P := fun t => t.workers[i]? = s.workers[i]?) <;>
    intros <;> simp [PoolState.emit, PoolState.setPc, List.getElem?_set, hne]

/-- A worker that is winding down stays so under every event, and neither receives an
entry nor calls `restoreSingleTableData`. -/
theorem winding_step (env : Env) (des : List MasterDataEntry) (s : PoolState) (i : Nat)
    (pc : WorkerPc) (hpc : s.workers[i]? = some pc) (hw : winding env s pc = true)
    (ev : Event) :
    (∃ pc', (step env des s ev).workers[i]? = some pc' ∧
      winding env (step env des s ev) pc' = true) ∧
    attemptsBy i (step env des s ev).trace = attemptsBy i s.trace ∧
    dequeuesBy i (step env des s ev).trace = dequeuesBy i s.trace := by
  have hlt : i < s.workers.length := (List.getElem?_eq_some.mp hpc).1
  cases hp : s.panicked with
  | true =>
    rw [step_panicked env des s ev hp]
    exact ⟨⟨pc, hpc, hw⟩, rfl, rfl⟩
  | false =>
    cases ev with
    | main =>
      rw [step_main env des s hp]
      refine ⟨⟨pc, ?_, ?_⟩, mainStep_attemptsBy env des s i, mainStep_dequeuesBy env des s i⟩
      · show (mainStep env des s).workers[i]? = some pc
        rw [mainStep_getElem? env des s i hlt]; exact hpc
      · cases pc <;> simp_all [winding, mainStep_wasTerminated]
    | interrupt =>
      rw [step_interrupt env des s hp]
      refine ⟨⟨pc, hpc, ?_⟩, rfl, rfl⟩
      cases pc <;> simp_all [winding]
    | worker j =>
      rw [step_worker env des s j hp]
      by_cases hji : j = i
      · subst hji
        show (∃ pc', (workerStep env des j s).workers[j]? = some pc' ∧
          winding env { workerStep env des j s with clock := s.clock + 1 } pc' = true) ∧
          attemptsBy j (workerStep env des j s).trace = attemptsBy j s.trace ∧
          dequeuesBy j (workerStep env des j s).trace = dequeuesBy j s.trace
        cases pc with
        | done =>
          have : workerStep env des j s = s := by simp [workerStep, hpc]
          rw [this]
          exact ⟨⟨_, hpc, rfl⟩, rfl, rfl⟩
        | failed err =>
          have hc : env.OnErrorContinue = false := by simpa [winding] using hw
          simp [workerStep, hpc, hc, PoolState.emit, PoolState.setPc, List.getElem?_set, hlt,
            winding]
        | check e =>
          have ht : s.wasTerminated = true := by simpa [winding] using hw
          simp [workerStep, hpc, ht, PoolState.emit, PoolState.setPc, List.getElem?_set, hlt,
            winding]
        | _ => simp [winding] at hw
      · refine ⟨⟨pc, ?_, ?_⟩, workerStep_attemptsBy_ne env des s i j hji,
          workerStep_dequeuesBy_ne env des s i j hji⟩
        · show (workerStep env des j s).workers[i]? = some pc
          rw [workerStep_getElem?_ne env des s i j hji]; exact hpc
        · cases pc <;> simp_all [winding, workerStep_wasTerminated]

/-- A worker that is winding down never again receives an entry or calls
`restoreSingleTableData`, whatever happens next. -/
theorem winding_runFrom (env : Env) (des : List MasterDataEntry) (i : Nat)
    (ext : List Event) : ∀ (s : PoolState) (pc : WorkerPc), s.workers[i]? = some pc →
      winding env s pc = true →
      (∃ pc', (runFrom env des s ext).workers[i]? = some pc' ∧
        winding env (runFrom env des s ext) pc' = true) ∧
      attemptsBy i (runFrom env des s ext).trace = attemptsBy i s.trace ∧
      dequeuesBy i (runFrom env des s ext).trace = dequeuesBy i s.trace := by
  induction ext with
  | nil => intro s pc hpc hw; exact ⟨⟨pc, hpc, hw⟩, rfl, rfl⟩
  | cons ev rest ih =>
    intro s pc hpc hw
    obtain ⟨⟨pc', hpc', hw'⟩, ha, hd⟩ := winding_step env des s i pc hpc hw ev
    obtain ⟨hx, ha', hd'⟩ := ih _ pc' hpc' hw'
    exact ⟨hx, by rw [runFrom_cons, ha', ha], by rw [runFrom_cons, hd', hd]⟩

/-! ### Counting in the record -/

theorem attempts_length (tr : List Effect) :
    (attempts tr).length = successes tr + (failedConns tr).length := by
  induction tr with
  | nil => rfl
  | cons ef tr ih =>
    rw [attempts_cons, successes_cons, failedConns_cons]
    cases ef with
    | restore c e tn tot r =>
      rcases r with (_ | _) | _ <;> simp [ih] <;> omega
    | _ => simp [ih]

theorem failures_eq_countP (bad : MasterDataEntry → Bool) (tr : List Effect)
    (h : ∀ c e tn tot r, Effect.restore c e tn tot r ∈ tr →
      (bad e = false ∧ r = .ret none) ∨ (bad e = true ∧ ∃ err, r = .ret (some err))) :
    failures tr = (attempts tr).countP bad := by
  induction tr with
  | nil => rfl
  | cons ef tr ih =>
    have ih := ih fun c e tn tot r hm => h c e tn tot r (List.mem_cons_of_mem _ hm)
    rw [failures_cons, attempts_cons, List.countP_append, ih]
    cases ef with
    | restore c e tn tot r =>
      rcases h c e tn tot r (List.mem_cons_self _ _) with ⟨hb, hr⟩ | ⟨hb, err, hr⟩ <;>
        subst hr <;> simp [hb]
    | _ => simp

theorem failures_eq_zero (tr : List Effect)
    (h : ∀ c e tn tot r, Effect.restore c e tn tot r ∈ tr → r = .ret none) :
    failures tr = 0 := by
  induction tr with
  | nil => rfl
  | cons ef tr ih =>
    have ih := ih fun c e tn tot r hm => h c e tn tot r (List.mem_cons_of_mem _ hm)
    rw [failures_cons, ih]
    cases ef with
    | restore c e tn tot r =>
      have := h c e tn tot r (List.mem_cons_self _ _)
      subst this
      rfl
    | _ => rfl

theorem attempts_eq_attemptsBy (i : Nat) (tr : List Effect)
    (h : ∀ c e tn tot r, Effect.restore c e tn tot r ∈ tr → c = i) :
    attempts tr = attemptsBy i tr := by
  induction tr with
  | nil => rfl
  | cons ef tr ih =>
    have ih := ih fun c e tn tot r hm => h c e tn tot r (List.mem_cons_of_mem _ hm)
    rw [attempts_cons, attemptsBy_cons, ih]
    cases ef with
    | restore c e tn tot r =>
      have := h c e tn tot r (List.mem_cons_self _ _)
      simp [this]
    | _ => rfl

theorem nodup_length_le (l : List Nat) (k : Nat) (hn : l.Nodup) (hlt : ∀ c ∈ l, c < k) :
    l.length ≤ k := by
  have h1 : l.toFinset.card = l.length := List.toFinset_card_of_nodup hn
  have h2 : l.toFinset ⊆ Finset.range k := by
    intro c hc
    simp at hc
    simpa using hlt c hc
  have h3 := Finset.card_le_card h2
  simp at h3
  omega

theorem wrapInt32_small (c : Nat) (h : c < 2 ^ 31) : wrapInt32 c = c := by
  unfold wrapInt32
  norm_num at h ⊢
  omega

/-- At most `len(dataEntries)` entries are ever received. -/
theorem dequeues_length_le (env : Env) (des : List MasterDataEntry) (s : PoolState)
    (hS : Sound env des s) : (dequeues s.trace).length ≤ des.length := by
  by_cases hp : s.mainPc.phase ≤ 6
  · have := congrArg List.length (hS.fifo hp)
    simp at this
    omega
  · have hr : s.mainPc = .returned := by
      cases hm : s.mainPc <;> simp [hm, MainPc.phase] at hp ⊢
    rcases hS.fifo_ret hr with ⟨hf, _⟩ | ⟨hw, _⟩
    · have := congrArg List.length hf
      simp at this
      omega
    · simp [(hS.quiet hw).1]

/-- With on-error-continue off every worker has at most one restore that did not return
`nil`. -/
theorem failedConns_length_le (env : Env) (des : List MasterDataEntry) (s : PoolState)
    (hstop : env.OnErrorContinue = false) (hS : Sound env des s) (hF : Faithful env des s) :
    (failedConns s.trace).length ≤ env.NumConns := by
  apply nodup_length_le _ _ (hF.failed_nodup hstop)
  intro c hc
  obtain ⟨e, tn, tot, r, hm⟩ := mem_failedConns hc
  exact Nat.lt_of_lt_of_le (hF.restore_ok c e tn tot r hm).2.1 hS.workers_le

/-! ### Runs in which no worker leaves its loop early -/

/-- A run in which no worker leaves its loop early can be continued, without any
interrupt, until `restoreDataFromTimestamp` has returned. -/
theorem calm_finish (env : Env) (des : List MasterDataEntry) (hC : Calm env des)
    (sched : List Event) (hint : noInterrupt sched) :
    ∃ ext, noInterrupt ext ∧ (run env des (sched ++ ext)).returned := by
  obtain ⟨ext, hext, hfin⟩ := can_finish env des sched
  have hno : noInterrupt (sched ++ ext) := by
    intro hm
    rcases List.mem_append.mp hm with h | h
    · exact hint h
    · exact hext h
  have hSt := steady_run env des hC (sched ++ ext) hno
  refine ⟨ext, hext, ?_, hSt.not_panicked⟩
  rcases hfin with h | h
  · exact h
  · rw [hSt.not_panicked] at h
    cases h

/-- When `restoreDataFromTimestamp` has returned from a run in which no worker left its
loop early, with at least one connection: every entry was handed to
`restoreSingleTableData` once, the progress bar advanced once per entry, and `numErrors`
holds the number of failed restores (as an `int32`). -/
theorem calm_returned (env : Env) (des : List MasterDataEntry) (hC : Calm env des)
    (hk : 1 ≤ env.NumConns) (sched : List Event) (hint : noInterrupt sched)
    (hret : (run env des sched).returned) :
    (attempts (run env des sched).trace).Perm des ∧
    (run env des sched).progress = des.length ∧
    (run env des sched).numErrors = wrapInt32 (failures (run env des sched).trace) := by
  have hS := sound_run env des sched
  have hSt := steady_run env des hC sched hint
  obtain ⟨hperm, hprog, hz⟩ := steady_returned env des _ hk hS hSt hret.1
  refine ⟨hperm, hprog, ?_⟩
  obtain ⟨c, hc1, hc2⟩ := hS.errs
  rw [hz] at hc2
  rw [hc1, ← hc2]
  rfl

/-- A copy that succeeds with the recorded row count makes `restoreSingleTableData`
return `nil`. -/
theorem restore_of_copy (env : Env) (exec : String → Nat → Except GoError Int)
    (entry : MasterDataEntry) (tableNum totalTables whichConn : Nat)
    (hcopy : CopyTableIn env exec (env.MakeFQN entry.Schema entry.Name) entry.AttributeString
      (destinationToRead env entry) env.SingleDataFile whichConn
        = .ret (entry.RowsCopied, none)) :
    restoreSingleTableData env exec entry tableNum totalTables whichConn = .ret none := by
  unfold restoreSingleTableData
  simp only [hcopy]
  simp [CheckRowsRestored]

/-- In a run in which every restore returns `nil`, `numErrors` stays 0 and no error
summary is logged. -/
theorem no_failure_no_error (env : Env) (des : List MasterDataEntry) (sched : List Event)
    (hres : ∀ t tn conn, ∀ e ∈ des, conn < env.NumConns →
      restoreSingleTableData env (env.Exec t) e tn des.length conn = .ret none) :
    failures (run env des sched).trace = 0 ∧ (run env des sched).numErrors = 0 ∧
      summaries (run env des sched).trace = [] := by
  have hS := sound_run env des sched
  have hF := faithful_run env des sched
  have hfail : failures (run env des sched).trace = 0 := by
    apply failures_eq_zero
    intro c e tn tot r hm
    obtain ⟨he, hc, _, t, hr⟩ := hF.restore_ok c e tn tot r hm
    rw [← hr]
    exact hres t tn c e he (Nat.lt_of_lt_of_le hc hS.workers_le)
  obtain ⟨c, hc1, hc2⟩ := hS.errs
  have hc0 : c = 0 := by omega
  subst hc0
  have hnum : (run env des sched).numErrors = 0 := by rw [hc1]; rfl
  refine ⟨hfail, hnum, ?_⟩
  cases hsum : summaries (run env des sched).trace with
  | nil => rfl
  | cons n rest =>
    have := hF.summary_pos n (by rw [hsum]; exact List.mem_cons_self _ _)
    omega

/-- By its own action a worker comes to the call of `restoreSingleTableData` only from
the check of `wasTerminated`, and only when the flag is false. -/
theorem call_only_after_check_own (env : Env) (des : List MasterDataEntry) (s : PoolState)
    (j : Nat) (e : MasterDataEntry)
    (h : (workerStep env des j s).workers[j]? = some (.call e)) :
    s.workers[j]? = some (.call e) ∨
      (s.workers[j]? = some (.check e) ∧ s.wasTerminated = false) := by
  revert h
  apply workerStep_cases (P := fun t => t.workers[j]? = some (.call e) →
    s.workers[j]? = some (.call e) ∨
      (s.workers[j]? = some (.check e) ∧ s.wasTerminated = false))
  · exact Or.inl
  case pass =>
    intro e' ht hpc h
    have hlt : j < s.workers.length := (List.getElem?_eq_some.mp hpc).1
    simp [PoolState.setPc, List.getElem?_set, hlt] at h
    subst h
    exact Or.inr ⟨hpc, ht⟩
  all_goals
    intros
    rename_i hpc h
    have hlt : j < s.workers.length := (List.getElem?_eq_some.mp hpc).1
    simp [PoolState.setPc, PoolState.emit, List.getElem?_set, hlt] at h

/-- A worker comes to the call of `restoreSingleTableData` for an entry only by its own
action from the check of `wasTerminated` for that entry, and only when the flag is
false. -/
theorem call_only_after_check (env : Env) (des : List MasterDataEntry) (s : PoolState)
    (i : Nat) (ev : Event) (e : MasterDataEntry)
    (h : (step env des s ev).workers[i]? = some (.call e)) :
    s.workers[i]? = some (.call e) ∨
      (s.workers[i]? = some (.check e) ∧ s.wasTerminated = false ∧ ev = .worker i) := by
  cases hp : s.panicked with
  | true =>
    rw [step_panicked env des s ev hp] at h
    exact Or.inl h
  | false =>
    cases ev with
    | main =>
      rw [step_main env des s hp] at h
      rcases mainStep_getElem?_new env des s i _ h with h' | h'
      · exact Or.inl h'
      · cases h'
    | interrupt =>
      rw [step_interrupt env des s hp] at h
      exact Or.inl h
    | worker j =>
      rw [step_worker env des s j hp] at h
      by_cases hji : j = i
      · subst hji
        rcases call_only_after_check_own env des s j e h with h' | ⟨h1, h2⟩
        · exact Or.inl h'
        · exact Or.inr ⟨h1, h2, rfl⟩
      · replace h : (workerStep env des j s).workers[i]? = some (.call e) := h
        rw [workerStep_getElem?_ne env des s i j hji] at h
        exact Or.inl h

/-! ### The progress bar -/

theorem workerStep_progress_le (env : Env) (des : List MasterDataEntry) (s : PoolState)
    (i : Nat)
    (h : s.progress + total inFlight s.workers ≤ (attempts s.trace).length) :
    (workerStep env des i s).progress + total inFlight (workerStep env des i s).workers
      ≤ (attempts (workerStep env des i s).trace).length := by
  apply workerStep_cases (P := fun t => t.progress + total inFlight t.workers
      ≤ (attempts t.trace).length)
  · exact h
  all_goals
    intros
    rename_i hpc
    have hge := total_ge inFlight hpc
    simp only [PoolState.setPc, PoolState.emit, total_set_eq _ hpc]
    simp [inFlight] at hge ⊢
    omega

/-- In every state of every run the progress bar has advanced at most once for every call
of `restoreSingleTableData` that is not still being handled. -/
theorem progress_le_attempts (env : Env) (des : List MasterDataEntry) (sched : List Event) :
    (run env des sched).progress + total inFlight (run env des sched).workers
      ≤ (attempts (run env des sched).trace).length := by
  refine runFrom_preserves env des (fun t => t.progress + total inFlight t.workers
      ≤ (attempts t.trace).length) ?_ sched _ ?_
  swap
  · simp [PoolState.init, total]
  · intro s ev h
    refine step_preserves env des (fun t => t.progress + total inFlight t.workers
      ≤ (attempts t.trace).length) ?_ ?_ ?_ ?_ s ev h
    · intro t c ht; exact ht
    · intro t ht
      show (mainStep env des t).progress + total inFlight (mainStep env des t).workers
        ≤ (attempts (mainStep env des t).trace).length
      rw [mainStep_attempts, mainStep_progress, mainStep_total _ _ _ _ rfl]
      exact ht
    · intro t i ht
      exact workerStep_progress_le env des t i ht
    · intro t ht; exact ht

/-- When the calling goroutine is past `workerPool.Wait()`, no worker is handling a
call. -/
theorem total_zero_of_done (env : Env) (des : List MasterDataEntry) (s : PoolState)
    (hS : Sound env des s) (hp : 6 ≤ s.mainPc.phase) (f : WorkerPc → Nat)
    (hf : f .done = 0) : total f s.workers = 0 := by
  apply total_eq_zero
  intro pc hpc
  obtain ⟨j, hj⟩ := List.mem_iff_getElem?.mp hpc
  rw [hS.all_done hp j pc hj, hf]


/-! ### The error counter and the summary -/

theorem workerStep_numErrors_failed (env : Env) (des : List MasterDataEntry) (s : PoolState)
    (i : Nat) (err : GoError) (hpc : s.workers[i]? = some (.failed err)) :
    (workerStep env des i s).numErrors = wrapInt32 (s.numErrors + 1) := by
  unfold workerStep
  rw [hpc]
  cases env.OnErrorContinue <;> rfl

theorem workerStep_numErrors_other (env : Env) (des : List MasterDataEntry) (s : PoolState)
    (i : Nat) (hpc : ∀ err, s.workers[i]? ≠ some (.failed err)) :
    (workerStep env des i s).numErrors = s.numErrors := by
  apply workerStep_cases (P := fun t => t.numErrors = s.numErrors)
  case failStop => intro err _ h; exact absurd h (hpc err)
  case failCont => intro err _ h; exact absurd h (hpc err)
  all_goals intros; rfl

theorem workerStep_call (env : Env) (des : List MasterDataEntry) (s : PoolState)
    (i : Nat) (e : MasterDataEntry) (hpc : s.workers[i]? = some (.call e)) :
    (workerStep env des i s).workers[i]? =
      some (match restoreSingleTableData env (env.Exec s.clock) e s.tableNum des.length i with
        | .panic => .crashed
        | .ret none => .agent
        | .ret (some err) => .failed err) := by
  have hlt : i < s.workers.length := (List.getElem?_eq_some.mp hpc).1
  unfold workerStep
  rw [hpc]
  simp only
  cases restoreSingleTableData env (env.Exec s.clock) e s.tableNum des.length i with
  | panic => simp [PoolState.setPc, PoolState.emit, hlt]
  | ret r =>
    cases r <;> simp [PoolState.setPc, PoolState.emit, hlt]

theorem failures_le_attempts (tr : List Effect) : failures tr ≤ (attempts tr).length := by
  induction tr with
  | nil => simp
  | cons ef tr ih =>
    rw [failures_cons, attempts_cons]
    cases ef with
    | restore c e tn tot r =>
      rcases r with (_ | _) | _ <;> simp <;> omega
    | _ => simpa using ih

/-- While no worker has been started nothing has been recorded in `numErrors`. -/
theorem numErrors_zero_of_no_workers (env : Env) (des : List MasterDataEntry) (s : PoolState)
    (hS : Sound env des s) (hw : s.workers = []) : s.numErrors = 0 := by
  obtain ⟨c, hc, hsum⟩ := hS.errs
  have h1 := failures_le_attempts s.trace
  rw [(hS.quiet hw).2] at h1
  simp at h1
  have h0 : c = 0 := by omega
  rw [hc, h0]
  rfl

/-- When `restoreDataFromTimestamp` has returned, `numErrors` is the number of calls of
`restoreSingleTableData` that returned an error, in `int32` arithmetic. -/
theorem numErrors_returned (env : Env) (des : List MasterDataEntry) (s : PoolState)
    (hS : Sound env des s) (hret : s.mainPc = .returned) :
    s.numErrors = wrapInt32 (failures s.trace) := by
  obtain ⟨c, hc, hsum⟩ := hS.errs
  have h0 := total_zero_of_done env des s hS (by rw [hret]; decide) isFailed rfl
  have : c = failures s.trace := by omega
  rw [hc, this]

theorem summaries_main (env : Env) (des : List MasterDataEntry) (s : PoolState)
    (hS : Sound env des s) (h : summaries s.trace = summaryOf s) :
    summaries (mainStep env des s).trace = summaryOf (mainStep env des s) := by
  apply mainStep_cases (P := fun t => summaries t.trace = summaryOf t)
  · exact h
  case empty =>
    intro _ hpc
    have h0 := numErrors_zero_of_no_workers env des s hS (hS.early (by rw [hpc]; decide))
    simp [summaryOf, hpc, PoolState.emit, h0] at h ⊢
    exact h
  case termRet =>
    intro _ hpc
    have h0 := numErrors_zero_of_no_workers env des s hS (hS.early (by rw [hpc]; decide))
    simp [summaryOf, hpc, h0] at h ⊢
    exact h
  case summaryLog =>
    intro hpos hpc
    simp [summaryOf, hpc, PoolState.emit] at h ⊢
    simp [h, hpos]
  case summaryQuiet =>
    intro hpos hpc
    simp [summaryOf, hpc] at h ⊢
    simp [h, hpos]
  all_goals
    intros
    rename_i hpc
    simp [summaryOf, hpc, PoolState.emit] at h ⊢
    try exact h

theorem summaries_worker (env : Env) (des : List MasterDataEntry) (s : PoolState) (i : Nat)
    (hS : Sound env des s) (h : summaries s.trace = summaryOf s) :
    summaries (workerStep env des i s).trace = summaryOf (workerStep env des i s) := by
  rw [workerStep_summaries]
  by_cases hret : s.mainPc = .returned
  · have hdone := hS.all_done (by rw [hret]; decide) i
    have : workerStep env des i s = s := by
      unfold workerStep
      cases hw : s.workers[i]? with
      | none => rfl
      | some pc => rw [hdone pc hw]
    rw [this]; exact h
  · have h1 : (workerStep env des i s).mainPc = s.mainPc := workerStep_mainPc env des i s
    simp [summaryOf, h1, hret] at h ⊢
    exact h

theorem summaries_run (env : Env) (des : List MasterDataEntry) (sched : List Event) :
    summaries (run env des sched).trace = summaryOf (run env des sched) := by
  have key : ∀ (l : List Event) (s : PoolState), Sound env des s →
      summaries s.trace = summaryOf s →
      summaries (runFrom env des s l).trace = summaryOf (runFrom env des s l) := by
    intro l
    induction l with
    | nil => intro s _ h; exact h
    | cons ev rest ih =>
      intro s hS h
      refine ih _ (sound_step env des s ev hS) ?_
      unfold step
      split
      · exact h
      · cases ev with
        | main => exact summaries_main env des s hS h
        | worker i => exact summaries_worker env des s i hS h
        | interrupt => exact h
  exact key sched _ (sound_init env des) (by simp [PoolState.init, summaryOf])

theorem failures_le_failedConns (tr : List Effect) :
    failures tr ≤ (failedConns tr).length := by
  induction tr with
  | nil => simp
  | cons ef tr ih =>
    rw [failures_cons, failedConns_cons]
    cases ef with
    | restore c e tn tot r =>
      rcases r with (_ | _) | _ <;> simp <;> omega
    | _ => simpa using ih

/-- When every call of `restoreSingleTableData` so far returned `nil`, `numErrors` is 0
and no summary has been logged. -/
theorem no_error_of_all_successes (env : Env) (des : List MasterDataEntry) (s : PoolState)
    (hS : Sound env des s) (hF : Faithful env des s)
    (hall : successes s.trace = (attempts s.trace).length) :
    s.numErrors = 0 ∧ summaries s.trace = [] := by
  obtain ⟨c, hc, hsum⟩ := hS.errs
  have h1 := attempts_length s.trace
  have h2 := failures_le_failedConns s.trace
  have hc0 : c = 0 := by omega
  have hnum : s.numErrors = 0 := by rw [hc, hc0]; rfl
  refine ⟨hnum, ?_⟩
  cases hl : summaries s.trace with
  | nil => rfl
  | cons n rest =>
    have := (hF.summary_pos n (by rw [hl]; exact List.mem_cons_self _ _))
    omega

/-! ### The order of the queue -/

theorem closed_fifo_main_early (env : Env) (des : List MasterDataEntry) (s : PoolState)
    (hnc : s.closed ≠ true)
    (hfifo : dequeues s.trace ++ s.tasks ++ s.mainPc.unsent des = des) :
    (mainStep env des s).closed = true →
      dequeues (mainStep env des s).trace ++ (mainStep env des s).tasks = des := by
  refine And.left (b := True) ?_
  apply mainStep_cases (P := fun t => (t.closed = true →
    dequeues t.trace ++ t.tasks = des) ∧ True)
  case close =>
    intro hpc
    refine ⟨fun _ => ?_, trivial⟩
    simpa [hpc, MainPc.unsent] using hfifo
  all_goals
    intros
    refine ⟨fun hc => ?_, trivial⟩
    exact absurd hc hnc

theorem closed_fifo_main (env : Env) (des : List MasterDataEntry) (s : PoolState)
    (hS : Sound env des s) (h : s.closed = true → dequeues s.trace ++ s.tasks = des) :
    (mainStep env des s).closed = true →
      dequeues (mainStep env des s).trace ++ (mainStep env des s).tasks = des := by
  by_cases hp : 5 ≤ s.mainPc.phase
  · obtain ⟨_, h2, h3⟩ := mainStep_late env des s hp
    rw [mainStep_dequeues, h2, h3]
    exact h
  · exact closed_fifo_main_early env des s (fun hc => hp (hS.closed_phase hc))
      (hS.fifo (by omega))

theorem closed_fifo_worker (env : Env) (des : List MasterDataEntry) (s : PoolState) (i : Nat)
    (h : s.closed = true → dequeues s.trace ++ s.tasks = des) :
    (workerStep env des i s).closed = true →
      dequeues (workerStep env des i s).trace ++ (workerStep env des i s).tasks = des := by
  rw [workerStep_closed]
  intro hc
  have h := h hc
  revert h
  apply workerStep_cases (P := fun t => dequeues s.trace ++ s.tasks = des →
    dequeues t.trace ++ t.tasks = des)
  · exact id
  case recv =>
    intro e rest ht _ h
    rw [ht] at h
    simpa [PoolState.emit, PoolState.setPc] using h
  all_goals
    intros
    simp [PoolState.emit, PoolState.setPc]
    assumption

/-- Once the channel is closed, what has been received and what is still in the channel
make up `dataEntries`, in order. -/
theorem closed_fifo_run (env : Env) (des : List MasterDataEntry) (sched : List Event) :
    (run env des sched).closed = true →
      dequeues (run env des sched).trace ++ (run env des sched).tasks = des := by
  have key : ∀ (l : List Event) (s : PoolState), Sound env des s →
      (s.closed = true → dequeues s.trace ++ s.tasks = des) →
      ((runFrom env des s l).closed = true →
        dequeues (runFrom env des s l).trace ++ (runFrom env des s l).tasks = des) := by
    intro l
    induction l with
    | nil => intro s _ h; exact h
    | cons ev rest ih =>
      intro s hS h
      refine ih _ (sound_step env des s ev hS) ?_
      unfold step
      split
      · exact h
      · cases ev with
        | main => exact closed_fifo_main env des s hS h
        | worker i => exact closed_fifo_worker env des s i h
        | interrupt => exact h
  exact key sched _ (sound_init env des) (by simp [PoolState.init])

theorem single_worker {l : List WorkerPc} {i : Nat} {pc : WorkerPc} (hl : l.length ≤ 1)
    (h : l[i]? = some pc) : l = [pc] ∧ i = 0 := by
  match l, hl, h with
  | [a], _, h =>
    cases i with
    | zero => simp at h; simp [h]
    | succ n => simp at h

theorem mainStep_held (env : Env) (des : List MasterDataEntry) (s : PoolState) :
    (mainStep env des s).workers.flatMap held = s.workers.flatMap held := by
  apply mainStep_cases (P := fun t => t.workers.flatMap held = s.workers.flatMap held) <;>
    intros <;> simp [PoolState.emit, held]

theorem ordered_worker (env : Env) (des : List MasterDataEntry) (s : PoolState) (i : Nat)
    (hl : s.workers.length ≤ 1)
    (h : s.wasTerminated = false →
      attempts s.trace ++ s.workers.flatMap held = dequeues s.trace) :
    (workerStep env des i s).wasTerminated = false →
      attempts (workerStep env des i s).trace ++ (workerStep env des i s).workers.flatMap held
        = dequeues (workerStep env des i s).trace := by
  rw [workerStep_wasTerminated]
  intro ht
  have h := h ht
  revert h
  apply workerStep_cases (P := fun t =>
    attempts s.trace ++ s.workers.flatMap held = dequeues s.trace →
    attempts t.trace ++ t.workers.flatMap held = dequeues t.trace)
  · exact id
  case term =>
    intro e ht' _
    rw [ht] at ht'
    cases ht'
  all_goals
    intros
    rename_i hpc h
    obtain ⟨hw, rfl⟩ := single_worker hl hpc
    rw [hw] at h
    simp [PoolState.emit, PoolState.setPc, hw, held] at h ⊢
    try simp [← h]
    try exact h

/-- With a single worker and no termination requested, the entries handed to
`restoreSingleTableData` followed by the entry the worker holds are the entries received,
in order. -/
theorem ordered_run (env : Env) (des : List MasterDataEntry) (hk : env.NumConns = 1)
    (sched : List Event) :
    (run env des sched).wasTerminated = false →
      attempts (run env des sched).trace ++ (run env des sched).workers.flatMap held
        = dequeues (run env des sched).trace := by
  have key : ∀ (l : List Event) (s : PoolState), Sound env des s →
      (s.wasTerminated = false →
        attempts s.trace ++ s.workers.flatMap held = dequeues s.trace) →
      ((runFrom env des s l).wasTerminated = false →
        attempts (runFrom env des s l).trace ++ (runFrom env des s l).workers.flatMap held
          = dequeues (runFrom env des s l).trace) := by
    intro l
    induction l with
    | nil => intro s _ h; exact h
    | cons ev rest ih =>
      intro s hS h
      refine ih _ (sound_step env des s ev hS) ?_
      unfold step
      split
      · exact h
      · cases ev with
        | main =>
          show (mainStep env des s).wasTerminated = false →
            attempts (mainStep env des s).trace ++ (mainStep env des s).workers.flatMap held
              = dequeues (mainStep env des s).trace
          rw [mainStep_wasTerminated, mainStep_attempts, mainStep_dequeues, mainStep_held]
          exact h
        | worker i => exact ordered_worker env des s i (hk ▸ hS.workers_le) h
        | interrupt => intro hc; cases hc
  exact key sched _ (sound_init env des) (by simp [PoolState.init])

/-- With a single connection and no early exit, the calls of `restoreSingleTableData` of
a run that has returned are for the entries of `dataEntries`, in order. -/
theorem single_in_order (env : Env) (des : List MasterDataEntry) (hC : Calm env des)
    (hk : env.NumConns = 1) (sched : List Event) (hint : noInterrupt sched)
    (hret : (run env des sched).returned) :
    attempts (run env des sched).trace = des := by
  have hS := sound_run env des sched
  have hSt := steady_run env des hC sched hint
  obtain ⟨hperm, _, _⟩ := calm_returned env des hC (by omega) sched hint hret
  have hord := ordered_run env des hk sched hSt.not_terminated
  have hheld : (run env des sched).workers.flatMap held = [] := by
    rw [List.flatMap_eq_nil_iff]
    intro pc hpc
    obtain ⟨j, hj⟩ := List.mem_iff_getElem?.mp hpc
    rw [hS.all_done (by rw [hret.1]; decide) j pc hj]
    rfl
  rw [hheld, List.append_nil] at hord
  rcases hS.fifo_ret hret.1 with ⟨hf, _⟩ | ⟨hw, _⟩
  · rw [← hord] at hf
    have hlen := hperm.length_eq
    have h2 := congrArg List.length hf
    rw [List.length_append] at h2
    have ht : (run env des sched).tasks = [] := List.length_eq_zero.mp (by omega)
    rw [ht, List.append_nil] at hf
    exact hf
  · have ha := (hS.quiet hw).2
    rw [ha] at hperm ⊢
    exact (List.nil_perm.mp hperm).symm

/-! ### The setup of single-data-file mode -/

@[simp]
theorem oidLists_nil : oidLists [] = [] := rfl

@[simp]
theorem oidLists_append (a b : List Effect) : oidLists (a ++ b) = oidLists a ++ oidLists b := by
  simp [oidLists, List.filterMap_append]

@[simp]
theorem firstPipes_nil : firstPipes [] = [] := rfl

@[simp]
theorem firstPipes_append (a b : List Effect) :
    firstPipes (a ++ b) = firstPipes a ++ firstPipes b := by
  simp [firstPipes, List.filterMap_append]

theorem workerStep_setup (env : Env) (des : List MasterDataEntry) (i : Nat) (s : PoolState) :
    oidLists (workerStep env des i s).trace = oidLists s.trace ∧
    firstPipes (workerStep env des i s).trace = firstPipes s.trace := by
  apply workerStep_cases (P := fun t => oidLists t.trace = oidLists s.trace ∧
    firstPipes t.trace = firstPipes s.trace) <;>
    intros <;> simp [PoolState.emit, PoolState.setPc, oidLists, firstPipes]

theorem setup_main (env : Env) (des : List MasterDataEntry) (s : PoolState)
    (h : oidLists s.trace = setupOids env des s ∧ firstPipes s.trace = setupPipe env des s) :
    oidLists (mainStep env des s).trace = setupOids env des (mainStep env des s) ∧
    firstPipes (mainStep env des s).trace = setupPipe env des (mainStep env des s) := by
  apply mainStep_cases (P := fun t => oidLists t.trace = setupOids env des t ∧
    firstPipes t.trace = setupPipe env des t)
  · exact h
  case empty =>
    intro hd hpc
    simp [setupOids, setupPipe, hpc, hd, PoolState.emit, oidLists, firstPipes] at h ⊢
    exact h
  case setup =>
    intro hd hs hpc
    simp [setupOids, setupPipe, hpc, hd, hs, PoolState.emit] at h ⊢
    rw [h.1, h.2]
    exact ⟨rfl, rfl⟩
  case plain =>
    intro hd hs hpc
    simp [setupOids, setupPipe, hpc, hd, hs] at h ⊢
    exact h
  all_goals
    intros
    rename_i hpc
    simp [setupOids, setupPipe, hpc, PoolState.emit] at h ⊢
    first
      | exact h
      | simpa [oidLists, firstPipes] using h

/-- In every state of every run the oid lists written and the first pipes created are
the ones of the setup of single-data-file mode. -/
theorem setup_run (env : Env) (des : List MasterDataEntry) (sched : List Event) :
    oidLists (run env des sched).trace = setupOids env des (run env des sched) ∧
    firstPipes (run env des sched).trace = setupPipe env des (run env des sched) := by
  refine runFrom_preserves env des (fun t => oidLists t.trace = setupOids env des t ∧
    firstPipes t.trace = setupPipe env des t) ?_ sched _ ?_
  swap
  · simp [PoolState.init, setupOids, setupPipe]
  · intro s ev h
    refine step_preserves env des (fun t => oidLists t.trace = setupOids env des t ∧
      firstPipes t.trace = setupPipe env des t) ?_ ?_ ?_ ?_ s ev h
    · intro t c ht; exact ht
    · intro t ht; exact setup_main env des t ht
    · intro t i ht
      have h1 := workerStep_setup env des i t
      have h2 := workerStep_mainPc env des i t
      simp only [setupOids, setupPipe, h1.1, h1.2, h2] at ht ⊢
      exact ht
    · intro t ht; exact ht

/-! ### The connection of a worker -/

/-- What worker `i` adds to the record carries the connection index `i`. -/
theorem workerStep_emits (env : Env) (des : List MasterDataEntry) (i : Nat) (s : PoolState) :
    ∃ new, (workerStep env des i s).trace = s.trace ++ new ∧
      ∀ ef ∈ new, ∀ c, Effect.whichConn ef = some c → c = i ∧ i < s.workers.length := by
  apply workerStep_cases (P := fun t => ∃ new, t.trace = s.trace ++ new ∧
    ∀ ef ∈ new, ∀ c, Effect.whichConn ef = some c → c = i ∧ i < s.workers.length)
  · exact ⟨[], by simp, by simp⟩
  all_goals
    intros
    rename_i hpc
    have hlt : i < s.workers.length := (List.getElem?_eq_some.mp hpc).1
    first
      | (refine ⟨[], ?_, ?_⟩
         · simp [PoolState.setPc]
         · simp)
      | (refine ⟨_, rfl, ?_⟩
         simp [Effect.whichConn, hlt])

/-- What the calling goroutine adds to the record carries no connection index. -/
theorem mainStep_emits (env : Env) (des : List MasterDataEntry) (s : PoolState) :
    ∃ new, (mainStep env des s).trace = s.trace ++ new ∧
      ∀ ef ∈ new, Effect.whichConn ef = none := by
  apply mainStep_cases (P := fun t => ∃ new, t.trace = s.trace ++ new ∧
    ∀ ef ∈ new, Effect.whichConn ef = none)
  · exact ⟨[], by simp, by simp⟩
  all_goals
    intros
    first
      | (refine ⟨[], ?_, ?_⟩
         · simp
         · simp)
      | (refine ⟨_, rfl, ?_⟩
         simp [Effect.whichConn])

theorem step_emits (env : Env) (des : List MasterDataEntry) (s : PoolState) (ev : Event) :
    ∃ new, (step env des s ev).trace = s.trace ++ new ∧
      ∀ ef ∈ new, ∀ c, Effect.whichConn ef = some c →
        ev = .worker c ∧ c < s.workers.length := by
  unfold step
  split
  · exact ⟨[], by simp, by simp⟩
  · cases ev with
    | main =>
      obtain ⟨new, h1, h2⟩ := mainStep_emits env des s
      refine ⟨new, h1, ?_⟩
      intro ef hef c hc
      rw [h2 ef hef] at hc
      cases hc
    | worker i =>
      obtain ⟨new, h1, h2⟩ := workerStep_emits env des i s
      refine ⟨new, h1, ?_⟩
      intro ef hef c hc
      obtain ⟨rfl, hlt⟩ := h2 ef hef c hc
      exact ⟨rfl, hlt⟩
    | interrupt => exact ⟨[], by simp, by simp⟩

theorem step_workers_length (env : Env) (des : List MasterDataEntry) (s : PoolState)
    (ev : Event) : s.workers.length ≤ (step env des s ev).workers.length := by
  unfold step
  split
  · exact Nat.le_refl _
  · cases ev with
    | main => exact mainStep_workers_length env des s
    | worker i => exact Nat.le_of_eq (workerStep_length env des i s).symm
    | interrupt => exact Nat.le_refl _

/-- Every connection index in the record is the index of a worker that was started. -/
theorem conns_run (env : Env) (des : List MasterDataEntry) (sched : List Event) :
    ∀ ef ∈ (run env des sched).trace, ∀ c, Effect.whichConn ef = some c →
      c < (run env des sched).workers.length := by
  refine runFrom_preserves env des (fun t => ∀ ef ∈ t.trace, ∀ c,
    Effect.whichConn ef = some c → c < t.workers.length) ?_ sched _ ?_
  swap
  · simp [PoolState.init]
  · intro s ev h ef hef c hc
    obtain ⟨new, h1, h2⟩ := step_emits env des s ev
    have hlen := step_workers_length env des s ev
    rw [h1] at hef
    rcases List.mem_append.mp hef with hm | hm
    · exact Nat.lt_of_lt_of_le (h ef hm c hc) hlen
    · exact Nat.lt_of_lt_of_le (h2 ef hm c hc).2 hlen

/-- `restoreSingleTableData` uses `Exec` on the connection it is given only. -/
theorem restoreSingleTableData_own_conn (env : Env)
    (exec exec' : String → Nat → Except GoError Int) (entry : MasterDataEntry)
    (tableNum totalTables whichConn : Nat)
    (h : ∀ query, exec' query (env.ValidateConnNum whichConn)
      = exec query (env.ValidateConnNum whichConn)) :
    restoreSingleTableData env exec' entry tableNum totalTables whichConn
      = restoreSingleTableData env exec entry tableNum totalTables whichConn := by
  simp only [restoreSingleTableData, CopyTableIn, h]

theorem mainStep_spawn (env : Env) (des : List MasterDataEntry) (s : PoolState) (i : Nat)
    (hpc : s.mainPc = .spawn i) (hi : i < env.NumConns) :
    (mainStep env des s).workers = s.workers ++ [.start] := by
  unfold mainStep
  rw [hpc]
  simp [hi]

/-! ### The dependency resolver -/

theorem prerequisites_filterMap (catalog : List CatalogRow) (backupSet todo : List DepEntry)
    (object : DepEntry) :
    prerequisites (todo.filterMap fun o =>
      match prerequisitesOf catalog backupSet o with
      | [] => none
      | deps => some (o, deps)) object
    = if object ∈ todo then prerequisitesOf catalog backupSet object else [] := by
  induction todo with
  | nil => simp [prerequisites]
  | cons a rest ih =>
    rw [List.filterMap_cons]
    cases h : prerequisitesOf catalog backupSet a with
    | nil =>
      simp only [ih, List.mem_cons]
      by_cases ha : object = a
      · subst ha; simp [h]
      · simp [ha]
    | cons d ds =>
      simp only [prerequisites, ih, List.mem_cons]
      by_cases ha : a = object
      · subst ha; simp [h]
      · have ha' : ¬ object = a := fun e => ha e.symm
        simp [ha, ha']

theorem prerequisites_GetDependencies (catalog : List CatalogRow) (backupSet : List DepEntry)
    (object : DepEntry) :
    prerequisites (GetDependencies catalog backupSet) object
      = if object ∈ backupSet then prerequisitesOf catalog backupSet object else [] :=
  prerequisites_filterMap catalog backupSet backupSet object

theorem mem_prerequisitesOf (catalog : List CatalogRow) (backupSet : List DepEntry)
    (object p : DepEntry) :
    p ∈ prerequisitesOf catalog backupSet object ↔
      ∃ row ∈ catalog, edgeAsserted catalog row = true ∧ row.dependent = object ∧
        row.prerequisite = p ∧ p ∈ backupSet := by
  unfold prerequisitesOf
  rw [List.mem_dedup, List.mem_map]
  constructor
  · rintro ⟨row, hrow, rfl⟩
    rw [List.mem_filter] at hrow
    simp only [Bool.and_eq_true, decide_eq_true_eq] at hrow
    exact ⟨row, hrow.1, hrow.2.1.1, hrow.2.1.2, rfl, hrow.2.2⟩
  · rintro ⟨row, hrow, h1, h2, rfl, h4⟩
    refine ⟨row, ?_, rfl⟩
    rw [List.mem_filter]
    simp only [Bool.and_eq_true, decide_eq_true_eq]
    exact ⟨hrow, ⟨h1, h2⟩, h4⟩

/-- The edges of the mapping stay within the backup set. -/
theorem dependsOn_GetDependencies (catalog : List CatalogRow) (backupSet : List DepEntry)
    (p q : DepEntry) (h : dependsOn (GetDependencies catalog backupSet) p q) :
    p ∈ backupSet ∧ q ∈ backupSet ∧ p ∈ prerequisitesOf catalog backupSet q := by
  unfold dependsOn at h
  rw [prerequisites_GetDependencies] at h
  split at h
  · next hq =>
    obtain ⟨_, _, _, _, _, hp⟩ := (mem_prerequisitesOf catalog backupSet q p).mp h
    exact ⟨hp, hq, h⟩
  · simp at h

theorem ordered_nil (mapping : DependencyMap) : Ordered mapping [] := by
  intro before object after h
  simp at h

theorem ordered_concat (mapping : DependencyMap) (emitted : List DepEntry) (next : DepEntry)
    (h : Ordered mapping emitted) (hr : ready mapping emitted next = true) :
    Ordered mapping (emitted ++ [next]) := by
  intro before object after heq p hp
  rcases List.eq_nil_or_concat after with rfl | ⟨after', x, rfl⟩
  · have h1 : emitted ++ [next] = before ++ [object] := heq
    obtain ⟨h2, h3⟩ := List.append_inj' h1 rfl
    simp at h3
    subst h2 h3
    unfold ready at hr
    rw [List.all_eq_true] at hr
    simpa using hr p hp
  · have h1 : emitted ++ [next] = (before ++ object :: after') ++ [x] := by
      rw [heq]; simp
    obtain ⟨h2, _⟩ := List.append_inj' h1 rfl
    exact h before object after' h2 p hp

/-- In a non-empty list of objects of a mapping without cycle, some object has no
prerequisite in the list. -/
theorem exists_minimal (mapping : DependencyMap) (hA : Acyclic mapping) :
    ∀ l : List DepEntry, l ≠ [] →
      ∃ o ∈ l, ∀ p ∈ l, ¬ Relation.TransGen (dependsOn mapping) p o := by
  intro l
  induction l with
  | nil => intro h; exact absurd rfl h
  | cons a rest ih =>
    intro _
    by_cases hrest : rest = []
    · subst hrest
      refine ⟨a, List.mem_cons_self _ _, ?_⟩
      intro p hp
      simp at hp
      subst hp
      exact hA p
    · obtain ⟨m, hm, hmin⟩ := ih hrest
      by_cases ham : Relation.TransGen (dependsOn mapping) a m
      · refine ⟨a, List.mem_cons_self _ _, ?_⟩
        intro p hp hpa
        rcases List.mem_cons.mp hp with rfl | hp
        · exact hA p hpa
        · exact hmin p hp (hpa.trans ham)
      · refine ⟨m, List.mem_cons_of_mem _ hm, ?_⟩
        intro p hp hpm
        rcases List.mem_cons.mp hp with rfl | hp
        · exact ham hpm
        · exact hmin p hp hpm

/-- While objects remain, one of them can be emitted, when the mapping has no cycle and
the prerequisites of the remaining objects are emitted or remain. -/
theorem find_ready (mapping : DependencyMap) (hA : Acyclic mapping)
    (emitted remaining : List DepEntry) (hne : remaining ≠ [])
    (hclosed : ∀ o ∈ remaining, ∀ p ∈ prerequisites mapping o,
      p ∈ emitted ∨ p ∈ remaining) :
    ∃ next, remaining.find? (ready mapping emitted) = some next := by
  obtain ⟨m, hm, hmin⟩ := exists_minimal mapping hA remaining hne
  cases hf : remaining.find? (ready mapping emitted) with
  | some next => exact ⟨next, rfl⟩
  | none =>
    rw [List.find?_eq_none] at hf
    have hnr := hf m hm
    exfalso
    apply hnr
    unfold ready
    rw [List.all_eq_true]
    intro p hp
    rcases hclosed m hm p hp with h | h
    · simpa using h
    · exact absurd (Relation.TransGen.single hp) (hmin p h)

theorem sequenceFrom_ok (mapping : DependencyMap) (hA : Acyclic mapping) :
    ∀ (fuel : Nat) (emitted remaining : List DepEntry), remaining.length ≤ fuel →
      (∀ o ∈ remaining, ∀ p ∈ prerequisites mapping o, p ∈ emitted ∨ p ∈ remaining) →
      Ordered mapping emitted →
      ∃ sorted, sequenceFrom mapping fuel emitted remaining = .ok sorted ∧
        sorted.Perm (emitted ++ remaining) ∧ Ordered mapping sorted := by
  intro fuel
  induction fuel with
  | zero =>
    intro emitted remaining hlen _ hord
    have : remaining = [] := List.length_eq_zero.mp (by omega)
    subst this
    exact ⟨emitted, by simp [sequenceFrom], by simp, hord⟩
  | succ n ih =>
    intro emitted remaining hlen hclosed hord
    by_cases hne : remaining = []
    · subst hne
      exact ⟨emitted, by simp [sequenceFrom], by simp, hord⟩
    · obtain ⟨next, hnext⟩ := find_ready mapping hA emitted remaining hne hclosed
      have hmem : next ∈ remaining := List.mem_of_find?_eq_some hnext
      have hready : ready mapping emitted next = true := List.find?_some hnext
      have hlen' : (remaining.erase next).length ≤ n := by
        rw [List.length_erase_of_mem hmem]
        omega
      have hclosed' : ∀ o ∈ remaining.erase next, ∀ p ∈ prerequisites mapping o,
          p ∈ emitted ++ [next] ∨ p ∈ remaining.erase next := by
        intro o ho p hp
        rcases hclosed o (List.mem_of_mem_erase ho) p hp with h | h
        · exact Or.inl (List.mem_append_left _ h)
        · by_cases hpn : p = next
          · exact Or.inl (by simp [hpn])
          · exact Or.inr ((List.mem_erase_of_ne hpn).mpr h)
      obtain ⟨sorted, h1, h2, h3⟩ := ih (emitted ++ [next]) (remaining.erase next) hlen'
        hclosed' (ordered_concat mapping emitted next hord hready)
      refine ⟨sorted, ?_, ?_, h3⟩
      · simp only [sequenceFrom, hnext]
        exact h1
      · refine h2.trans ?_
        rw [List.append_assoc]
        exact List.Perm.append_left _ (List.perm_cons_erase hmem).symm

/-- The sequencer reads the mapping through the membership in the sets of
prerequisites only. -/
theorem sequenceFrom_congr (mapping mapping' : DependencyMap)
    (h : ∀ o p, p ∈ prerequisites mapping' o ↔ p ∈ prerequisites mapping o) :
    ∀ (fuel : Nat) (emitted remaining : List DepEntry),
      sequenceFrom mapping' fuel emitted remaining
        = sequenceFrom mapping fuel emitted remaining := by
  have hready : ∀ emitted, ready mapping' emitted = ready mapping emitted := by
    intro emitted
    funext o
    unfold ready
    rw [Bool.eq_iff_iff, List.all_eq_true, List.all_eq_true]
    exact ⟨fun hh p hp => hh p ((h o p).mpr hp), fun hh p hp => hh p ((h o p).mp hp)⟩
  intro fuel
  induction fuel with
  | zero => intro emitted remaining; rfl
  | succ n ih =>
    intro emitted remaining
    simp only [sequenceFrom, hready]
    cases remaining.find? (ready mapping emitted) with
    | none => rfl
    | some next => exact ih _ _

/-- A mapping whose edges all lead to an object of lower rank has no cycle. -/
theorem acyclic_of_rank (mapping : DependencyMap) (rank : DepEntry → Nat)
    (h : ∀ p q, dependsOn mapping p q → rank p < rank q) : Acyclic mapping := by
  have key : ∀ a b, Relation.TransGen (dependsOn mapping) a b → rank a < rank b := by
    intro a b hab
    induction hab with
    | single hpq => exact h _ _ hpq
    | tail _ hpq ih => exact Nat.lt_trans ih (h _ _ hpq)
  intro o ho
  exact Nat.lt_irrefl _ (key o o ho)

theorem prerequisitesOf_congr (catalog : List CatalogRow) (backupSet backupSet' : List DepEntry)
    (h : ∀ p, p ∈ backupSet' ↔ p ∈ backupSet) (object : DepEntry) :
    prerequisitesOf catalog backupSet' object = prerequisitesOf catalog backupSet object := by
  unfold prerequisitesOf
  have : (fun row : CatalogRow => edgeAsserted catalog row && decide (row.dependent = object)
        && decide (row.prerequisite ∈ backupSet'))
      = (fun row : CatalogRow => edgeAsserted catalog row && decide (row.dependent = object)
        && decide (row.prerequisite ∈ backupSet)) := by
    funext row
    rw [decide_eq_decide.mpr (h row.prerequisite)]
  rw [this]

/-- The mapping of a rearranged backup set is the mapping of the backup set,
rearranged. -/
theorem GetDependencies_perm (catalog : List CatalogRow) (backupSet backupSet' : List DepEntry)
    (h : backupSet'.Perm backupSet) :
    (GetDependencies catalog backupSet').Perm (GetDependencies catalog backupSet) := by
  unfold GetDependencies
  have hf : (fun object => match prerequisitesOf catalog backupSet' object with
        | [] => none
        | deps => some (object, deps))
      = (fun object => match prerequisitesOf catalog backupSet object with
        | [] => none
        | deps => some (object, deps)) := by
    funext object
    rw [prerequisitesOf_congr catalog backupSet backupSet' (fun p => h.mem_iff) object]
  rw [hf]
  exact h.filterMap _

theorem dedup_replicate {α : Type} [DecidableEq α] (a : α) (n : Nat) :
    (List.replicate (n + 1) a).dedup = [a] := by
  induction n with
  | zero => simp
  | succ n ih =>
    rw [List.replicate_succ, List.dedup_cons_of_mem (by simp), ih]

/-- Scanning the argument and return types of an input or output function never makes
the function depend on its own base type. -/
theorem io_function_no_back_edge (catalog : List CatalogRow) (backupSet : List DepEntry)
    (baseType function : DepEntry)
    (hio : (⟨.baseTypeFunction, baseType, function⟩ : CatalogRow) ∈ catalog)
    (hscan : ∀ row ∈ catalog, row.dependent = function → row.prerequisite = baseType →
      row.kind = .functionType) :
    baseType ∉ prerequisites (GetDependencies catalog backupSet) function := by
  intro hmem
  obtain ⟨_, _, h⟩ := dependsOn_GetDependencies catalog backupSet baseType function hmem
  obtain ⟨row, hrow, hass, hd, hp, _⟩ :=
    (mem_prerequisitesOf catalog backupSet function baseType).mp h
  have hk := hscan row hrow hd hp
  have : isIOFunctionOf catalog row.dependent row.prerequisite = true := by
    unfold isIOFunctionOf
    rw [List.any_eq_true]
    exact ⟨_, hio, by simp [hd, hp]⟩
  simp [edgeAsserted, hk, this] at hass

/-! ### An empty `dataEntries` -/

theorem untouched_init (env : Env) : Untouched env (PoolState.init env) := by
  constructor <;> simp [PoolState.init]

theorem untouched_step (env : Env) (s : PoolState) (ev : Event) (h : Untouched env s) :
    Untouched env (step env [] s ev) ∧
    (ev = .main → (step env [] s ev).mainPc = .returned) ∧
    (ev ≠ .main → (step env [] s ev).mainPc = s.mainPc) ∧
    (s.mainPc = .returned → (step env [] s ev).mainPc = .returned) := by
  obtain ⟨h1, h2, h3, h4, h5, h6, h7, h8, h9⟩ := h
  cases ev with
  | main =>
    rw [step_main env [] s h8]
    rcases h9 with ⟨hpc, htr⟩ | ⟨hpc, htr⟩
    · have : mainStep env [] s
          = { s.emit [.verbose ("No data to restore for timestamp = " ++ env.Timestamp)] with
              mainPc := .returned } := by
        simp [mainStep, hpc]
      rw [this]
      refine ⟨⟨h1, h2, h3, h4, h5, h6, h7, h8, Or.inr ⟨rfl, ?_⟩⟩, fun _ => rfl,
        fun hne => absurd rfl hne, fun _ => rfl⟩
      simp [PoolState.emit, htr]
    · have : mainStep env [] s = s := by
        simp [mainStep, hpc]
      rw [this]
      exact ⟨⟨h1, h2, h3, h4, h5, h6, h7, h8, Or.inr ⟨hpc, htr⟩⟩, fun _ => hpc,
        fun _ => rfl, fun _ => hpc⟩
  | worker i =>
    rw [step_worker env [] s i h8]
    have : workerStep env [] i s = s := by
      simp [workerStep, h1]
    rw [this]
    exact ⟨⟨h1, h2, h3, h4, h5, h6, h7, h8, h9⟩, fun hne => (by cases hne), fun _ => rfl,
      fun hr => hr⟩
  | interrupt =>
    rw [step_interrupt env [] s h8]
    exact ⟨⟨h1, h2, h3, h4, h5, h6, h7, h8, h9⟩, fun hne => (by cases hne), fun _ => rfl,
      fun hr => hr⟩

theorem untouched_runFrom (env : Env) (sched : List Event) :
    ∀ s, Untouched env s →
      Untouched env (runFrom env [] s sched) ∧
      (Event.main ∈ sched ∨ s.mainPc = .returned →
        (runFrom env [] s sched).mainPc = .returned) ∧
      (Event.main ∉ sched → (runFrom env [] s sched).mainPc = s.mainPc) := by
  induction sched with
  | nil =>
    intro s h
    exact ⟨h, fun hm => by simpa using hm, fun _ => rfl⟩
  | cons ev rest ih =>
    intro s h
    obtain ⟨hU, hm, hn, hr⟩ := untouched_step env s ev h
    obtain ⟨hU', hm', hn'⟩ := ih _ hU
    rw [runFrom_cons]
    refine ⟨hU', ?_, ?_⟩
    · intro hx
      apply hm'
      rcases hx with hx | hx
      · rcases List.mem_cons.mp hx with hx | hx
        · exact Or.inr (hm hx.symm)
        · exact Or.inl hx
      · exact Or.inr (hr hx)
    · intro hx
      rw [hn' (fun hh => hx (List.mem_cons_of_mem _ hh)), hn (fun hh => hx (by simp [hh]))]

/-! ### The session state of a connection -/

@[simp]
theorem gucConns_nil : gucConns [] = [] := rfl

@[simp]
theorem gucConns_append (a b : List Effect) : gucConns (a ++ b) = gucConns a ++ gucConns b := by
  simp [gucConns, List.filterMap_append]

theorem mem_gucConns {c : Nat} {tr : List Effect} :
    c ∈ gucConns tr ↔ Effect.setGUCs c ∈ tr := by
  unfold gucConns
  rw [List.mem_filterMap]
  constructor
  · rintro ⟨ef, hef, h⟩
    cases ef <;> simp at h
    subst h
    exact hef
  · intro h
    exact ⟨_, h, rfl⟩

theorem guc_main (env : Env) (des : List MasterDataEntry) (s : PoolState)
    (h : ∀ j : Nat, (gucConns s.trace).count j = gucsDone s.workers[j]?) :
    ∀ j : Nat, (gucConns (mainStep env des s).trace).count j
      = gucsDone (mainStep env des s).workers[j]? := by
  refine And.left (b := True) ?_
  apply mainStep_cases (P := fun t => (∀ j : Nat, (gucConns t.trace).count j
      = gucsDone t.workers[j]?) ∧ True)
  · exact ⟨h, trivial⟩
  case spawn =>
    intro i _ _
    refine ⟨fun j => ?_, trivial⟩
    have hj := h j
    simp only [List.getElem?_append]
    split
    · exact hj
    · next hlt =>
      rw [List.getElem?_eq_none (Nat.le_of_not_lt hlt)] at hj
      rw [hj]
      rcases Nat.eq_zero_or_pos (j - s.workers.length) with h0 | h0
      · simp [h0, gucsDone]
      · rw [List.getElem?_eq_none (by simp; omega)]
  all_goals
    intros
    refine ⟨fun j => ?_, trivial⟩
    simpa [PoolState.emit, gucConns] using h j

theorem guc_worker (env : Env) (des : List MasterDataEntry) (s : PoolState) (i : Nat)
    (h : ∀ j : Nat, (gucConns s.trace).count j = gucsDone s.workers[j]?) :
    ∀ j : Nat, (gucConns (workerStep env des i s).trace).count j
      = gucsDone (workerStep env des i s).workers[j]? := by
  refine And.left (b := True) ?_
  apply workerStep_cases (P := fun t => (∀ j : Nat, (gucConns t.trace).count j
      = gucsDone t.workers[j]?) ∧ True)
  · exact ⟨h, trivial⟩
  all_goals
    intros
    rename_i hpc
    have hlt : i < s.workers.length := (List.getElem?_eq_some.mp hpc).1
    refine ⟨fun j => ?_, trivial⟩
    have hj := h j
    by_cases hji : i = j
    · subst hji
      rw [hpc] at hj
      simp [PoolState.emit, PoolState.setPc, gucConns, hlt, gucsDone] at hj ⊢
      try exact hj
    · have hji' : ¬ j = i := fun e => hji e.symm
      simp [PoolState.emit, PoolState.setPc, gucConns, List.getElem?_set, hji, hji'] at hj ⊢
      try exact hj

/-- In every state of every run each worker has called `setGUCsForConnection` for its
connection once if it has made its first action, and not at all before. -/
theorem guc_run (env : Env) (des : List MasterDataEntry) (sched : List Event) :
    ∀ j : Nat, (gucConns (run env des sched).trace).count j
      = gucsDone (run env des sched).workers[j]? := by
  refine runFrom_preserves env des (fun t => ∀ j : Nat, (gucConns t.trace).count j
    = gucsDone t.workers[j]?) ?_ sched _ ?_
  swap
  · intro j; simp [PoolState.init, gucsDone]
  · intro s ev h
    refine step_preserves env des (fun t => ∀ j : Nat, (gucConns t.trace).count j
      = gucsDone t.workers[j]?) ?_ ?_ ?_ ?_ s ev h
    · intro t c ht; exact ht
    · intro t ht; exact guc_main env des t ht
    · intro t i ht; exact guc_worker env des t i ht
    · intro t ht; exact ht

theorem prepared_nil : Prepared [] := by
  intro before c e tn tot r after h
  simp at h

theorem prepared_append (tr new : List Effect) (h : Prepared tr)
    (hnew : ∀ c e tn tot r, Effect.restore c e tn tot r ∈ new → Effect.setGUCs c ∈ tr) :
    Prepared (tr ++ new) := by
  intro before c e tn tot r after heq
  rcases List.append_eq_append_iff.mp heq with ⟨a', h1, h2⟩ | ⟨c', h1, h2⟩
  · rw [h1]
    exact List.mem_append_left _ (hnew c e tn tot r (by rw [h2]; simp))
  · cases c' with
    | nil =>
      simp at h1 h2
      rw [← h1]
      exact hnew c e tn tot r (by rw [← h2]; simp)
    | cons x rest =>
      simp at h2
      obtain ⟨hx, _⟩ := h2
      subst hx
      exact h before c e tn tot r rest h1

/-- What a goroutine adds to the record in one action holds a call of
`restoreSingleTableData` only if it is added by a worker that has made its first
action. -/
theorem step_restore_started (env : Env) (des : List MasterDataEntry) (s : PoolState)
    (ev : Event) :
    ∃ new, (step env des s ev).trace = s.trace ++ new ∧
      ∀ c e tn tot r, Effect.restore c e tn tot r ∈ new →
        ∃ entry, s.workers[c]? = some (.call entry) := by
  unfold step
  split
  · exact ⟨[], by simp, by simp⟩
  · cases ev with
    | main =>
      obtain ⟨new, h1, h2⟩ := mainStep_emits env des s
      refine ⟨new, h1, ?_⟩
      intro c e tn tot r hm
      have := h2 _ hm
      simp [Effect.whichConn] at this
    | worker i =>
      show ∃ new, (workerStep env des i s).trace = s.trace ++ new ∧ _
      apply workerStep_cases (P := fun t => ∃ new, t.trace = s.trace ++ new ∧
        ∀ c e tn tot r, Effect.restore c e tn tot r ∈ new →
          ∃ entry, s.workers[c]? = some (.call entry))
      · exact ⟨[], by simp, by simp⟩
      case callPanic =>
        intro entry _ hpc
        refine ⟨_, rfl, ?_⟩
        intro c e tn tot r hm
        simp at hm
        obtain ⟨rfl, _⟩ := hm
        exact ⟨entry, hpc⟩
      case callOk =>
        intro entry _ hpc
        refine ⟨_, rfl, ?_⟩
        intro c e tn tot r hm
        simp at hm
        obtain ⟨rfl, _⟩ := hm
        exact ⟨entry, hpc⟩
      case callErr =>
        intro entry err _ hpc
        refine ⟨_, rfl, ?_⟩
        intro c e tn tot r hm
        simp at hm
        obtain ⟨rfl, _⟩ := hm
        exact ⟨entry, hpc⟩
      all_goals
        intros
        first
          | (refine ⟨[], ?_, ?_⟩
             · simp [PoolState.setPc]
             · simp)
          | (refine ⟨_, rfl, ?_⟩
             simp)
    | interrupt => exact ⟨[], by simp, by simp⟩

theorem prepared_run (env : Env) (des : List MasterDataEntry) (sched : List Event) :
    Prepared (run env des sched).trace := by
  have key : ∀ (l : List Event) (s : PoolState),
      (∀ j : Nat, (gucConns s.trace).count j = gucsDone s.workers[j]?) →
      Prepared s.trace → Prepared (runFrom env des s l).trace := by
    intro l
    induction l with
    | nil => intro s _ h; exact h
    | cons ev rest ih =>
      intro s hg h
      have hg' : ∀ j : Nat, (gucConns (step env des s ev).trace).count j
          = gucsDone (step env des s ev).workers[j]? :=
        step_preserves env des (fun t => ∀ j : Nat, (gucConns t.trace).count j
          = gucsDone t.workers[j]?) (fun t c ht => ht) (fun t ht => guc_main env des t ht)
          (fun t i ht => guc_worker env des t i ht) (fun t ht => ht) s ev hg
      refine ih _ hg' ?_
      obtain ⟨new, h1, h2⟩ := step_restore_started env des s ev
      rw [h1]
      apply prepared_append _ _ h
      intro c e tn tot r hm
      obtain ⟨entry, hpc⟩ := h2 c e tn tot r hm
      have hc := hg c
      rw [hpc] at hc
      apply mem_gucConns.mp
      apply List.count_pos_iff.mp
      rw [hc]
      exact Nat.zero_lt_one
  exact key sched _ (by intro j; simp [PoolState.init, gucsDone]) prepared_nil

/-! ### The capacity of the channel -/

theorem capacity_main (env : Env) (des : List MasterDataEntry) (s : PoolState)
    (hS : Sound env des s)
    (h : s.tasks.length + (dequeues s.trace).length ≤ des.length) :
    (mainStep env des s).tasks.length + (dequeues (mainStep env des s).trace).length
      ≤ des.length := by
  rw [mainStep_dequeues]
  apply mainStep_cases (P := fun t => t.tasks.length + (dequeues s.trace).length
      ≤ des.length)
  · exact h
  case send =>
    intro e rest _ hpc
    have hf := congrArg List.length (hS.fifo (by rw [hpc]; simp [MainPc.phase]))
    simp [hpc, MainPc.unsent] at hf ⊢
    omega
  all_goals
    intros
    exact h

theorem capacity_worker (env : Env) (des : List MasterDataEntry) (s : PoolState) (i : Nat)
    (h : s.tasks.length + (dequeues s.trace).length ≤ des.length) :
    (workerStep env des i s).tasks.length + (dequeues (workerStep env des i s).trace).length
      ≤ des.length := by
  apply workerStep_cases (P := fun t => t.tasks.length + (dequeues t.trace).length
      ≤ des.length)
  · exact h
  case recv =>
    intro e rest ht _
    rw [ht] at h
    simp [PoolState.emit, PoolState.setPc] at h ⊢
    omega
  all_goals
    intros
    simp [PoolState.emit, PoolState.setPc]
    exact h

/-- The channel never holds more entries than its capacity `len(dataEntries)`: the
entries in it and the entries received from it are never more than `dataEntries`. -/
theorem capacity_run (env : Env) (des : List MasterDataEntry) (sched : List Event) :
    (run env des sched).tasks.length + (dequeues (run env des sched).trace).length
      ≤ des.length := by
  have key : ∀ (l : List Event) (s : PoolState), Sound env des s →
      s.tasks.length + (dequeues s.trace).length ≤ des.length →
      (runFrom env des s l).tasks.length + (dequeues (runFrom env des s l).trace).length
        ≤ des.length := by
    intro l
    induction l with
    | nil => intro s _ h; exact h
    | cons ev rest ih =>
      intro s hS h
      refine ih _ (sound_step env des s ev hS) ?_
      unfold step
      split
      · exact h
      · cases ev with
        | main => exact capacity_main env des s hS h
        | worker i => exact capacity_worker env des s i h
        | interrupt => exact h
  exact key sched _ (sound_init env des) (by simp [PoolState.init])

/-- A send finds room in the channel. -/
theorem send_not_blocked (env : Env) (des : List MasterDataEntry) (s : PoolState)
    (hS : Sound env des s) (e : MasterDataEntry) (rest : List MasterDataEntry)
    (hpc : s.mainPc = .send (e :: rest)) :
    s.tasks.length < des.length ∧
    (mainStep env des s).mainPc = .send rest ∧
    (mainStep env des s).tasks = s.tasks ++ [e] := by
  have hf := congrArg List.length (hS.fifo (by rw [hpc]; simp [MainPc.phase]))
  simp [hpc, MainPc.unsent] at hf
  have hlt : s.tasks.length < des.length := by omega
  refine ⟨hlt, ?_, ?_⟩ <;> simp [mainStep, hpc, hlt]

/-- The calling goroutine gets to `workerPool.Wait()` (or returns before it starts the
workers) by its own actions alone. -/
theorem main_reaches_wait (env : Env) (des : List MasterDataEntry) :
    ∀ (n : Nat) (s : PoolState), Sound env des s → s.panicked = false →
      remaining env des s ≤ n →
      ∃ k, 5 ≤ (runFrom env des s (mainRuns k)).mainPc.phase := by
  intro n
  induction n with
  | zero =>
    intro s hS _ hn
    refine ⟨0, ?_⟩
    rcases mainStep_remaining env des s hS with h | ⟨h, _⟩ | h
    · simp [mainRuns, runFrom, h, MainPc.phase]
    · simp [mainRuns, runFrom, h, MainPc.phase]
    · omega
  | succ n ih =>
    intro s hS hp hn
    rcases mainStep_remaining env des s hS with h | ⟨h, _⟩ | h
    · exact ⟨0, by simp [mainRuns, runFrom, h, MainPc.phase]⟩
    · exact ⟨0, by simp [mainRuns, runFrom, h, MainPc.phase]⟩
    · have hstep := step_main env des s hp
      have hS' := sound_step env des s .main hS
      have hp' : (step env des s .main).panicked = false := by
        rw [hstep]
        exact (mainStep_panicked env des s).trans hp
      have hr : remaining env des (step env des s .main) ≤ n := by
        rw [hstep, remaining_clock]
        omega
      obtain ⟨k, hk⟩ := ih _ hS' hp' hr
      refine ⟨k + 1, ?_⟩
      have : mainRuns (k + 1) = Event.main :: mainRuns k := by
        simp [mainRuns, List.replicate_succ]
      rw [this, runFrom_cons]
      exact hk

theorem mainStep_phase_late (env : Env) (des : List MasterDataEntry) (s : PoolState)
    (hp : 6 ≤ s.mainPc.phase) : 6 ≤ (mainStep env des s).mainPc.phase := by
  apply mainStep_cases (P := fun t => 6 ≤ t.mainPc.phase)
  · exact hp
  all_goals
    intros
    rename_i hpc
    simp [hpc, MainPc.phase] at hp ⊢

theorem settled_step (env : Env) (des : List MasterDataEntry) (s : PoolState) (ev : Event)
    (hS : Sound env des s) (hp : 6 ≤ s.mainPc.phase) :
    attempts (step env des s ev).trace = attempts s.trace ∧
    (step env des s ev).tasks = s.tasks ∧ 6 ≤ (step env des s ev).mainPc.phase := by
  unfold step
  split
  · exact ⟨rfl, rfl, hp⟩
  · cases ev with
    | main =>
      exact ⟨mainStep_attempts env des s, (mainStep_late env des s (by omega)).2.1,
        mainStep_phase_late env des s hp⟩
    | worker i =>
      have : workerStep env des i s = s := by
        unfold workerStep
        cases hw : s.workers[i]? with
        | none => rfl
        | some pc => rw [hS.all_done hp i pc hw]
      show attempts (workerStep env des i s).trace = attempts s.trace ∧
        (workerStep env des i s).tasks = s.tasks ∧ 6 ≤ (workerStep env des i s).mainPc.phase
      rw [this]
      exact ⟨rfl, rfl, hp⟩
    | interrupt => exact ⟨rfl, rfl, hp⟩

/-- Once `workerPool.Wait()` has returned, what is left in the channel stays there and is
never handed to `restoreSingleTableData`. -/
theorem settled_runFrom (env : Env) (des : List MasterDataEntry) (ext : List Event) :
    ∀ s, Sound env des s → 6 ≤ s.mainPc.phase →
      attempts (runFrom env des s ext).trace = attempts s.trace ∧
      (runFrom env des s ext).tasks = s.tasks := by
  induction ext with
  | nil => intro s _ _; exact ⟨rfl, rfl⟩
  | cons ev rest ih =>
    intro s hS hp
    obtain ⟨h1, h2, h3⟩ := settled_step env des s ev hS hp
    obtain ⟨h4, h5⟩ := ih _ (sound_step env des s ev hS) h3
    rw [runFrom_cons, h4, h5, h1, h2]
    exact ⟨rfl, rfl⟩

/-- Without a connection no worker is started and nothing can panic. -/
theorem zero_conns_run (env : Env) (des : List MasterDataEntry) (hk : env.NumConns = 0)
    (sched : List Event) :
    (run env des sched).panicked = false ∧ (run env des sched).workers = [] := by
  have hw : ∀ s, Sound env des s → s.workers = [] := by
    intro s hS
    have := hS.workers_le
    rw [hk] at this
    exact List.length_eq_zero.mp (by omega)
  have key : ∀ (l : List Event) (s : PoolState), Sound env des s → s.panicked = false →
      (runFrom env des s l).panicked = false := by
    intro l
    induction l with
    | nil => intro s _ h; exact h
    | cons ev rest ih =>
      intro s hS h
      refine ih _ (sound_step env des s ev hS) ?_
      cases ev with
      | main => rw [step_main env des s h]; exact (mainStep_panicked env des s).trans h
      | worker i =>
        rw [step_worker env des s i h]
        have : workerStep env des i s = s := by simp [workerStep, hw s hS]
        rw [this]
        exact h
      | interrupt => rw [step_interrupt env des s h]; exact h
  exact ⟨key sched _ (sound_init env des) rfl, hw _ (sound_run env des sched)⟩

/-! ### The table counter -/

theorem wrapUint32_succ (x : Nat) : wrapUint32 (wrapUint32 x + 1) = wrapUint32 (x + 1) := by
  unfold wrapUint32
  omega

@[simp]
theorem attemptNums_nil : attemptNums [] = [] := rfl

@[simp]
theorem attemptNums_append (a b : List Effect) :
    attemptNums (a ++ b) = attemptNums a ++ attemptNums b := by
  simp [attemptNums, List.filterMap_append]

theorem mainStep_attemptNums (env : Env) (des : List MasterDataEntry) (s : PoolState) :
    attemptNums (mainStep env des s).trace = attemptNums s.trace := by
  apply mainStep_cases (P := fun t => attemptNums t.trace = attemptNums s.trace) <;>
    intros <;> simp [PoolState.emit, attemptNums]

theorem mainStep_tableNum (env : Env) (des : List MasterDataEntry) (s : PoolState) :
    (mainStep env des s).tableNum = s.tableNum := by
  apply mainStep_cases (P := fun t => t.tableNum = s.tableNum) <;> intros <;> rfl

theorem tableNum_worker (env : Env) (des : List MasterDataEntry) (s : PoolState) (i : Nat)
    (h : s.tableNum = wrapUint32 (1 + s.progress + total atIncr s.workers)) :
    (workerStep env des i s).tableNum = wrapUint32 (1 + (workerStep env des i s).progress
      + total atIncr (workerStep env des i s).workers) := by
  apply workerStep_cases (P := fun t => t.tableNum
      = wrapUint32 (1 + t.progress + total atIncr t.workers))
  · exact h
  case advance =>
    intro hpc
    have hge := total_ge atIncr hpc
    simp only [PoolState.setPc, total_set_eq _ hpc]
    rw [h, wrapUint32_succ]
    simp [atIncr] at hge ⊢
    congr 1
  case incr =>
    intro hpc
    have hge := total_ge atIncr hpc
    simp only [PoolState.setPc, total_set_eq _ hpc]
    rw [h]
    simp [atIncr] at hge ⊢
    congr 1
    omega
  all_goals
    intros
    rename_i hpc
    have hge := total_ge atIncr hpc
    simp only [PoolState.setPc, PoolState.emit, total_set_eq _ hpc]
    rw [h]
    simp [atIncr]

/-- In every state of every run `tableNum` is 1 plus the number of progress increments
plus the number of workers between the two, in `uint32` arithmetic. -/
theorem tableNum_run (env : Env) (des : List MasterDataEntry) (sched : List Event) :
    (run env des sched).tableNum = wrapUint32 (1 + (run env des sched).progress
      + total atIncr (run env des sched).workers) := by
  refine runFrom_preserves env des (fun t => t.tableNum
    = wrapUint32 (1 + t.progress + total atIncr t.workers)) ?_ sched _ ?_
  swap
  · simp [PoolState.init, total, wrapUint32]
  · intro s ev h
    refine step_preserves env des (fun t => t.tableNum
      = wrapUint32 (1 + t.progress + total atIncr t.workers)) ?_ ?_ ?_ ?_ s ev h
    · intro t c ht; exact ht
    · intro t ht
      show (mainStep env des t).tableNum = wrapUint32 (1 + (mainStep env des t).progress
        + total atIncr (mainStep env des t).workers)
      rw [mainStep_tableNum, mainStep_progress, mainStep_total _ _ _ _ rfl]
      exact ht
    · intro t i ht; exact tableNum_worker env des t i ht
    · intro t ht; exact ht

theorem total_mono (f g : WorkerPc → Nat) (h : ∀ pc, f pc ≤ g pc) (l : List WorkerPc) :
    total f l ≤ total g l := by
  induction l with
  | nil => simp [total_nil]
  | cons a l ih =>
    rw [total_cons, total_cons]
    have := h a
    omega

/-- The value of `tableNum` at a call of `restoreSingleTableData` is between 1 and
`len(dataEntries)`, at most 1 more than the number of calls made before, and exactly so
when no worker is handling a call. -/
theorem tableNum_at_call (env : Env) (des : List MasterDataEntry) (s : PoolState)
    (i : Nat) (e : MasterDataEntry) (hS : Sound env des s)
    (ht : s.tableNum = wrapUint32 (1 + s.progress + total atIncr s.workers))
    (hpl : s.progress + total inFlight s.workers ≤ (attempts s.trace).length)
    (hN : des.length < 2 ^ 32) (hpc : s.workers[i]? = some (.call e)) :
    s.tableNum = 1 + s.progress + total atIncr s.workers ∧ 1 ≤ s.tableNum ∧
      s.tableNum ≤ des.length := by
  have h1 := total_mono atIncr inFlight (fun pc => by cases pc <;> simp [atIncr, inFlight])
    s.workers
  have h2 := total_ge heldLen hpc
  have h3 := hS.held_le
  have h4 := dequeues_length_le env des s hS
  simp only [heldLen] at h2
  have h5 : 1 + s.progress + total atIncr s.workers < 2 ^ 32 := by omega
  have h6 : s.tableNum = 1 + s.progress + total atIncr s.workers := by
    rw [ht, wrapUint32, Nat.mod_eq_of_lt h5]
  refine ⟨h6, by omega, by omega⟩

theorem nums_worker (env : Env) (des : List MasterDataEntry) (s : PoolState) (i : Nat)
    (hS : Sound env des s)
    (ht : s.tableNum = wrapUint32 (1 + s.progress + total atIncr s.workers))
    (hpl : s.progress + total inFlight s.workers ≤ (attempts s.trace).length)
    (hN : des.length < 2 ^ 32)
    (h : ∀ tn ∈ attemptNums s.trace, 1 ≤ tn ∧ tn ≤ des.length) :
    ∀ tn ∈ attemptNums (workerStep env des i s).trace, 1 ≤ tn ∧ tn ≤ des.length := by
  refine And.left (b := True) ?_
  apply workerStep_cases (P := fun t => (∀ tn ∈ attemptNums t.trace,
    1 ≤ tn ∧ tn ≤ des.length) ∧ True)
  · exact ⟨h, trivial⟩
  case callPanic =>
    intro e _ hpc
    have hb := (tableNum_at_call env des s i e hS ht hpl hN hpc).2
    refine ⟨fun tn htn => ?_, trivial⟩
    simp [PoolState.emit, PoolState.setPc, attemptNums] at htn
    rcases htn with htn | rfl
    · exact h tn (by simpa [attemptNums] using htn)
    · exact hb
  case callOk =>
    intro e _ hpc
    have hb := (tableNum_at_call env des s i e hS ht hpl hN hpc).2
    refine ⟨fun tn htn => ?_, trivial⟩
    simp [PoolState.emit, PoolState.setPc, attemptNums] at htn
    rcases htn with htn | rfl
    · exact h tn (by simpa [attemptNums] using htn)
    · exact hb
  case callErr =>
    intro e err _ hpc
    have hb := (tableNum_at_call env des s i e hS ht hpl hN hpc).2
    refine ⟨fun tn htn => ?_, trivial⟩
    simp [PoolState.emit, PoolState.setPc, attemptNums] at htn
    rcases htn with htn | rfl
    · exact h tn (by simpa [attemptNums] using htn)
    · exact hb
  all_goals
    intros
    refine ⟨fun tn htn => ?_, trivial⟩
    simp [PoolState.emit, PoolState.setPc, attemptNums] at htn
    exact h tn (by simpa [attemptNums] using htn)

/-- With fewer than `2^32` entries, every value of `tableNum` handed to
`restoreSingleTableData` is between 1 and `len(dataEntries)`. -/
theorem nums_run (env : Env) (des : List MasterDataEntry) (hN : des.length < 2 ^ 32)
    (sched : List Event) :
    ∀ tn ∈ attemptNums (run env des sched).trace, 1 ≤ tn ∧ tn ≤ des.length := by
  induction sched using List.reverseRecOn with
  | nil => simp [run, runFrom, PoolState.init]
  | append_singleton l ev ih =>
    rw [run_append]
    show ∀ tn ∈ attemptNums (step env des (run env des l) ev).trace, _
    unfold step
    split
    · exact ih
    · cases ev with
      | main =>
        show ∀ tn ∈ attemptNums (mainStep env des (run env des l)).trace, _
        rw [mainStep_attemptNums]
        exact ih
      | worker i =>
        exact nums_worker env des _ i (sound_run env des l) (tableNum_run env des l)
          (progress_le_attempts env des l) hN ih
      | interrupt => exact ih

theorem mainStep_any_exited (env : Env) (des : List MasterDataEntry) (s : PoolState) :
    (mainStep env des s).workers.any exited = s.workers.any exited := by
  apply mainStep_cases (P := fun t => t.workers.any exited = s.workers.any exited) <;>
    intros <;> simp [PoolState.emit, exited]

theorem attemptNums_call (line : String) (c : Nat) (e : MasterDataEntry) (tn tot : Nat)
    (r : Outcome (Option GoError)) :
    attemptNums [.verbose line, .restore c e tn tot r] = [tn] := rfl

theorem attempts_call (line : String) (c : Nat) (e : MasterDataEntry) (tn tot : Nat)
    (r : Outcome (Option GoError)) :
    attempts [.verbose line, .restore c e tn tot r] = [e] := rfl

theorem single_worker_first (env : Env) (des : List MasterDataEntry) (s : PoolState)
    (i : Nat) (hl : s.workers.length ≤ 1)
    (h : s.workers.any exited = true ∨
      s.progress + total inFlight s.workers = (attempts s.trace).length) :
    (workerStep env des i s).workers.any exited = true ∨
      (workerStep env des i s).progress + total inFlight (workerStep env des i s).workers
        = (attempts (workerStep env des i s).trace).length := by
  apply workerStep_cases (P := fun t => t.workers.any exited = true ∨
    t.progress + total inFlight t.workers = (attempts t.trace).length)
  · exact h
  all_goals
    intros
    rename_i hpc
    obtain ⟨hw, rfl⟩ := single_worker hl hpc
    rw [hw] at h
    simp [PoolState.emit, PoolState.setPc, hw, exited, inFlight, total_cons, total_nil,
      attempts] at h ⊢
    try omega

theorem single_worker_nums (env : Env) (des : List MasterDataEntry) (s : PoolState)
    (i : Nat) (hl : s.workers.length ≤ 1) (hS : Sound env des s)
    (ht : s.tableNum = wrapUint32 (1 + s.progress + total atIncr s.workers))
    (hpl : s.progress + total inFlight s.workers ≤ (attempts s.trace).length)
    (hN : des.length < 2 ^ 32)
    (h1 : s.workers.any exited = true ∨
      s.progress + total inFlight s.workers = (attempts s.trace).length)
    (h2 : attemptNums s.trace = List.range' 1 (attempts s.trace).length) :
    attemptNums (workerStep env des i s).trace
      = List.range' 1 (attempts (workerStep env des i s).trace).length := by
  have hcall : ∀ e, s.workers[i]? = some (.call e) →
      s.tableNum = 1 + (attempts s.trace).length := by
    intro e hpc
    have hb := (tableNum_at_call env des s i e hS ht hpl hN hpc).1
    obtain ⟨hw, _⟩ := single_worker hl hpc
    rw [hw] at h1 hb
    simp [exited, inFlight, atIncr, total_cons, total_nil] at h1 hb
    omega
  apply workerStep_cases (P := fun t => attemptNums t.trace
    = List.range' 1 (attempts t.trace).length)
  · exact h2
  case callPanic =>
    intro e _ hpc
    simp only [PoolState.emit, PoolState.setPc, attemptNums_append, attempts_append,
      attemptNums_call, attempts_call, List.length_append, List.length_singleton]
    rw [h2, hcall e hpc, List.range'_1_concat]
  case callOk =>
    intro e _ hpc
    simp only [PoolState.emit, PoolState.setPc, attemptNums_append, attempts_append,
      attemptNums_call, attempts_call, List.length_append, List.length_singleton]
    rw [h2, hcall e hpc, List.range'_1_concat]
  case callErr =>
    intro e err _ hpc
    simp only [PoolState.emit, PoolState.setPc, attemptNums_append, attempts_append,
      attemptNums_call, attempts_call, List.length_append, List.length_singleton]
    rw [h2, hcall e hpc, List.range'_1_concat]
  all_goals
    intros
    first
      | exact h2
      | (simp only [PoolState.emit, PoolState.setPc, attemptNums_append, attempts_append]
         simpa [attemptNums, attempts] using h2)

/-- With a single connection and fewer than `2^32` entries, the calls of
`restoreSingleTableData` are handed the values 1, 2, 3, ... of `tableNum`, in this
order. -/
theorem single_nums_run (env : Env) (des : List MasterDataEntry) (hk : env.NumConns = 1)
    (hN : des.length < 2 ^ 32) (sched : List Event) :
    ((run env des sched).workers.any exited = true ∨
      (run env des sched).progress + total inFlight (run env des sched).workers
        = (attempts (run env des sched).trace).length) ∧
    attemptNums (run env des sched).trace
      = List.range' 1 (attempts (run env des sched).trace).length := by
  induction sched using List.reverseRecOn with
  | nil => simp [run, runFrom, PoolState.init, total_nil]
  | append_singleton l ev ih =>
    have hrun : run env des (l ++ [ev]) = step env des (run env des l) ev := by
      rw [run_append]; rfl
    rw [hrun]
    have hS := sound_run env des l
    have hl : (run env des l).workers.length ≤ 1 := hk ▸ hS.workers_le
    unfold step
    split
    · exact ih
    · cases ev with
      | main =>
        show ((mainStep env des (run env des l)).workers.any exited = true ∨
          (mainStep env des (run env des l)).progress
            + total inFlight (mainStep env des (run env des l)).workers
            = (attempts (mainStep env des (run env des l)).trace).length) ∧
          attemptNums (mainStep env des (run env des l)).trace
            = List.range' 1 (attempts (mainStep env des (run env des l)).trace).length
        rw [mainStep_any_exited, mainStep_progress, mainStep_total _ _ _ _ rfl,
          mainStep_attempts, mainStep_attemptNums]
        exact ih
      | worker i =>
        exact ⟨single_worker_first env des _ i hl ih.1,
          single_worker_nums env des _ i hl hS (tableNum_run env des l)
            (progress_le_attempts env des l) hN ih.1 ih.2⟩
      | interrupt => exact ih

theorem reported_main (env : Env) (des : List MasterDataEntry) (s : PoolState)
    (h : ∀ c e tn tot r, Effect.restore c e tn tot r ∈ s.trace →
      Effect.verbose (restoreVerboseLine env e tn des.length) ∈ s.trace) :
    ∀ c e tn tot r, Effect.restore c e tn tot r ∈ (mainStep env des s).trace →
      Effect.verbose (restoreVerboseLine env e tn des.length) ∈ (mainStep env des s).trace := by
  intro c e tn tot r hm
  obtain ⟨new, h1, _⟩ := mainStep_emits env des s
  rw [h1]
  exact List.mem_append_left _ (h c e tn tot r ((mainStep_restore_mem env des s c e tn tot r).mp hm))

theorem reported_worker (env : Env) (des : List MasterDataEntry) (s : PoolState) (i : Nat)
    (h : ∀ c e tn tot r, Effect.restore c e tn tot r ∈ s.trace →
      Effect.verbose (restoreVerboseLine env e tn des.length) ∈ s.trace) :
    ∀ c e tn tot r, Effect.restore c e tn tot r ∈ (workerStep env des i s).trace →
      Effect.verbose (restoreVerboseLine env e tn des.length)
        ∈ (workerStep env des i s).trace := by
  refine And.left (b := True) ?_
  apply workerStep_cases (P := fun t => (∀ c e tn tot r,
    Effect.restore c e tn tot r ∈ t.trace →
      Effect.verbose (restoreVerboseLine env e tn des.length) ∈ t.trace) ∧ True)
  · exact ⟨h, trivial⟩
  all_goals
    intros
    refine ⟨fun c e tn tot r hm => ?_, trivial⟩
    simp [PoolState.emit, PoolState.setPc] at hm ⊢
    first
      | exact h c e tn tot r hm
      | exact Or.inl (h c e tn tot r hm)
      | (rcases hm with hm | ⟨_, rfl, rfl, _, _⟩
         · exact Or.inl (h c e tn tot r hm)
         · exact Or.inr rfl)

/-- Every call of `restoreSingleTableData` in the record comes with the line it logs,
made of the `tableNum` of the call and of `len(dataEntries)`. -/
theorem reported_run (env : Env) (des : List MasterDataEntry) (sched : List Event) :
    ∀ c e tn tot r, Effect.restore c e tn tot r ∈ (run env des sched).trace →
      Effect.verbose (restoreVerboseLine env e tn des.length) ∈ (run env des sched).trace := by
  refine runFrom_preserves env des (fun t => ∀ c e tn tot r,
    Effect.restore c e tn tot r ∈ t.trace →
      Effect.verbose (restoreVerboseLine env e tn des.length) ∈ t.trace) ?_ sched _ ?_
  swap
  · simp [PoolState.init]
  · intro s ev h
    refine step_preserves env des (fun t => ∀ c e tn tot r,
      Effect.restore c e tn tot r ∈ t.trace →
        Effect.verbose (restoreVerboseLine env e tn des.length) ∈ t.trace) ?_ ?_ ?_ ?_ s ev h
    · intro t c ht; exact ht
    · intro t ht; exact reported_main env des t ht
    · intro t i ht; exact reported_worker env des t i ht
    · intro t ht; exact ht

theorem mem_attemptNums {tn : Nat} {tr : List Effect} :
    tn ∈ attemptNums tr ↔ ∃ c e tot r, Effect.restore c e tn tot r ∈ tr := by
  unfold attemptNums
  rw [List.mem_filterMap]
  constructor
  · rintro ⟨ef, hef, h⟩
    cases ef <;> simp at h
    subst h
    exact ⟨_, _, _, _, hef⟩
  · rintro ⟨c, e, tot, r, h⟩
    exact ⟨_, h, rfl⟩

/-! ### After a panic -/

/-- After a panic nothing happens any more. -/
theorem runFrom_panicked (env : Env) (des : List MasterDataEntry) (ext : List Event) :
    ∀ s : PoolState, s.panicked = true → runFrom env des s ext = s := by
  induction ext with
  | nil => intro s _; rfl
  | cons ev rest ih =>
    intro s hp
    rw [runFrom_cons, step_panicked env des s ev hp]
    exact ih s hp

theorem mem_attempts {e : MasterDataEntry} {tr : List Effect} :
    e ∈ attempts tr ↔ ∃ c tn tot r, Effect.restore c e tn tot r ∈ tr := by
  unfold attempts
  rw [List.mem_filterMap]
  constructor
  · rintro ⟨ef, hef, h⟩
    cases ef <;> simp at h
    subst h
    exact ⟨_, _, _, _, hef⟩
  · rintro ⟨c, tn, tot, r, h⟩
    exact ⟨_, h, rfl⟩

theorem panic_recorded_worker (env : Env) (des : List MasterDataEntry) (s : PoolState)
    (i : Nat)
    (h : ∀ c e tn tot, Effect.restore c e tn tot .panic ∈ s.trace → s.panicked = true) :
    ∀ c e tn tot, Effect.restore c e tn tot .panic ∈ (workerStep env des i s).trace →
      (workerStep env des i s).panicked = true := by
  refine And.left (b := True) ?_
  apply workerStep_cases (P := fun t => (∀ c e tn tot,
    Effect.restore c e tn tot .panic ∈ t.trace → t.panicked = true) ∧ True)
  · exact ⟨h, trivial⟩
  case callPanic =>
    intros
    exact ⟨fun _ _ _ _ _ => rfl, trivial⟩
  all_goals
    intros
    refine ⟨fun c e tn tot hm => ?_, trivial⟩
    simp [PoolState.emit, PoolState.setPc] at hm ⊢
    exact h c e tn tot hm

/-- A call of `restoreSingleTableData` that panicked has ended the process. -/
theorem panic_recorded_run (env : Env) (des : List MasterDataEntry) (sched : List Event) :
    ∀ c e tn tot, Effect.restore c e tn tot .panic ∈ (run env des sched).trace →
      (run env des sched).panicked = true := by
  refine runFrom_preserves env des (fun t => ∀ c e tn tot,
    Effect.restore c e tn tot .panic ∈ t.trace → t.panicked = true) ?_ sched _ ?_
  swap
  · simp [PoolState.init]
  · intro s ev h
    refine step_preserves env des (fun t => ∀ c e tn tot,
      Effect.restore c e tn tot .panic ∈ t.trace → t.panicked = true) ?_ ?_ ?_ ?_ s ev h
    · intro t c ht; exact ht
    · intro t ht c e tn tot hm
      rw [mainStep_panicked]
      exact ht c e tn tot ((mainStep_restore_mem env des t c e tn tot .panic).mp hm)
    · intro t i ht; exact panic_recorded_worker env des t i ht
    · intro t ht; exact ht

/-- An entry whose restore panics is never among the attempts of a run that has
returned. -/
theorem not_attempted_of_returned (env : Env) (des : List MasterDataEntry)
    (sched : List Event) (e : MasterDataEntry)
    (hpanic : ∀ t tn c, restoreSingleTableData env (env.Exec t) e tn des.length c = .panic)
    (hret : (run env des sched).returned) : e ∉ attempts (run env des sched).trace := by
  intro hm
  obtain ⟨c, tn, tot, r, hr⟩ := mem_attempts.mp hm
  obtain ⟨_, _, _, t, ht⟩ := (faithful_run env des sched).restore_ok c e tn tot r hr
  rw [hpanic t tn c] at ht
  subst ht
  have := panic_recorded_run env des sched c e tn tot hr
  rw [hret.2] at this
  cases this

/-! ## The claims -/

/-- C1: `CheckRowsRestored` returns `nil` exactly when `rowsRestored == rowsBackedUp`, and
an error exactly when the two counts differ, for every table name. -/
theorem CheckRowsRestored_nil_iff (rowsRestored rowsBackedUp : Int) (tableName : String) :
    (CheckRowsRestored rowsRestored rowsBackedUp tableName = none ↔
      rowsRestored = rowsBackedUp) ∧
    ((∃ err, CheckRowsRestored rowsRestored rowsBackedUp tableName = some err) ↔
      rowsRestored ≠ rowsBackedUp) := by
  unfold CheckRowsRestored
  by_cases h : rowsRestored = rowsBackedUp <;> simp [h]

/-- C3 fails on the code: on-error-continue on, one connection, three tables, plain
files (no helper agents), no interrupt; `Exec` answers the copy of the second table with a
connection-level error, which is not a `pgx.PgError`, and the other copies with the
recorded 5 rows, so exactly one of the three tables has a failing restore, a copy error.
The call of `restoreSingleTableData` for the second table panics at the type assertion of
`CopyTableIn`: the process ends with the third table still in the channel, never
attempted, and with `numErrors = 0`, not 1; nothing happens any more, so the function
never returns; and under no schedule does the function return with the second table
attempted. -/
theorem continue_run_dies_on_copy_error :
    (brokenEnv true 1 2).OnErrorContinue = true ∧
    noInterrupt (mainRuns 8 ++ workerRuns 0 11) ∧
    (brokenEnv true 1 2).Exec 0
      (copyQuery (brokenEnv true 1 2) "public.t" "(i)"
        (destinationToRead (brokenEnv true 1 2) (sampleEntry 2 5)) false) 0
      = .error (.other "conn is dead") ∧
    (∀ t tn c, restoreSingleTableData (brokenEnv true 1 2) ((brokenEnv true 1 2).Exec t)
      (sampleEntry 1 5) tn 3 c = .ret none) ∧
    (∀ t tn c, restoreSingleTableData (brokenEnv true 1 2) ((brokenEnv true 1 2).Exec t)
      (sampleEntry 2 5) tn 3 c = .panic) ∧
    (∀ t tn c, restoreSingleTableData (brokenEnv true 1 2) ((brokenEnv true 1 2).Exec t)
      (sampleEntry 3 5) tn 3 c = .ret none) ∧
    (run (brokenEnv true 1 2) [sampleEntry 1 5, sampleEntry 2 5, sampleEntry 3 5]
      (mainRuns 8 ++ workerRuns 0 11)).panicked = true ∧
    attempts (run (brokenEnv true 1 2) [sampleEntry 1 5, sampleEntry 2 5, sampleEntry 3 5]
      (mainRuns 8 ++ workerRuns 0 11)).trace = [sampleEntry 1 5, sampleEntry 2 5] ∧
    (run (brokenEnv true 1 2) [sampleEntry 1 5, sampleEntry 2 5, sampleEntry 3 5]
      (mainRuns 8 ++ workerRuns 0 11)).tasks = [sampleEntry 3 5] ∧
    (run (brokenEnv true 1 2) [sampleEntry 1 5, sampleEntry 2 5, sampleEntry 3 5]
      (mainRuns 8 ++ workerRuns 0 11)).numErrors = 0 ∧
    (∀ ext, run (brokenEnv true 1 2) [sampleEntry 1 5, sampleEntry 2 5, sampleEntry 3 5]
        (mainRuns 8 ++ workerRuns 0 11 ++ ext)
      = run (brokenEnv true 1 2) [sampleEntry 1 5, sampleEntry 2 5, sampleEntry 3 5]
        (mainRuns 8 ++ workerRuns 0 11)) ∧
    (∀ ext, ¬ (run (brokenEnv true 1 2) [sampleEntry 1 5, sampleEntry 2 5, sampleEntry 3 5]
      (mainRuns 8 ++ workerRuns 0 11 ++ ext)).returned) ∧
    (∀ sched,
      (run (brokenEnv true 1 2) [sampleEntry 1 5, sampleEntry 2 5, sampleEntry 3 5]
        sched).returned →
      sampleEntry 2 5 ∉ attempts (run (brokenEnv true 1 2)
        [sampleEntry 1 5, sampleEntry 2 5, sampleEntry 3 5] sched).trace) := by
  have hp : (run (brokenEnv true 1 2) [sampleEntry 1 5, sampleEntry 2 5, sampleEntry 3 5]
      (mainRuns 8 ++ workerRuns 0 11)).panicked = true := by decide
  have hdead : ∀ ext, run (brokenEnv true 1 2)
      [sampleEntry 1 5, sampleEntry 2 5, sampleEntry 3 5]
        (mainRuns 8 ++ workerRuns 0 11 ++ ext)
      = run (brokenEnv true 1 2) [sampleEntry 1 5, sampleEntry 2 5, sampleEntry 3 5]
        (mainRuns 8 ++ workerRuns 0 11) := by
    intro ext
    rw [run_append]
    exact runFrom_panicked _ _ ext _ hp
  refine ⟨rfl, by decide, rfl, fun _ _ _ => rfl, fun _ _ _ => rfl, fun _ _ _ => rfl,
    hp, by decide, by decide, by decide, hdead, ?_, ?_⟩
  · intro ext hret
    rw [hdead ext] at hret
    have := hret.2
    rw [hp] at this
    cases this
  · intro sched hret
    exact not_attempted_of_returned _ _ sched _ (fun _ _ _ => rfl) hret

/-- What holds when every restore returns: with on-error-continue on, at least one
connection, no interrupt and no helper-agent error, when the restore of an entry returns
an error exactly if the entry is `bad`, and `nil` otherwise, and fewer than `2^31` entries
are bad: every run can be continued until `restoreDataFromTimestamp` returns, and when it
has returned every entry of `dataEntries` has been handed to `restoreSingleTableData`
(the calls are a rearrangement of `dataEntries`) and `numErrors` is the number of bad
entries. -/
theorem continue_attempts_all_and_counts_errors (env : Env) (des : List MasterDataEntry)
    (bad : MasterDataEntry → Bool) (sched : List Event)
    (hcont : env.OnErrorContinue = true) (hk : 1 ≤ env.NumConns)
    (hagent : env.SingleDataFile = true → ∀ t, env.CheckAgentErrorsOnSegments t = none)
    (hres : ∀ t tn conn, ∀ e ∈ des, conn < env.NumConns →
      (bad e = false ∧
        restoreSingleTableData env (env.Exec t) e tn des.length conn = .ret none) ∨
      (bad e = true ∧
        ∃ err, restoreSingleTableData env (env.Exec t) e tn des.length conn
          = .ret (some err)))
    (hM : des.countP bad < 2 ^ 31) (hint : noInterrupt sched) :
    (∃ ext, noInterrupt ext ∧ (run env des (sched ++ ext)).returned) ∧
    ((run env des sched).returned →
      (attempts (run env des sched).trace).Perm des ∧
      (run env des sched).numErrors = des.countP bad) := by
  have hC : Calm env des := by
    refine ⟨hagent, ?_⟩
    intro t tn conn e he hc
    rcases hres t tn conn e he hc with ⟨_, h⟩ | ⟨_, h⟩
    · exact Or.inl h
    · exact Or.inr ⟨hcont, h⟩
  refine ⟨calm_finish env des hC sched hint, ?_⟩
  intro hret
  obtain ⟨hperm, _, hnum⟩ := calm_returned env des hC hk sched hint hret
  refine ⟨hperm, ?_⟩
  have hF := faithful_run env des sched
  have hfail : failures (run env des sched).trace
      = (attempts (run env des sched).trace).countP bad := by
    apply failures_eq_countP
    intro c e tn tot r hm
    obtain ⟨he, hc, _, t, hr⟩ := hF.restore_ok c e tn tot r hm
    have hc' := Nat.lt_of_lt_of_le hc (sound_run env des sched).workers_le
    rcases hres t tn c e he hc' with ⟨hb, h⟩ | ⟨hb, err, h⟩
    · exact Or.inl ⟨hb, by rw [← hr, h]⟩
    · exact Or.inr ⟨hb, err, by rw [← hr, h]⟩
  rw [hnum, hfail, hperm.countP_eq, wrapInt32_small _ hM]

theorem continue_attempts_all_and_counts_errors_witness :
    (run (sampleEnv false true 2 none) [sampleEntry 1 5, sampleEntry 2 7, sampleEntry 3 5]
      (mainRuns 5 ++ workerRuns 0 4 ++ mainRuns 4 ++ workerRuns 1 4 ++ workerRuns 0 3 ++
        workerRuns 1 4 ++ workerRuns 0 7 ++ workerRuns 1 1 ++ mainRuns 2)).returned ∧
    (attempts (run (sampleEnv false true 2 none)
      [sampleEntry 1 5, sampleEntry 2 7, sampleEntry 3 5]
      (mainRuns 5 ++ workerRuns 0 4 ++ mainRuns 4 ++ workerRuns 1 4 ++ workerRuns 0 3 ++
        workerRuns 1 4 ++ workerRuns 0 7 ++ workerRuns 1 1 ++ mainRuns 2)).trace).Perm
      [sampleEntry 1 5, sampleEntry 2 7, sampleEntry 3 5] ∧
    (run (sampleEnv false true 2 none) [sampleEntry 1 5, sampleEntry 2 7, sampleEntry 3 5]
      (mainRuns 5 ++ workerRuns 0 4 ++ mainRuns 4 ++ workerRuns 1 4 ++ workerRuns 0 3 ++
        workerRuns 1 4 ++ workerRuns 0 7 ++ workerRuns 1 1 ++ mainRuns 2)).numErrors = 1 :=
  ⟨by decide,
    (continue_attempts_all_and_counts_errors (sampleEnv false true 2 none)
      [sampleEntry 1 5, sampleEntry 2 7, sampleEntry 3 5]
      (fun e => decide (e.RowsCopied ≠ 5)) _ rfl (by decide) (fun h => by cases h)
      (by
        intro t tn conn e he _
        simp only [List.mem_cons, List.mem_singleton, List.not_mem_nil, or_false] at he
        rcases he with rfl | rfl | rfl
        · exact Or.inl ⟨rfl, rfl⟩
        · exact Or.inr ⟨rfl, _, rfl⟩
        · exact Or.inl ⟨rfl, rfl⟩)
      (by decide) (by decide)).2 (by decide)⟩

/-- C4, as the code has it: with on-error-continue off, in every state of every run no
worker has more than one restore that did not return `nil` (every worker stops at its own
first failure, the other workers go on), so the number of tasks attempted is at most the
number restored successfully plus the number of connections, and at most
`len(dataEntries)`; with a single connection it is at most the number restored
successfully plus one. -/
theorem stop_bounds_attempts (env : Env) (des : List MasterDataEntry) (sched : List Event)
    (hstop : env.OnErrorContinue = false) :
    (failedConns (run env des sched).trace).Nodup ∧
    (attempts (run env des sched).trace).length
      ≤ successes (run env des sched).trace + env.NumConns ∧
    (attempts (run env des sched).trace).length ≤ des.length ∧
    (env.NumConns = 1 → (attempts (run env des sched).trace).length
      ≤ successes (run env des sched).trace + 1) := by
  have hS := sound_run env des sched
  have hF := faithful_run env des sched
  have h1 := attempts_length (run env des sched).trace
  have h2 := failedConns_length_le env des _ hstop hS hF
  have h3 := dequeues_length_le env des _ hS
  have h4 := hS.held_le
  refine ⟨hF.failed_nodup hstop, by omega, by omega, fun hk => by omega⟩

theorem stop_bounds_attempts_witness :
    (run (sampleEnv false false 1 none) [sampleEntry 1 5, sampleEntry 2 7, sampleEntry 3 5]
      (mainRuns 9 ++ workerRuns 0 12 ++ mainRuns 2)).returned ∧
    (attempts (run (sampleEnv false false 1 none)
      [sampleEntry 1 5, sampleEntry 2 7, sampleEntry 3 5]
      (mainRuns 9 ++ workerRuns 0 12 ++ mainRuns 2)).trace).length
      ≤ successes (run (sampleEnv false false 1 none)
        [sampleEntry 1 5, sampleEntry 2 7, sampleEntry 3 5]
        (mainRuns 9 ++ workerRuns 0 12 ++ mainRuns 2)).trace + 1 :=
  ⟨by decide, (stop_bounds_attempts (sampleEnv false false 1 none)
    [sampleEntry 1 5, sampleEntry 2 7, sampleEntry 3 5]
    (mainRuns 9 ++ workerRuns 0 12 ++ mainRuns 2) rfl).2.2.2 rfl⟩

/-- C4 fails as stated: on-error-continue off, two connections, two tables whose restore
fails.  When the first restore has returned its error the second table is still in the
queue; worker 1 then receives and attempts it, and the run ends with two tasks attempted
and none restored successfully. -/
theorem stop_does_not_stop_other_workers :
    (run (sampleEnv false false 2 none) [sampleEntry 1 7, sampleEntry 2 7]
      (mainRuns 6 ++ workerRuns 0 4)).tasks = [sampleEntry 2 7] ∧
    failures (run (sampleEnv false false 2 none) [sampleEntry 1 7, sampleEntry 2 7]
      (mainRuns 6 ++ workerRuns 0 4)).trace = 1 ∧
    (run (sampleEnv false false 2 none) [sampleEntry 1 7, sampleEntry 2 7]
      (mainRuns 6 ++ workerRuns 0 4 ++ (workerRuns 0 1 ++ workerRuns 1 5 ++ mainRuns 4))).returned ∧
    attemptsBy 1 (run (sampleEnv false false 2 none) [sampleEntry 1 7, sampleEntry 2 7]
      (mainRuns 6 ++ workerRuns 0 4 ++ (workerRuns 0 1 ++ workerRuns 1 5 ++ mainRuns 4))).trace
      = [sampleEntry 2 7] ∧
    ¬ ((attempts (run (sampleEnv false false 2 none) [sampleEntry 1 7, sampleEntry 2 7]
      (mainRuns 6 ++ workerRuns 0 4 ++ (workerRuns 0 1 ++ workerRuns 1 5 ++ mainRuns 4))).trace).length
      ≤ successes (run (sampleEnv false false 2 none) [sampleEntry 1 7, sampleEntry 2 7]
        (mainRuns 6 ++ workerRuns 0 4 ++ (workerRuns 0 1 ++ workerRuns 1 5 ++ mainRuns 4))).trace
        + 1) := by
  decide

/-- C5, as the code has it: with on-error-continue off, the next action of a worker whose
table restore has returned an error adds one to `numErrors`, sets `NotPrint` and returns;
it leaves `wasTerminated` as it is (false when no interrupt has occurred), and the worker
never again receives an entry or calls `restoreSingleTableData`. -/
theorem failed_worker_returns_without_cancelling (env : Env) (des : List MasterDataEntry)
    (sched : List Event) (i : Nat) (err : GoError)
    (hstop : env.OnErrorContinue = false)
    (hpc : (run env des sched).workers[i]? = some (.failed err))
    (hnp : (run env des sched).panicked = false) :
    (step env des (run env des sched) (.worker i)).workers[i]? = some .done ∧
    (step env des (run env des sched) (.worker i)).numErrors
      = wrapInt32 ((run env des sched).numErrors + 1) ∧
    (step env des (run env des sched) (.worker i)).notPrint = true ∧
    (step env des (run env des sched) (.worker i)).wasTerminated
      = (run env des sched).wasTerminated ∧
    (noInterrupt sched →
      (step env des (run env des sched) (.worker i)).wasTerminated = false) ∧
    (∀ ext,
      attemptsBy i (runFrom env des (run env des sched) ext).trace
        = attemptsBy i (run env des sched).trace ∧
      dequeuesBy i (runFrom env des (run env des sched) ext).trace
        = dequeuesBy i (run env des sched).trace) := by
  have hlt : i < (run env des sched).workers.length := (List.getElem?_eq_some.mp hpc).1
  have hterm : noInterrupt sched → (run env des sched).wasTerminated = false := by
    intro hint
    have key : ∀ (l : List Event) (s : PoolState), noInterrupt l → s.wasTerminated = false →
        (runFrom env des s l).wasTerminated = false := by
      intro l
      induction l with
      | nil => intro s _ h; exact h
      | cons ev rest ih =>
        intro s hl h
        apply ih _ (fun hm => hl (List.mem_cons_of_mem _ hm))
        cases hp : s.panicked with
        | true => rw [step_panicked env des s ev hp]; exact h
        | false =>
          cases ev with
          | main => rw [step_main env des s hp]; exact (mainStep_wasTerminated env des s).trans h
          | worker j =>
            rw [step_worker env des s j hp]
            exact (workerStep_wasTerminated env des j s).trans h
          | interrupt => exact absurd (List.mem_cons_self _ _) hl
    exact key sched _ hint rfl
  rw [step_worker env des _ i hnp]
  refine ⟨?_, ?_, ?_, ?_, ?_, ?_⟩
  · simp [workerStep, hpc, hstop, PoolState.setPc, PoolState.emit, List.getElem?_set, hlt]
  · simp [workerStep, hpc, hstop, PoolState.setPc, PoolState.emit]
  · simp [workerStep, hpc, hstop, PoolState.setPc, PoolState.emit]
  · exact workerStep_wasTerminated env des i _
  · intro hint
    exact (workerStep_wasTerminated env des i _).trans (hterm hint)
  · intro ext
    exact (winding_runFrom env des i ext _ _ hpc (by simp [winding, hstop])).2

theorem failed_worker_returns_without_cancelling_witness :
    (run (sampleEnv false false 2 none) [sampleEntry 1 7, sampleEntry 2 5, sampleEntry 3 5]
      (mainRuns 9 ++ workerRuns 0 4)).workers[0]? = some (.failed (.new
        "Expected to restore 7 rows to table public.t, but restored 5 instead")) ∧
    (step (sampleEnv false false 2 none) [sampleEntry 1 7, sampleEntry 2 5, sampleEntry 3 5]
      (run (sampleEnv false false 2 none) [sampleEntry 1 7, sampleEntry 2 5, sampleEntry 3 5]
        (mainRuns 9 ++ workerRuns 0 4)) (.worker 0)).wasTerminated = false :=
  ⟨by decide, (failed_worker_returns_without_cancelling (sampleEnv false false 2 none)
    [sampleEntry 1 7, sampleEntry 2 5, sampleEntry 3 5] (mainRuns 9 ++ workerRuns 0 4) 0
    (.new "Expected to restore 7 rows to table public.t, but restored 5 instead")
    rfl (by decide) (by decide)).2.2.2.2.1 (by decide)⟩

/-- C5 fails as stated: on-error-continue off, two connections, three tables of which
the first fails.  After worker 0 has returned because of the error `wasTerminated` is
still false, and worker 1 goes on to restore the two other tables. -/
theorem failed_worker_does_not_set_wasTerminated :
    (run (sampleEnv false false 2 none) [sampleEntry 1 7, sampleEntry 2 5, sampleEntry 3 5]
      (mainRuns 9 ++ workerRuns 0 5)).workers[0]? = some .done ∧
    (run (sampleEnv false false 2 none) [sampleEntry 1 7, sampleEntry 2 5, sampleEntry 3 5]
      (mainRuns 9 ++ workerRuns 0 5)).numErrors = 1 ∧
    (run (sampleEnv false false 2 none) [sampleEntry 1 7, sampleEntry 2 5, sampleEntry 3 5]
      (mainRuns 9 ++ workerRuns 0 5)).wasTerminated = false ∧
    (run (sampleEnv false false 2 none) [sampleEntry 1 7, sampleEntry 2 5, sampleEntry 3 5]
      (mainRuns 9 ++ workerRuns 0 5 ++ (workerRuns 1 14 ++ mainRuns 2))).returned ∧
    attemptsBy 1 (run (sampleEnv false false 2 none)
      [sampleEntry 1 7, sampleEntry 2 5, sampleEntry 3 5]
      (mainRuns 9 ++ workerRuns 0 5 ++ (workerRuns 1 14 ++ mainRuns 2))).trace
      = [sampleEntry 2 5, sampleEntry 3 5] ∧
    (run (sampleEnv false false 2 none) [sampleEntry 1 7, sampleEntry 2 5, sampleEntry 3 5]
      (mainRuns 9 ++ workerRuns 0 5 ++ (workerRuns 1 14 ++ mainRuns 2))).wasTerminated
      = false := by
  decide

/-- C6 fails on the code: on-error-continue on (so no cancellation by the error policy),
two connections, three tables, plain files (no helper agents), no interrupt; `Exec`
answers the copy of the first table with a connection-level error, which is not a
`pgx.PgError`.  The first call of `restoreSingleTableData` panics at the type assertion
of `CopyTableIn`: the process ends after one call, with the second and the third table
still in the channel and never handed to `restoreSingleTableData`; nothing happens any
more, so the function never returns; and under no schedule does the function return with
the first table attempted. -/
theorem panic_leaves_entries_unattempted :
    (brokenEnv true 2 1).OnErrorContinue = true ∧
    noInterrupt (mainRuns 9 ++ workerRuns 0 4) ∧
    (brokenEnv true 2 1).Exec 0
      (copyQuery (brokenEnv true 2 1) "public.t" "(i)"
        (destinationToRead (brokenEnv true 2 1) (sampleEntry 1 5)) false) 0
      = .error (.other "conn is dead") ∧
    (run (brokenEnv true 2 1) [sampleEntry 1 5, sampleEntry 2 5, sampleEntry 3 5]
      (mainRuns 9 ++ workerRuns 0 4)).panicked = true ∧
    attempts (run (brokenEnv true 2 1) [sampleEntry 1 5, sampleEntry 2 5, sampleEntry 3 5]
      (mainRuns 9 ++ workerRuns 0 4)).trace = [sampleEntry 1 5] ∧
    (run (brokenEnv true 2 1) [sampleEntry 1 5, sampleEntry 2 5, sampleEntry 3 5]
      (mainRuns 9 ++ workerRuns 0 4)).tasks = [sampleEntry 2 5, sampleEntry 3 5] ∧
    (∀ ext, run (brokenEnv true 2 1) [sampleEntry 1 5, sampleEntry 2 5, sampleEntry 3 5]
        (mainRuns 9 ++ workerRuns 0 4 ++ ext)
      = run (brokenEnv true 2 1) [sampleEntry 1 5, sampleEntry 2 5, sampleEntry 3 5]
        (mainRuns 9 ++ workerRuns 0 4)) ∧
    (∀ ext, ¬ (run (brokenEnv true 2 1) [sampleEntry 1 5, sampleEntry 2 5, sampleEntry 3 5]
      (mainRuns 9 ++ workerRuns 0 4 ++ ext)).returned) ∧
    (∀ sched,
      (run (brokenEnv true 2 1) [sampleEntry 1 5, sampleEntry 2 5, sampleEntry 3 5]
        sched).returned →
      sampleEntry 1 5 ∉ attempts (run (brokenEnv true 2 1)
        [sampleEntry 1 5, sampleEntry 2 5, sampleEntry 3 5] sched).trace) := by
  have hp : (run (brokenEnv true 2 1) [sampleEntry 1 5, sampleEntry 2 5, sampleEntry 3 5]
      (mainRuns 9 ++ workerRuns 0 4)).panicked = true := by decide
  have hdead : ∀ ext, run (brokenEnv true 2 1)
      [sampleEntry 1 5, sampleEntry 2 5, sampleEntry 3 5]
        (mainRuns 9 ++ workerRuns 0 4 ++ ext)
      = run (brokenEnv true 2 1) [sampleEntry 1 5, sampleEntry 2 5, sampleEntry 3 5]
        (mainRuns 9 ++ workerRuns 0 4) := by
    intro ext
    rw [run_append]
    exact runFrom_panicked _ _ ext _ hp
  refine ⟨rfl, by decide, rfl, hp, by decide, by decide, hdead, ?_, ?_⟩
  · intro ext hret
    rw [hdead ext] at hret
    have := hret.2
    rw [hp] at this
    cases this
  · intro sched hret
    exact not_attempted_of_returned _ _ sched _ (fun _ _ _ => rfl) hret

/-- What holds when every restore returns: with at least one connection, no interrupt,
no helper-agent error, and every restore returning `nil` or, with on-error-continue on,
an error: every run can be continued until `restoreDataFromTimestamp` returns, and when
it has returned the calls of `restoreSingleTableData` are a rearrangement of
`dataEntries`: `len(dataEntries)` calls, every entry as often as it occurs in
`dataEntries`, whatever the schedule. -/
theorem every_entry_attempted_exactly_once (env : Env) (des : List MasterDataEntry)
    (sched : List Event) (hk : 1 ≤ env.NumConns)
    (hagent : env.SingleDataFile = true → ∀ t, env.CheckAgentErrorsOnSegments t = none)
    (hres : ∀ t tn conn, ∀ e ∈ des, conn < env.NumConns →
      restoreSingleTableData env (env.Exec t) e tn des.length conn = .ret none ∨
      (env.OnErrorContinue = true ∧
        ∃ err, restoreSingleTableData env (env.Exec t) e tn des.length conn
          = .ret (some err)))
    (hint : noInterrupt sched) :
    (∃ ext, noInterrupt ext ∧ (run env des (sched ++ ext)).returned) ∧
    ((run env des sched).returned →
      (attempts (run env des sched).trace).Perm des ∧
      (attempts (run env des sched).trace).length = des.length ∧
      ∀ e, (attempts (run env des sched).trace).count e = des.count e) := by
  have hC : Calm env des := ⟨hagent, hres⟩
  refine ⟨calm_finish env des hC sched hint, ?_⟩
  intro hret
  obtain ⟨hperm, _, _⟩ := calm_returned env des hC hk sched hint hret
  exact ⟨hperm, hperm.length_eq, fun e => hperm.count_eq e⟩

theorem every_entry_attempted_exactly_once_witness :
    (run (sampleEnv true true 3 none) [sampleEntry 3 5, sampleEntry 1 7, sampleEntry 3 5]
      (mainRuns 12 ++ roundRobin 3 9 ++ mainRuns 2)).returned ∧
    (attempts (run (sampleEnv true true 3 none)
      [sampleEntry 3 5, sampleEntry 1 7, sampleEntry 3 5]
      (mainRuns 12 ++ roundRobin 3 9 ++ mainRuns 2)).trace).Perm
      [sampleEntry 3 5, sampleEntry 1 7, sampleEntry 3 5] :=
  ⟨by decide,
    ((every_entry_attempted_exactly_once (sampleEnv true true 3 none)
      [sampleEntry 3 5, sampleEntry 1 7, sampleEntry 3 5]
      (mainRuns 12 ++ roundRobin 3 9 ++ mainRuns 2) (by decide) (fun _ _ => rfl)
      (by
        intro t tn conn e he _
        simp only [List.mem_cons, List.mem_singleton, List.not_mem_nil, or_false] at he
        rcases he with rfl | rfl | rfl
        · exact Or.inl rfl
        · exact Or.inr ⟨rfl, _, rfl⟩
        · exact Or.inl rfl)
      (by decide)).2 (by decide)).1⟩

/-- C7, as the code has it: with at least one connection, no interrupt, no helper-agent
error, and every copy succeeding with the recorded row count: every run can be continued
until `restoreDataFromTimestamp` returns, and when it has returned `numErrors` is 0, the
progress bar has been advanced `len(dataEntries)` times and no error summary is logged. -/
theorem all_match_no_errors_full_progress (env : Env) (des : List MasterDataEntry)
    (sched : List Event) (hk : 1 ≤ env.NumConns)
    (hagent : env.SingleDataFile = true → ∀ t, env.CheckAgentErrorsOnSegments t = none)
    (hcopy : ∀ t conn, ∀ e ∈ des, conn < env.NumConns →
      CopyTableIn env (env.Exec t) (env.MakeFQN e.Schema e.Name) e.AttributeString
        (destinationToRead env e) env.SingleDataFile conn = .ret (e.RowsCopied, none))
    (hint : noInterrupt sched) :
    (∃ ext, noInterrupt ext ∧ (run env des (sched ++ ext)).returned) ∧
    ((run env des sched).returned →
      (run env des sched).numErrors = 0 ∧
      (run env des sched).progress = des.length ∧
      summaries (run env des sched).trace = []) := by
  have hres : ∀ t tn conn, ∀ e ∈ des, conn < env.NumConns →
      restoreSingleTableData env (env.Exec t) e tn des.length conn = .ret none :=
    fun t tn conn e he hc => restore_of_copy env _ e tn des.length conn (hcopy t conn e he hc)
  have hC : Calm env des := ⟨hagent, fun t tn conn e he hc => Or.inl (hres t tn conn e he hc)⟩
  refine ⟨calm_finish env des hC sched hint, ?_⟩
  intro hret
  obtain ⟨_, hprog, _⟩ := calm_returned env des hC hk sched hint hret
  obtain ⟨_, hnum, hsum⟩ := no_failure_no_error env des sched hres
  exact ⟨hnum, hprog, hsum⟩

set_option maxRecDepth 100000 in
theorem all_match_no_errors_full_progress_witness :
    (run (sampleEnv false false 4 none) tenTables
      (mainRuns 18 ++ roundRobin 4 20 ++ mainRuns 2)).returned ∧
    (run (sampleEnv false false 4 none) tenTables
      (mainRuns 18 ++ roundRobin 4 20 ++ mainRuns 2)).numErrors = 0 ∧
    (run (sampleEnv false false 4 none) tenTables
      (mainRuns 18 ++ roundRobin 4 20 ++ mainRuns 2)).progress = 10 ∧
    summaries (run (sampleEnv false false 4 none) tenTables
      (mainRuns 18 ++ roundRobin 4 20 ++ mainRuns 2)).trace = [] :=
  ⟨by decide,
    (all_match_no_errors_full_progress (sampleEnv false false 4 none) tenTables
      (mainRuns 18 ++ roundRobin 4 20 ++ mainRuns 2) (by decide) (fun h => by cases h)
      (by
        intro t conn e he _
        obtain ⟨n, _, rfl⟩ := List.mem_map.mp he
        rfl)
      (by decide)).2 (by decide)⟩

/-- C7 fails as stated: single-data-file mode, one connection, two tables whose copies
both would succeed with the recorded row count, no interrupt, and helper agents that
report an error.  The first copy succeeds, the worker then returns on the agent error:
the run ends with `numErrors = 0` but the progress bar was never advanced and the second
table was never attempted. -/
theorem agent_error_stops_progress :
    (∀ t conn, ∀ e ∈ [sampleEntry 1 5, sampleEntry 2 5],
      CopyTableIn (sampleEnv true false 1 (some (.other "agent")))
        ((sampleEnv true false 1 (some (.other "agent"))).Exec t)
        ((sampleEnv true false 1 (some (.other "agent"))).MakeFQN e.Schema e.Name)
        e.AttributeString (destinationToRead (sampleEnv true false 1 (some (.other "agent"))) e)
        true conn = .ret (e.RowsCopied, none)) ∧
    noInterrupt (mainRuns 8 ++ workerRuns 0 5 ++ mainRuns 2) ∧
    (run (sampleEnv true false 1 (some (.other "agent"))) [sampleEntry 1 5, sampleEntry 2 5]
      (mainRuns 8 ++ workerRuns 0 5 ++ mainRuns 2)).returned ∧
    (run (sampleEnv true false 1 (some (.other "agent"))) [sampleEntry 1 5, sampleEntry 2 5]
      (mainRuns 8 ++ workerRuns 0 5 ++ mainRuns 2)).numErrors = 0 ∧
    (run (sampleEnv true false 1 (some (.other "agent"))) [sampleEntry 1 5, sampleEntry 2 5]
      (mainRuns 8 ++ workerRuns 0 5 ++ mainRuns 2)).progress = 0 ∧
    ¬ ((run (sampleEnv true false 1 (some (.other "agent")))
      [sampleEntry 1 5, sampleEntry 2 5]
      (mainRuns 8 ++ workerRuns 0 5 ++ mainRuns 2)).progress = 2) := by
  refine ⟨?_, by decide, by decide, by decide, by decide, by decide⟩
  intro t conn e he
  simp only [List.mem_cons, List.mem_singleton, List.not_mem_nil, or_false] at he
  rcases he with rfl | rfl <;> rfl

/-- C8: a worker calls `restoreSingleTableData` for an entry only after it has checked
`wasTerminated` for that entry and found it false; and when the flag is true while worker
`i` is at that check, its next action is to return, without a copy and without touching
the queue, and whatever happens afterwards it receives no further entry and calls
`restoreSingleTableData` neither for that entry nor for a later one. -/
theorem termination_polled_at_every_task (env : Env) (des : List MasterDataEntry)
    (s : PoolState) (i : Nat) (e : MasterDataEntry)
    (hpc : s.workers[i]? = some (.check e)) (hterm : s.wasTerminated = true)
    (hnp : s.panicked = false) :
    (∀ (t : PoolState) (ev : Event) (e' : MasterDataEntry),
      (step env des t ev).workers[i]? = some (.call e') →
      t.workers[i]? = some (.call e') ∨
        (t.workers[i]? = some (.check e') ∧ t.wasTerminated = false ∧ ev = .worker i)) ∧
    (step env des s (.worker i)).workers[i]? = some .done ∧
    (step env des s (.worker i)).trace = s.trace ∧
    (step env des s (.worker i)).tasks = s.tasks ∧
    (∀ ext,
      attemptsBy i (runFrom env des s ext).trace = attemptsBy i s.trace ∧
      dequeuesBy i (runFrom env des s ext).trace = dequeuesBy i s.trace ∧
      ((runFrom env des s ext).workers[i]? = some (.check e) ∨
        (runFrom env des s ext).workers[i]? = some .done)) := by
  have hlt : i < s.workers.length := (List.getElem?_eq_some.mp hpc).1
  refine ⟨fun t ev e' h => call_only_after_check env des t i ev e' h, ?_, ?_, ?_, ?_⟩
  · rw [step_worker env des s i hnp]
    simp [workerStep, hpc, hterm, PoolState.setPc, List.getElem?_set, hlt]
  · rw [step_worker env des s i hnp]
    simp [workerStep, hpc, hterm, PoolState.setPc]
  · rw [step_worker env des s i hnp]
    simp [workerStep, hpc, hterm, PoolState.setPc]
  · intro ext
    have key : ∀ (l : List Event) (t : PoolState),
        (t.workers[i]? = some (.check e) ∨ t.workers[i]? = some .done) →
        t.wasTerminated = true →
        ((runFrom env des t l).workers[i]? = some (.check e) ∨
          (runFrom env des t l).workers[i]? = some .done) := by
      intro l
      induction l with
      | nil => intro t h _; exact h
      | cons ev rest ih =>
        intro t h ht
        have hpc' : ∃ pc, t.workers[i]? = some pc ∧ winding env t pc = true := by
          rcases h with h | h
          · exact ⟨_, h, by simp [winding, ht]⟩
          · exact ⟨_, h, rfl⟩
        obtain ⟨pc, hpc', hw⟩ := hpc'
        have hlt' : i < t.workers.length := (List.getElem?_eq_some.mp hpc').1
        apply ih
        · cases hp : t.panicked with
          | true => rw [step_panicked env des t ev hp]; exact h
          | false =>
            cases ev with
            | main =>
              rw [step_main env des t hp]
              show (mainStep env des t).workers[i]? = _ ∨ (mainStep env des t).workers[i]? = _
              rw [mainStep_getElem? env des t i hlt']
              exact h
            | interrupt => rw [step_interrupt env des t hp]; exact h
            | worker j =>
              rw [step_worker env des t j hp]
              show (workerStep env des j t).workers[i]? = _ ∨
                (workerStep env des j t).workers[i]? = _
              by_cases hji : j = i
              · subst hji
                rcases h with h | h
                · right
                  simp [workerStep, h, ht, PoolState.setPc, List.getElem?_set, hlt']
                · right
                  simp [workerStep, h]
              · rw [workerStep_getElem?_ne env des t i j hji]
                exact h
        · cases hp : t.panicked with
          | true => rw [step_panicked env des t ev hp]; exact ht
          | false =>
            cases ev with
            | main =>
              rw [step_main env des t hp]
              exact (mainStep_wasTerminated env des t).trans ht
            | interrupt => rw [step_interrupt env des t hp]
            | worker j =>
              rw [step_worker env des t j hp]
              exact (workerStep_wasTerminated env des j t).trans ht
    obtain ⟨_, ha, hd⟩ := winding_runFrom env des i ext s _ hpc (by simp [winding, hterm])
    exact ⟨ha, hd, key ext s (Or.inl hpc) hterm⟩

theorem termination_polled_at_every_task_witness :
    (run (sampleEnv false false 2 none) [sampleEntry 1 5, sampleEntry 2 5]
      (mainRuns 6 ++ workerRuns 0 2 ++ [.interrupt])).workers[0]?
      = some (.check (sampleEntry 1 5)) ∧
    (run (sampleEnv false false 2 none) [sampleEntry 1 5, sampleEntry 2 5]
      (mainRuns 6 ++ workerRuns 0 2 ++ [.interrupt])).wasTerminated = true ∧
    attemptsBy 0 (runFrom (sampleEnv false false 2 none) [sampleEntry 1 5, sampleEntry 2 5]
      (run (sampleEnv false false 2 none) [sampleEntry 1 5, sampleEntry 2 5]
        (mainRuns 6 ++ workerRuns 0 2 ++ [.interrupt]))
      (roundRobin 2 8 ++ mainRuns 4)).trace
      = attemptsBy 0 (run (sampleEnv false false 2 none) [sampleEntry 1 5, sampleEntry 2 5]
        (mainRuns 6 ++ workerRuns 0 2 ++ [.interrupt])).trace :=
by
  have h1 : (run (sampleEnv false false 2 none) [sampleEntry 1 5, sampleEntry 2 5]
      (mainRuns 6 ++ workerRuns 0 2 ++ [.interrupt])).workers[0]?
      = some (.check (sampleEntry 1 5)) := by decide
  have h2 : (run (sampleEnv false false 2 none) [sampleEntry 1 5, sampleEntry 2 5]
      (mainRuns 6 ++ workerRuns 0 2 ++ [.interrupt])).wasTerminated = true := by decide
  have h3 : (run (sampleEnv false false 2 none) [sampleEntry 1 5, sampleEntry 2 5]
      (mainRuns 6 ++ workerRuns 0 2 ++ [.interrupt])).panicked = false := by decide
  exact ⟨h1, h2, ((termination_polled_at_every_task _ _ _ 0 _ h1 h2 h3).2.2.2.2
    (roundRobin 2 8 ++ mainRuns 4)).1⟩

/-- C9, as the code has it: in single-data-file mode, whatever the value of
on-error-continue, when `CheckAgentErrorsOnSegments` reports an error to a worker after a
task, that worker's action is to return, and whatever happens afterwards it receives no
further entry and makes no further call of `restoreSingleTableData`; with a single
connection no task at all is attempted after that point. -/
theorem agent_error_ends_observing_worker (env : Env) (des : List MasterDataEntry)
    (sched : List Event) (i : Nat) (agentErr : GoError)
    (hsdf : env.SingleDataFile = true)
    (hpc : (run env des sched).workers[i]? = some .agent)
    (herr : env.CheckAgentErrorsOnSegments (run env des sched).clock = some agentErr)
    (hnp : (run env des sched).panicked = false) :
    (run env des (sched ++ [.worker i])).workers[i]? = some .done ∧
    (∀ ext,
      attemptsBy i (run env des (sched ++ [.worker i] ++ ext)).trace
        = attemptsBy i (run env des sched).trace ∧
      dequeuesBy i (run env des (sched ++ [.worker i] ++ ext)).trace
        = dequeuesBy i (run env des sched).trace ∧
      (env.NumConns = 1 →
        attempts (run env des (sched ++ [.worker i] ++ ext)).trace
          = attempts (run env des sched).trace)) := by
  have hlt : i < (run env des sched).workers.length := (List.getElem?_eq_some.mp hpc).1
  have hstep : run env des (sched ++ [.worker i])
      = { workerStep env des i (run env des sched) with
          clock := (run env des sched).clock + 1 } := by
    rw [run_append]
    exact step_worker env des _ i hnp
  have hdone : (run env des (sched ++ [.worker i])).workers[i]? = some .done := by
    rw [hstep]
    simp [workerStep, hpc, hsdf, herr, PoolState.setPc, PoolState.emit, List.getElem?_set, hlt]
  have ha : attemptsBy i (run env des (sched ++ [.worker i])).trace
      = attemptsBy i (run env des sched).trace := by
    rw [hstep]
    simp [workerStep, hpc, hsdf, herr, PoolState.setPc, PoolState.emit]
  have hd : dequeuesBy i (run env des (sched ++ [.worker i])).trace
      = dequeuesBy i (run env des sched).trace := by
    rw [hstep]
    simp [workerStep, hpc, hsdf, herr, PoolState.setPc, PoolState.emit]
  refine ⟨hdone, ?_⟩
  intro ext
  obtain ⟨_, ha', hd'⟩ := winding_runFrom env des i ext _ _ hdone rfl
  rw [← run_append] at ha' hd'
  refine ⟨ha'.trans ha, hd'.trans hd, ?_⟩
  intro hk
  have hone : ∀ l : List Event, attempts (run env des l).trace
      = attemptsBy i (run env des l).trace := by
    intro l
    apply attempts_eq_attemptsBy
    intro c e tn tot r hm
    have hc := ((faithful_run env des l).restore_ok c e tn tot r hm).2.1
    have hw := (sound_run env des l).workers_le
    have hw' := (sound_run env des sched).workers_le
    omega
  rw [hone, hone, ha', ha]

theorem agent_error_ends_observing_worker_witness :
    (run (sampleEnv true true 1 (some (.other "helper agent error")))
      [sampleEntry 1 5, sampleEntry 2 5] (mainRuns 6 ++ workerRuns 0 4)).workers[0]?
      = some .agent ∧
    attempts (run (sampleEnv true true 1 (some (.other "helper agent error")))
      [sampleEntry 1 5, sampleEntry 2 5]
      (mainRuns 6 ++ workerRuns 0 4 ++ [.worker 0] ++ (workerRuns 0 3 ++ mainRuns 5))).trace
      = attempts (run (sampleEnv true true 1 (some (.other "helper agent error")))
        [sampleEntry 1 5, sampleEntry 2 5] (mainRuns 6 ++ workerRuns 0 4)).trace := by
  have h1 : (run (sampleEnv true true 1 (some (.other "helper agent error")))
      [sampleEntry 1 5, sampleEntry 2 5] (mainRuns 6 ++ workerRuns 0 4)).workers[0]?
      = some .agent := by decide
  have h2 : (run (sampleEnv true true 1 (some (.other "helper agent error")))
      [sampleEntry 1 5, sampleEntry 2 5] (mainRuns 6 ++ workerRuns 0 4)).panicked
      = false := by decide
  exact ⟨h1, ((agent_error_ends_observing_worker _ _ _ 0 (.other "helper agent error")
    rfl h1 rfl h2).2 (workerRuns 0 3 ++ mainRuns 5)).2.2 rfl⟩

/-- C9 fails as stated: single-data-file mode, two connections, two tables, helper agents
that report an error at every check, with on-error-continue on and with it off.  Worker 0
restores the first table, sees the agent error and returns; after that point worker 1
receives the second table and calls `restoreSingleTableData` for it. -/
theorem agent_error_does_not_stop_other_workers :
    ((run (sampleEnv true true 2 (some (.other "helper agent error")))
        [sampleEntry 1 5, sampleEntry 2 5] (mainRuns 7 ++ workerRuns 0 5)).workers[0]?
        = some .done ∧
      (run (sampleEnv true true 2 (some (.other "helper agent error")))
        [sampleEntry 1 5, sampleEntry 2 5] (mainRuns 7 ++ workerRuns 0 5)).trace.getLast?
        = some (.logError (.other "helper agent error")) ∧
      attempts (run (sampleEnv true true 2 (some (.other "helper agent error")))
        [sampleEntry 1 5, sampleEntry 2 5] (mainRuns 7 ++ workerRuns 0 5)).trace
        = [sampleEntry 1 5] ∧
      attempts (run (sampleEnv true true 2 (some (.other "helper agent error")))
        [sampleEntry 1 5, sampleEntry 2 5]
        (mainRuns 7 ++ workerRuns 0 5 ++ (workerRuns 1 5 ++ mainRuns 4))).trace
        = [sampleEntry 1 5, sampleEntry 2 5] ∧
      attemptsBy 1 (run (sampleEnv true true 2 (some (.other "helper agent error")))
        [sampleEntry 1 5, sampleEntry 2 5]
        (mainRuns 7 ++ workerRuns 0 5 ++ (workerRuns 1 5 ++ mainRuns 4))).trace
        = [sampleEntry 2 5]) ∧
    ((run (sampleEnv true false 2 (some (.other "helper agent error")))
        [sampleEntry 1 5, sampleEntry 2 5] (mainRuns 7 ++ workerRuns 0 5)).workers[0]?
        = some .done ∧
      (run (sampleEnv true false 2 (some (.other "helper agent error")))
        [sampleEntry 1 5, sampleEntry 2 5] (mainRuns 7 ++ workerRuns 0 5)).trace.getLast?
        = some (.logError (.other "helper agent error")) ∧
      attempts (run (sampleEnv true false 2 (some (.other "helper agent error")))
        [sampleEntry 1 5, sampleEntry 2 5] (mainRuns 7 ++ workerRuns 0 5)).trace
        = [sampleEntry 1 5] ∧
      attempts (run (sampleEnv true false 2 (some (.other "helper agent error")))
        [sampleEntry 1 5, sampleEntry 2 5]
        (mainRuns 7 ++ workerRuns 0 5 ++ (workerRuns 1 5 ++ mainRuns 4))).trace
        = [sampleEntry 1 5, sampleEntry 2 5] ∧
      attemptsBy 1 (run (sampleEnv true false 2 (some (.other "helper agent error")))
        [sampleEntry 1 5, sampleEntry 2 5]
        (mainRuns 7 ++ workerRuns 0 5 ++ (workerRuns 1 5 ++ mainRuns 4))).trace
        = [sampleEntry 2 5]) := by
  decide

/-- C10, as the code has it: in single-data-file mode, when the agent check after a task
reports an error the worker logs it and leaves `numErrors` unchanged; and in a run in
which every restore returns `nil`, `numErrors` is 0 and no error summary is logged at any
moment, whatever the helper agents report. -/
theorem agent_error_not_counted (env : Env) (des : List MasterDataEntry)
    (sched : List Event) (i : Nat) (agentErr : GoError)
    (hsdf : env.SingleDataFile = true)
    (hpc : (run env des sched).workers[i]? = some .agent)
    (herr : env.CheckAgentErrorsOnSegments (run env des sched).clock = some agentErr)
    (hnp : (run env des sched).panicked = false) :
    (run env des (sched ++ [.worker i])).numErrors = (run env des sched).numErrors ∧
    (run env des (sched ++ [.worker i])).trace
      = (run env des sched).trace ++ [.logError agentErr] ∧
    ((∀ t tn conn, ∀ e ∈ des, conn < env.NumConns →
        restoreSingleTableData env (env.Exec t) e tn des.length conn = .ret none) →
      ∀ ext, (run env des (sched ++ [.worker i] ++ ext)).numErrors = 0 ∧
        summaries (run env des (sched ++ [.worker i] ++ ext)).trace = []) := by
  have hstep : run env des (sched ++ [.worker i])
      = { workerStep env des i (run env des sched) with
          clock := (run env des sched).clock + 1 } := by
    rw [run_append]
    exact step_worker env des _ i hnp
  refine ⟨?_, ?_, ?_⟩
  · rw [hstep]
    simp [workerStep, hpc, hsdf, herr, PoolState.setPc, PoolState.emit]
  · rw [hstep]
    simp [workerStep, hpc, hsdf, herr, PoolState.setPc, PoolState.emit]
  · intro hres ext
    exact (no_failure_no_error env des _ hres).2

theorem agent_error_not_counted_witness :
    (run (sampleEnv true false 2 (some (.other "helper agent error")))
      [sampleEntry 1 5, sampleEntry 2 5, sampleEntry 3 5]
      (mainRuns 8 ++ workerRuns 1 4)).workers[1]? = some .agent ∧
    (run (sampleEnv true false 2 (some (.other "helper agent error")))
      [sampleEntry 1 5, sampleEntry 2 5, sampleEntry 3 5]
      (mainRuns 8 ++ workerRuns 1 4 ++ [.worker 1])).numErrors
      = (run (sampleEnv true false 2 (some (.other "helper agent error")))
        [sampleEntry 1 5, sampleEntry 2 5, sampleEntry 3 5]
        (mainRuns 8 ++ workerRuns 1 4)).numErrors := by
  have h1 : (run (sampleEnv true false 2 (some (.other "helper agent error")))
      [sampleEntry 1 5, sampleEntry 2 5, sampleEntry 3 5]
      (mainRuns 8 ++ workerRuns 1 4)).workers[1]? = some .agent := by decide
  have h2 : (run (sampleEnv true false 2 (some (.other "helper agent error")))
      [sampleEntry 1 5, sampleEntry 2 5, sampleEntry 3 5]
      (mainRuns 8 ++ workerRuns 1 4)).panicked = false := by decide
  exact ⟨h1, (agent_error_not_counted _ _ _ 1 (.other "helper agent error")
    rfl h1 rfl h2).1⟩

/-- C10 fails as stated: single-data-file mode, one connection, one table whose restore
succeeds, helper agents that report an error.  The agent error is logged, and the run
ends with `numErrors = 0` and without an error summary. -/
theorem agent_error_leaves_numErrors_zero :
    (run (sampleEnv true false 1 (some (.other "helper agent error"))) [sampleEntry 1 5]
      (mainRuns 7 ++ workerRuns 0 5 ++ mainRuns 2)).returned ∧
    Effect.logError (.other "helper agent error") ∈
      (run (sampleEnv true false 1 (some (.other "helper agent error"))) [sampleEntry 1 5]
        (mainRuns 7 ++ workerRuns 0 5 ++ mainRuns 2)).trace ∧
    failures (run (sampleEnv true false 1 (some (.other "helper agent error")))
      [sampleEntry 1 5] (mainRuns 7 ++ workerRuns 0 5 ++ mainRuns 2)).trace = 0 ∧
    (run (sampleEnv true false 1 (some (.other "helper agent error"))) [sampleEntry 1 5]
      (mainRuns 7 ++ workerRuns 0 5 ++ mainRuns 2)).numErrors = 0 ∧
    summaries (run (sampleEnv true false 1 (some (.other "helper agent error")))
      [sampleEntry 1 5] (mainRuns 7 ++ workerRuns 0 5 ++ mainRuns 2)).trace = [] := by
  decide

/-- C12: in every state `s` of every run, (1) a worker whose call of
`restoreSingleTableData` returns goes on to count an error exactly when the call returned
an error, the call itself leaving `numErrors` as it is; (2) a worker with a returned error
adds exactly 1 to `numErrors` (in `int32` arithmetic) at its next action, with
on-error-continue on or off; (3) no other action changes `numErrors`; hence (4)
`numErrors` is the number of calls that returned an error, less those whose worker is
about to count them, and (5) when `restoreDataFromTimestamp` has returned after fewer than
`2^31` failed calls, `numErrors` is the number of calls that returned an error. -/
theorem every_restore_error_counted_once (env : Env) (des : List MasterDataEntry)
    (sched : List Event) (s : PoolState) (hs : s = run env des sched) :
    (∀ i e, s.panicked = false → s.workers[i]? = some (.call e) →
      (step env des s (.worker i)).numErrors = s.numErrors ∧
      (step env des s (.worker i)).workers[i]? =
        some (match restoreSingleTableData env (env.Exec s.clock) e s.tableNum des.length i with
          | .panic => .crashed
          | .ret none => .agent
          | .ret (some err) => .failed err)) ∧
    (∀ i err, s.panicked = false → s.workers[i]? = some (.failed err) →
      (step env des s (.worker i)).numErrors = wrapInt32 (s.numErrors + 1)) ∧
    (∀ ev, (∀ i err, ev = .worker i → s.workers[i]? ≠ some (.failed err)) →
      (step env des s ev).numErrors = s.numErrors) ∧
    (∃ c : Nat, s.numErrors = wrapInt32 c ∧
      c + total isFailed s.workers = failures s.trace) ∧
    (s.returned → failures s.trace < 2 ^ 31 → s.numErrors = failures s.trace) := by
  have hS : Sound env des s := hs ▸ sound_run env des sched
  refine ⟨?_, ?_, ?_, hS.errs, ?_⟩
  · intro i e hp hpc
    rw [step_worker env des s i hp]
    exact ⟨workerStep_numErrors_other env des s i (by rw [hpc]; intro err h; cases h),
      workerStep_call env des s i e hpc⟩
  · intro i err hp hpc
    rw [step_worker env des s i hp]
    exact workerStep_numErrors_failed env des s i err hpc
  · intro ev hev
    cases hp : s.panicked
    · cases ev with
      | main => rw [step_main env des s hp]; exact mainStep_numErrors env des s
      | worker i =>
        rw [step_worker env des s i hp]
        exact workerStep_numErrors_other env des s i (fun err => hev i err rfl)
      | interrupt => rw [step_interrupt env des s hp]
    · rw [step_panicked env des s ev hp]
  · intro hret hM
    rw [numErrors_returned env des s hS hret.1, wrapInt32_small _ hM]

theorem every_restore_error_counted_once_witness :
    (run (sampleEnv false true 1 none) [sampleEntry 1 7, sampleEntry 2 5]
      (mainRuns 7 ++ workerRuns 0 16 ++ mainRuns 2)).returned ∧
    failures (run (sampleEnv false true 1 none) [sampleEntry 1 7, sampleEntry 2 5]
      (mainRuns 7 ++ workerRuns 0 16 ++ mainRuns 2)).trace = 1 ∧
    (run (sampleEnv false true 1 none) [sampleEntry 1 7, sampleEntry 2 5]
      (mainRuns 7 ++ workerRuns 0 16 ++ mainRuns 2)).numErrors = 1 := by
  have h1 : (run (sampleEnv false true 1 none) [sampleEntry 1 7, sampleEntry 2 5]
      (mainRuns 7 ++ workerRuns 0 16 ++ mainRuns 2)).returned := by decide
  have h2 : failures (run (sampleEnv false true 1 none) [sampleEntry 1 7, sampleEntry 2 5]
      (mainRuns 7 ++ workerRuns 0 16 ++ mainRuns 2)).trace = 1 := by decide
  have h3 := (every_restore_error_counted_once _ _ _ _ rfl).2.2.2.2 h1 (by rw [h2]; decide)
  rw [h2] at h3
  exact ⟨h1, h2, h3⟩

/-- C13: in every state of every run the run-level summaries logged so far are: none
while `restoreDataFromTimestamp` has not returned, and once it has returned exactly one,
reporting `numErrors`, if `numErrors > 0` and none otherwise; and when it has returned
every worker has finished and `numErrors` is the number of calls of
`restoreSingleTableData` that returned an error, over all workers (in `int32`
arithmetic, so the number itself when it is below `2^31`). -/
theorem summary_logged_iff_errors (env : Env) (des : List MasterDataEntry)
    (sched : List Event) (s : PoolState) (hs : s = run env des sched) :
    (s.mainPc ≠ .returned → summaries s.trace = []) ∧
    (s.mainPc = .returned →
      (0 < s.numErrors → summaries s.trace = [s.numErrors]) ∧
      (¬ 0 < s.numErrors → summaries s.trace = []) ∧
      (summaries s.trace ≠ [] ↔ 0 < s.numErrors) ∧
      (∀ (j : Nat) (pc : WorkerPc), s.workers[j]? = some pc → pc = .done) ∧
      s.numErrors = wrapInt32 (failures s.trace) ∧
      (failures s.trace < 2 ^ 31 → s.numErrors = failures s.trace)) := by
  have hS : Sound env des s := hs ▸ sound_run env des sched
  have hsum : summaries s.trace = summaryOf s := hs ▸ summaries_run env des sched
  refine ⟨?_, ?_⟩
  · intro hne
    rw [hsum]
    simp [summaryOf, hne]
  · intro hret
    have hnum := numErrors_returned env des s hS hret
    refine ⟨?_, ?_, ?_, hS.all_done (by rw [hret]; decide), hnum, ?_⟩
    · intro hpos
      rw [hsum]
      simp [summaryOf, hret, hpos]
    · intro hpos
      rw [hsum]
      simp [summaryOf, hret, hpos]
    · rw [hsum]
      by_cases hpos : 0 < s.numErrors <;> simp [summaryOf, hret, hpos]
    · intro hM
      rw [hnum, wrapInt32_small _ hM]

theorem summary_logged_iff_errors_witness :
    (run (sampleEnv false true 2 none) [sampleEntry 1 7, sampleEntry 2 5, sampleEntry 3 6]
      (mainRuns 9 ++ roundRobin 2 16 ++ mainRuns 2)).mainPc = .returned ∧
    (run (sampleEnv false true 2 none) [sampleEntry 1 7, sampleEntry 2 5, sampleEntry 3 6]
      (mainRuns 9 ++ roundRobin 2 16 ++ mainRuns 2)).numErrors = 2 ∧
    summaries (run (sampleEnv false true 2 none)
      [sampleEntry 1 7, sampleEntry 2 5, sampleEntry 3 6]
      (mainRuns 9 ++ roundRobin 2 16 ++ mainRuns 2)).trace = [2] := by
  have h1 : (run (sampleEnv false true 2 none)
      [sampleEntry 1 7, sampleEntry 2 5, sampleEntry 3 6]
      (mainRuns 9 ++ roundRobin 2 16 ++ mainRuns 2)).mainPc = .returned := by decide
  have h2 : (run (sampleEnv false true 2 none)
      [sampleEntry 1 7, sampleEntry 2 5, sampleEntry 3 6]
      (mainRuns 9 ++ roundRobin 2 16 ++ mainRuns 2)).numErrors = 2 := by decide
  have h3 := ((summary_logged_iff_errors _ _ _ _ rfl).2 h1).1 (by rw [h2]; decide)
  rw [h2] at h3
  exact ⟨h1, h2, h3⟩

/-- C14: in every state of every run, until `restoreDataFromTimestamp` returns the
entries received from the channel, the entries in the channel and the entries still to be
sent make up `dataEntries`, in order (the channel is fed in list order, each entry once);
once the channel is closed nothing is left to send: the entries received and the entries
in the channel make up `dataEntries`.  With a single connection, no interrupt, no
helper-agent error and every call of `restoreSingleTableData` returning, with an error
only when on-error-continue is on: every run can be continued until the function returns,
and when it has returned the calls of `restoreSingleTableData` were made for exactly the
entries of `dataEntries`, in the order of `dataEntries`. -/
theorem tasks_queued_in_caller_order (env : Env) (des : List MasterDataEntry)
    (sched : List Event) :
    ((run env des sched).mainPc.phase ≤ 6 →
      dequeues (run env des sched).trace ++ (run env des sched).tasks ++
        (run env des sched).mainPc.unsent des = des) ∧
    ((run env des sched).closed = true →
      dequeues (run env des sched).trace ++ (run env des sched).tasks = des) ∧
    (env.NumConns = 1 → Calm env des → noInterrupt sched →
      (∃ ext, noInterrupt ext ∧ (run env des (sched ++ ext)).returned) ∧
      ((run env des sched).returned → attempts (run env des sched).trace = des)) :=
  ⟨(sound_run env des sched).fifo, closed_fifo_run env des sched,
    fun hk hC hint => ⟨calm_finish env des hC sched hint,
      single_in_order env des hC hk sched hint⟩⟩

theorem tasks_queued_in_caller_order_witness :
    (run (sampleEnv false true 1 none) [sampleEntry 3 5, sampleEntry 1 7, sampleEntry 2 5]
      (mainRuns 8 ++ workerRuns 0 24 ++ mainRuns 2)).returned ∧
    attempts (run (sampleEnv false true 1 none)
      [sampleEntry 3 5, sampleEntry 1 7, sampleEntry 2 5]
      (mainRuns 8 ++ workerRuns 0 24 ++ mainRuns 2)).trace
      = [sampleEntry 3 5, sampleEntry 1 7, sampleEntry 2 5] := by
  have h1 : (run (sampleEnv false true 1 none)
      [sampleEntry 3 5, sampleEntry 1 7, sampleEntry 2 5]
      (mainRuns 8 ++ workerRuns 0 24 ++ mainRuns 2)).returned := by decide
  have h2 : noInterrupt (mainRuns 8 ++ workerRuns 0 24 ++ mainRuns 2) := by decide
  have hC : Calm (sampleEnv false true 1 none)
      [sampleEntry 3 5, sampleEntry 1 7, sampleEntry 2 5] := by
    refine ⟨fun h => (by cases h), ?_⟩
    intro t tn conn e he _
    simp only [List.mem_cons, List.mem_singleton, List.not_mem_nil, or_false] at he
    rcases he with rfl | rfl | rfl
    · exact Or.inl rfl
    · exact Or.inr ⟨rfl, _, rfl⟩
    · exact Or.inl rfl
  exact ⟨h1, ((tasks_queued_in_caller_order _ _ _).2.2 rfl hC h2).2 h1⟩

/-- C15: in single-data-file mode with a non-empty `dataEntries`, in every state of every
run after the first action of `restoreDataFromTimestamp`, exactly one oid list has been
written to the segments and exactly one first pipe created; the list has the length of
`dataEntries`, its `i`-th element is the decimal rendering of the oid of `dataEntries[i]`,
and the pipe was created for the decimal rendering of the oid of `dataEntries[0]`. -/
theorem oid_list_written_in_order (env : Env) (des : List MasterDataEntry)
    (sched : List Event) (hs : env.SingleDataFile = true) (hd : des ≠ [])
    (hgo : (run env des sched).mainPc ≠ .entry) :
    ∃ filteredOids firstOid,
      oidLists (run env des sched).trace = [filteredOids] ∧
      firstPipes (run env des sched).trace = [firstOid] ∧
      filteredOids.length = des.length ∧
      (∀ (i : Nat) (entry : MasterDataEntry), des[i]? = some entry →
        filteredOids[i]? = some (String.mk (Nat.toDigits 10 entry.Oid))) ∧
      (∀ entry : MasterDataEntry, des[0]? = some entry →
        firstOid = String.mk (Nat.toDigits 10 entry.Oid)) := by
  obtain ⟨h1, h2⟩ := setup_run env des sched
  refine ⟨des.map fun entry => fmtUint entry.Oid,
    fmtUint ((des.head?.map fun entry => entry.Oid).getD 0), ?_, ?_, ?_, ?_, ?_⟩
  · rw [h1]; simp [setupOids, hs, hd, hgo]
  · rw [h2]; simp [setupPipe, hs, hd, hgo]
  · simp
  · intro i entry hi
    simp [hi]
    rfl
  · intro entry he
    cases des with
    | nil => simp at he
    | cons a rest =>
      simp at he
      subst he
      rfl

theorem oid_list_written_in_order_witness :
    oidLists (run (sampleEnv true false 1 none) [sampleEntry 16385 5, sampleEntry 7 5]
      (mainRuns 1)).trace = [["16385", "7"]] ∧
    firstPipes (run (sampleEnv true false 1 none) [sampleEntry 16385 5, sampleEntry 7 5]
      (mainRuns 1)).trace = ["16385"] ∧
    ∃ filteredOids firstOid,
      oidLists (run (sampleEnv true false 1 none) [sampleEntry 16385 5, sampleEntry 7 5]
        (mainRuns 1)).trace = [filteredOids] ∧
      firstPipes (run (sampleEnv true false 1 none) [sampleEntry 16385 5, sampleEntry 7 5]
        (mainRuns 1)).trace = [firstOid] ∧
      filteredOids.length = [sampleEntry 16385 5, sampleEntry 7 5].length ∧
      (∀ (i : Nat) (entry : MasterDataEntry),
        [sampleEntry 16385 5, sampleEntry 7 5][i]? = some entry →
        filteredOids[i]? = some (String.mk (Nat.toDigits 10 entry.Oid))) ∧
      (∀ entry, [sampleEntry 16385 5, sampleEntry 7 5][0]? = some entry →
        firstOid = String.mk (Nat.toDigits 10 entry.Oid)) :=
  ⟨by decide, by decide,
    oid_list_written_in_order (sampleEnv true false 1 none)
      [sampleEntry 16385 5, sampleEntry 7 5] (mainRuns 1) rfl (by decide) (by decide)⟩

/-- C16: in every state `s` of every run, a worker that finds `wasTerminated` set when it
has received an entry returns at once: it is done after its next action, which leaves
`numErrors`, the record of calls and logged errors, and the progress bar as they are; and
whenever every call of `restoreSingleTableData` made so far returned `nil` (the calls
that returned `nil` are as many as the calls), interrupted or not, `numErrors` is 0 and no
error summary has been logged. -/
theorem interrupt_is_not_an_error (env : Env) (des : List MasterDataEntry)
    (sched : List Event) (s : PoolState) (hs : s = run env des sched) :
    (∀ i e, s.panicked = false → s.wasTerminated = true → s.workers[i]? = some (.check e) →
      (step env des s (.worker i)).workers[i]? = some .done ∧
      (step env des s (.worker i)).numErrors = s.numErrors ∧
      (step env des s (.worker i)).trace = s.trace ∧
      (step env des s (.worker i)).progress = s.progress) ∧
    (successes s.trace = (attempts s.trace).length →
      s.numErrors = 0 ∧ summaries s.trace = []) := by
  have hS : Sound env des s := hs ▸ sound_run env des sched
  have hF : Faithful env des s := hs ▸ faithful_run env des sched
  refine ⟨?_, ?_⟩
  · intro i e hp ht hpc
    have hlt : i < s.workers.length := (List.getElem?_eq_some.mp hpc).1
    rw [step_worker env des s i hp]
    unfold workerStep
    rw [hpc]
    simp [ht, PoolState.setPc, hlt]
  · exact no_error_of_all_successes env des s hS hF

theorem interrupt_is_not_an_error_witness :
    (run (sampleEnv false false 1 none) [sampleEntry 1 5, sampleEntry 2 5]
      (mainRuns 7 ++ workerRuns 0 8 ++ [.interrupt])).workers[0]?
      = some (.check (sampleEntry 2 5)) ∧
    (step (sampleEnv false false 1 none) [sampleEntry 1 5, sampleEntry 2 5]
      (run (sampleEnv false false 1 none) [sampleEntry 1 5, sampleEntry 2 5]
        (mainRuns 7 ++ workerRuns 0 8 ++ [.interrupt])) (.worker 0)).workers[0]?
      = some .done ∧
    (run (sampleEnv false false 1 none) [sampleEntry 1 5, sampleEntry 2 5]
      (mainRuns 7 ++ workerRuns 0 8 ++ [.interrupt] ++ workerRuns 0 1 ++ mainRuns 2)).returned ∧
    attempts (run (sampleEnv false false 1 none) [sampleEntry 1 5, sampleEntry 2 5]
      (mainRuns 7 ++ workerRuns 0 8 ++ [.interrupt] ++ workerRuns 0 1 ++ mainRuns 2)).trace
      = [sampleEntry 1 5] ∧
    (run (sampleEnv false false 1 none) [sampleEntry 1 5, sampleEntry 2 5]
      (mainRuns 7 ++ workerRuns 0 8 ++ [.interrupt] ++ workerRuns 0 1 ++ mainRuns 2)).numErrors
      = 0 ∧
    summaries (run (sampleEnv false false 1 none) [sampleEntry 1 5, sampleEntry 2 5]
      (mainRuns 7 ++ workerRuns 0 8 ++ [.interrupt] ++ workerRuns 0 1 ++ mainRuns 2)).trace
      = [] := by
  have h0 : (run (sampleEnv false false 1 none) [sampleEntry 1 5, sampleEntry 2 5]
      (mainRuns 7 ++ workerRuns 0 8 ++ [.interrupt])).panicked = false := by decide
  have ht : (run (sampleEnv false false 1 none) [sampleEntry 1 5, sampleEntry 2 5]
      (mainRuns 7 ++ workerRuns 0 8 ++ [.interrupt])).wasTerminated = true := by decide
  have h1 : (run (sampleEnv false false 1 none) [sampleEntry 1 5, sampleEntry 2 5]
      (mainRuns 7 ++ workerRuns 0 8 ++ [.interrupt])).workers[0]?
      = some (.check (sampleEntry 2 5)) := by decide
  have h2 : (run (sampleEnv false false 1 none) [sampleEntry 1 5, sampleEntry 2 5]
      (mainRuns 7 ++ workerRuns 0 8 ++ [.interrupt] ++ workerRuns 0 1 ++ mainRuns 2)).returned := by
    decide
  have h3 : attempts (run (sampleEnv false false 1 none) [sampleEntry 1 5, sampleEntry 2 5]
      (mainRuns 7 ++ workerRuns 0 8 ++ [.interrupt] ++ workerRuns 0 1 ++ mainRuns 2)).trace
      = [sampleEntry 1 5] := by decide
  have h4 : successes (run (sampleEnv false false 1 none) [sampleEntry 1 5, sampleEntry 2 5]
      (mainRuns 7 ++ workerRuns 0 8 ++ [.interrupt] ++ workerRuns 0 1 ++ mainRuns 2)).trace
      = (attempts (run (sampleEnv false false 1 none) [sampleEntry 1 5, sampleEntry 2 5]
        (mainRuns 7 ++ workerRuns 0 8 ++ [.interrupt] ++ workerRuns 0 1
          ++ mainRuns 2)).trace).length := by
    decide
  have h5 := (interrupt_is_not_an_error _ _ _ _ rfl).2 h4
  exact ⟨h1, ((interrupt_is_not_an_error _ _ _ _ rfl).1 0 _ h0 ht h1).1, h2, h3, h5.1, h5.2⟩

/-- C17: in every state `s` of every run, (1) at most `NumConns` workers have been
started, and exactly `NumConns` from the end of the starting loop until the function
returns; (2) when the loop stands at index `i`, exactly `i` workers have been started, and
for `i < NumConns` the next action of the calling goroutine starts one more worker, at
position `i`, which is the connection index worker `i` uses in all its actions; (3)
whatever a goroutine adds to the record with a connection index `c` (a call of
`setGUCsForConnection`, a receive, a call of `restoreSingleTableData`) is added by worker
`c`, so no two workers use the same index; (4) every connection index in the record is
the index of a started worker, below `NumConns`; and (5) `restoreSingleTableData` called
with `whichConn` only uses `Exec` on that connection: its result is the same for any two
`Exec` that agree on the connection `ValidateConnNum(whichConn)`. -/
theorem each_worker_owns_one_connection (env : Env) (des : List MasterDataEntry)
    (sched : List Event) (s : PoolState) (hs : s = run env des sched) :
    (s.workers.length ≤ env.NumConns ∧
      (3 ≤ s.mainPc.phase → s.mainPc.phase ≤ 6 → s.workers.length = env.NumConns)) ∧
    (∀ i, s.mainPc = .spawn i → s.workers.length = i ∧
      (i < env.NumConns → s.panicked = false →
        (step env des s .main).workers = s.workers ++ [.start])) ∧
    (∀ ev, ∃ new, (step env des s ev).trace = s.trace ++ new ∧
      ∀ ef ∈ new, ∀ c, Effect.whichConn ef = some c →
        ev = .worker c ∧ c < s.workers.length) ∧
    (∀ ef ∈ s.trace, ∀ c, Effect.whichConn ef = some c →
      c < s.workers.length ∧ c < env.NumConns) ∧
    (∀ (exec exec' : String → Nat → Except GoError Int) (entry : MasterDataEntry)
      (tableNum totalTables whichConn : Nat),
      (∀ query, exec' query (env.ValidateConnNum whichConn)
        = exec query (env.ValidateConnNum whichConn)) →
      restoreSingleTableData env exec' entry tableNum totalTables whichConn
        = restoreSingleTableData env exec entry tableNum totalTables whichConn) := by
  have hS : Sound env des s := hs ▸ sound_run env des sched
  refine ⟨⟨hS.workers_le, hS.full⟩, ?_, step_emits env des s, ?_,
    restoreSingleTableData_own_conn env⟩
  · intro i hpc
    refine ⟨hS.spawn_len i hpc, fun hi hp => ?_⟩
    rw [step_main env des s hp]
    exact mainStep_spawn env des s i hpc hi
  · intro ef hef c hc
    have h := conns_run env des sched ef (hs ▸ hef) c hc
    rw [← hs] at h
    exact ⟨h, Nat.lt_of_lt_of_le h hS.workers_le⟩

theorem each_worker_owns_one_connection_witness :
    (run (sampleEnv false false 3 none) tenTables (mainRuns 4)).workers.length = 3 ∧
    (run (sampleEnv false false 3 none) tenTables (mainRuns 5)).workers.length = 3 ∧
    (Effect.restore 1 (sampleEntry 2 5) 1 10 (.ret none)
      ∈ (run (sampleEnv false false 3 none) tenTables
        (mainRuns 15 ++ roundRobin 3 4)).trace) ∧
    (1 < (run (sampleEnv false false 3 none) tenTables
        (mainRuns 15 ++ roundRobin 3 4)).workers.length ∧ 1 < 3) := by
  have h1 : (run (sampleEnv false false 3 none) tenTables (mainRuns 4)).workers.length = 3 := by
    decide
  have h3 : Effect.restore 1 (sampleEntry 2 5) 1 10 (.ret none)
      ∈ (run (sampleEnv false false 3 none) tenTables
        (mainRuns 15 ++ roundRobin 3 4)).trace := by
    decide
  have h4 : (run (sampleEnv false false 3 none) tenTables (mainRuns 5)).mainPc.phase = 3 := by
    decide
  exact ⟨h1,
    (each_worker_owns_one_connection _ _ (mainRuns 5) _ rfl).1.2 (by rw [h4]) (by rw [h4]; decide),
    h3, (each_worker_owns_one_connection _ _ _ _ rfl).2.2.2.1 _ h3 1 rfl⟩

/-- C18 (on the resolver as the specification describes it): for every backup set whose
dependency mapping has no cycle, sequencing the mapping built from the set succeeds and
yields a rearrangement of the set in which every prerequisite of an object stands before
the object; and the result is determined by the set and the prerequisite sets alone:
sequencing any mapping with the same prerequisite sets, however represented, yields the
identical list. -/
theorem sequence_of_build_is_topological_order (catalog : List CatalogRow)
    (objects : List DepEntry) (hvalid : Acyclic (GetDependencies catalog objects)) :
    ∃ sorted, sequence objects (GetDependencies catalog objects) = .ok sorted ∧
      sorted.Perm objects ∧
      (∀ before object after, sorted = before ++ object :: after →
        ∀ p ∈ prerequisites (GetDependencies catalog objects) object, p ∈ before) ∧
      (∀ mapping' : DependencyMap,
        (∀ o p, p ∈ prerequisites mapping' o ↔
          p ∈ prerequisites (GetDependencies catalog objects) o) →
        sequence objects mapping' = .ok sorted) := by
  obtain ⟨sorted, h1, h2, h3⟩ := sequenceFrom_ok (GetDependencies catalog objects) hvalid
    objects.length [] objects (Nat.le_refl _)
    (fun o _ p hp => Or.inr (dependsOn_GetDependencies catalog objects p o hp).1)
    (ordered_nil _)
  refine ⟨sorted, h1, by simpa using h2, h3, ?_⟩
  intro mapping' hsame
  unfold sequence
  rw [sequenceFrom_congr _ _ hsame]
  exact h1

theorem sequence_of_build_is_topological_order_witness :
    GetDependencies [⟨.viewRelation, ⟨1259, 3⟩, ⟨1259, 2⟩⟩, ⟨.inheritance, ⟨1259, 2⟩, ⟨1259, 1⟩⟩]
      [⟨1259, 3⟩, ⟨1259, 2⟩, ⟨1259, 1⟩]
      = [(⟨1259, 3⟩, [⟨1259, 2⟩]), (⟨1259, 2⟩, [⟨1259, 1⟩])] ∧
    sequence [⟨1259, 3⟩, ⟨1259, 2⟩, ⟨1259, 1⟩]
      (GetDependencies
        [⟨.viewRelation, ⟨1259, 3⟩, ⟨1259, 2⟩⟩, ⟨.inheritance, ⟨1259, 2⟩, ⟨1259, 1⟩⟩]
        [⟨1259, 3⟩, ⟨1259, 2⟩, ⟨1259, 1⟩])
      = .ok [⟨1259, 1⟩, ⟨1259, 2⟩, ⟨1259, 3⟩] ∧
    ∃ sorted, sequence [⟨1259, 3⟩, ⟨1259, 2⟩, ⟨1259, 1⟩]
        (GetDependencies
          [⟨.viewRelation, ⟨1259, 3⟩, ⟨1259, 2⟩⟩, ⟨.inheritance, ⟨1259, 2⟩, ⟨1259, 1⟩⟩]
          [⟨1259, 3⟩, ⟨1259, 2⟩, ⟨1259, 1⟩]) = .ok sorted ∧
      sorted.Perm [⟨1259, 3⟩, ⟨1259, 2⟩, ⟨1259, 1⟩] := by
  have hm : GetDependencies
      [⟨.viewRelation, ⟨1259, 3⟩, ⟨1259, 2⟩⟩, ⟨.inheritance, ⟨1259, 2⟩, ⟨1259, 1⟩⟩]
      [⟨1259, 3⟩, ⟨1259, 2⟩, ⟨1259, 1⟩]
      = [(⟨1259, 3⟩, [⟨1259, 2⟩]), (⟨1259, 2⟩, [⟨1259, 1⟩])] := by decide
  have hA : Acyclic (GetDependencies
      [⟨.viewRelation, ⟨1259, 3⟩, ⟨1259, 2⟩⟩, ⟨.inheritance, ⟨1259, 2⟩, ⟨1259, 1⟩⟩]
      [⟨1259, 3⟩, ⟨1259, 2⟩, ⟨1259, 1⟩]) := by
    rw [hm]
    apply acyclic_of_rank _ (fun o => o.Objid)
    intro p q hpq
    simp only [dependsOn, prerequisites] at hpq
    split at hpq
    · next hq =>
      simp at hpq
      subst hq hpq
      decide
    · split at hpq
      · next hq =>
        simp at hpq
        subst hq hpq
        decide
      · simp at hpq
  obtain ⟨sorted, h1, h2, _⟩ := sequence_of_build_is_topological_order _ _ hA
  exact ⟨hm, rfl, sorted, h1, h2⟩

/-- C19 (on the resolver as the specification describes it): for a base type `t` with
input function `tin` and output function `tout`, the three distinct and making up the
backup set (in any order), and the catalog relating the type to its two functions and,
by their argument and return types, the two functions to the type: the mapping has
exactly one entry, `t` with exactly the prerequisites `tin` and `tout`; neither function
has a prerequisite, so none maps back to `t`; and sequencing the mapping succeeds (no
`CycleDetected`). -/
theorem base_type_depends_on_io_functions (t tin tout : DepEntry) (backupSet : List DepEntry)
    (h1 : t ≠ tin) (h2 : t ≠ tout) (h3 : tin ≠ tout)
    (hset : backupSet.Perm [t, tin, tout]) :
    GetDependencies (baseTypeCatalog t tin tout) backupSet = [(t, [tin, tout])] ∧
    prerequisites (GetDependencies (baseTypeCatalog t tin tout) backupSet) tin = [] ∧
    prerequisites (GetDependencies (baseTypeCatalog t tin tout) backupSet) tout = [] ∧
    ∃ sorted, sequence backupSet (GetDependencies (baseTypeCatalog t tin tout) backupSet)
      = .ok sorted ∧ sorted.Perm backupSet := by
  have h1' := Ne.symm h1
  have h2' := Ne.symm h2
  have h3' := Ne.symm h3
  have hbase : GetDependencies (baseTypeCatalog t tin tout) [t, tin, tout]
      = [(t, [tin, tout])] := by
    simp [GetDependencies, prerequisitesOf, baseTypeCatalog, edgeAsserted, isIOFunctionOf,
      h1, h2, h3, h1', h2', h3']
  have hm : GetDependencies (baseTypeCatalog t tin tout) backupSet = [(t, [tin, tout])] := by
    have hp := GetDependencies_perm (baseTypeCatalog t tin tout) [t, tin, tout] backupSet hset
    rw [hbase] at hp
    exact List.perm_singleton.mp hp
  have hA : Acyclic (GetDependencies (baseTypeCatalog t tin tout) backupSet) := by
    rw [hm]
    apply acyclic_of_rank _ (fun o => if o = t then 1 else 0)
    intro p q hpq
    simp only [dependsOn, prerequisites] at hpq
    split at hpq
    · next hq =>
      subst hq
      simp at hpq
      rcases hpq with rfl | rfl
      · simp [h1']
      · simp [h2']
    · simp at hpq
  refine ⟨hm, ?_, ?_, ?_⟩
  · rw [hm]; simp [prerequisites, h1]
  · rw [hm]; simp [prerequisites, h2]
  · obtain ⟨sorted, hs1, hs2, _⟩ := sequenceFrom_ok _ hA backupSet.length [] backupSet
      (Nat.le_refl _)
      (fun o _ p hp => Or.inr (dependsOn_GetDependencies _ backupSet p o hp).1)
      (ordered_nil _)
    exact ⟨sorted, hs1, by simpa using hs2⟩

theorem base_type_depends_on_io_functions_witness :
    GetDependencies (baseTypeCatalog ⟨1247, 16390⟩ ⟨1255, 16388⟩ ⟨1255, 16389⟩)
      [⟨1255, 16389⟩, ⟨1247, 16390⟩, ⟨1255, 16388⟩]
      = [(⟨1247, 16390⟩, [⟨1255, 16388⟩, ⟨1255, 16389⟩])] ∧
    sequence [⟨1255, 16389⟩, ⟨1247, 16390⟩, ⟨1255, 16388⟩]
      (GetDependencies (baseTypeCatalog ⟨1247, 16390⟩ ⟨1255, 16388⟩ ⟨1255, 16389⟩)
        [⟨1255, 16389⟩, ⟨1247, 16390⟩, ⟨1255, 16388⟩])
      = .ok [⟨1255, 16389⟩, ⟨1255, 16388⟩, ⟨1247, 16390⟩] :=
  ⟨(base_type_depends_on_io_functions ⟨1247, 16390⟩ ⟨1255, 16388⟩ ⟨1255, 16389⟩
      [⟨1255, 16389⟩, ⟨1247, 16390⟩, ⟨1255, 16388⟩] (by decide) (by decide) (by decide)
      (by decide)).1, rfl⟩

/-- C20 (on the resolver as the specification describes it): for a composite type with
`n ≥ 1` attributes of the same member type `base`, the two distinct and making up the
backup set (in any order): the mapping has exactly one entry, the composite type with the
single prerequisite `base`, whatever `n` is. -/
theorem composite_has_one_edge_per_member_type (composite base : DepEntry) (n : Nat)
    (backupSet : List DepEntry) (hne : base ≠ composite) (hn : 1 ≤ n)
    (hset : backupSet.Perm [base, composite]) :
    GetDependencies (compositeCatalog composite base n) backupSet = [(composite, [base])] ∧
    (prerequisites (GetDependencies (compositeCatalog composite base n) backupSet)
      composite).length = 1 := by
  obtain ⟨k, rfl⟩ : ∃ k, n = k + 1 := ⟨n - 1, by omega⟩
  have hcomp : prerequisitesOf (compositeCatalog composite base (k + 1)) [base, composite]
      composite = [base] := by
    unfold prerequisitesOf compositeCatalog
    rw [List.filter_eq_self.mpr, List.map_replicate, dedup_replicate]
    intro row hrow
    rw [List.eq_of_mem_replicate hrow]
    simp [edgeAsserted]
  have hbase : prerequisitesOf (compositeCatalog composite base (k + 1)) [base, composite]
      base = [] := by
    unfold prerequisitesOf compositeCatalog
    rw [List.filter_eq_nil_iff.mpr]
    · rfl
    · intro row hrow
      rw [List.eq_of_mem_replicate hrow]
      simp [hne.symm]
  have hm0 : GetDependencies (compositeCatalog composite base (k + 1)) [base, composite]
      = [(composite, [base])] := by
    simp [GetDependencies, hcomp, hbase]
  have hm : GetDependencies (compositeCatalog composite base (k + 1)) backupSet
      = [(composite, [base])] := by
    have hp := GetDependencies_perm (compositeCatalog composite base (k + 1))
      [base, composite] backupSet hset
    rw [hm0] at hp
    exact List.perm_singleton.mp hp
  refine ⟨hm, ?_⟩
  rw [hm]
  simp [prerequisites]

theorem composite_has_one_edge_per_member_type_witness :
    GetDependencies (compositeCatalog ⟨1247, 16394⟩ ⟨1247, 16390⟩ 3)
      [⟨1247, 16390⟩, ⟨1247, 16394⟩] = [(⟨1247, 16394⟩, [⟨1247, 16390⟩])] ∧
    (prerequisites (GetDependencies (compositeCatalog ⟨1247, 16394⟩ ⟨1247, 16390⟩ 3)
      [⟨1247, 16390⟩, ⟨1247, 16394⟩]) ⟨1247, 16394⟩).length = 1 :=
  composite_has_one_edge_per_member_type ⟨1247, 16394⟩ ⟨1247, 16390⟩ 3
    [⟨1247, 16390⟩, ⟨1247, 16394⟩] (by decide) (by decide) (by decide)

/-- C21 (on the resolver as the specification describes it): a child table has every
direct parent of the backup set among its prerequisites, whatever else the catalog holds;
and for a table `bar` that inherits `foo`, the two distinct and making up the backup set
(in any order), the mapping has exactly one entry, `bar` with the single prerequisite
`foo`: `foo`, which has no prerequisite, has no entry. -/
theorem inheritance_child_depends_on_parent (foo bar : DepEntry) (backupSet : List DepEntry)
    (hne : foo ≠ bar) (hset : backupSet.Perm [foo, bar]) :
    (∀ (catalog : List CatalogRow) (objects : List DepEntry) (child parent : DepEntry),
      (⟨.inheritance, child, parent⟩ : CatalogRow) ∈ catalog → child ∈ objects →
      parent ∈ objects → parent ∈ prerequisites (GetDependencies catalog objects) child) ∧
    GetDependencies [⟨.inheritance, bar, foo⟩] backupSet = [(bar, [foo])] ∧
    prerequisites (GetDependencies [⟨.inheritance, bar, foo⟩] backupSet) bar = [foo] ∧
    prerequisites (GetDependencies [⟨.inheritance, bar, foo⟩] backupSet) foo = [] := by
  have hm0 : GetDependencies [⟨.inheritance, bar, foo⟩] [foo, bar] = [(bar, [foo])] := by
    simp [GetDependencies, prerequisitesOf, edgeAsserted, hne, hne.symm]
  have hm : GetDependencies [⟨.inheritance, bar, foo⟩] backupSet = [(bar, [foo])] := by
    have hp := GetDependencies_perm [⟨.inheritance, bar, foo⟩] [foo, bar] backupSet hset
    rw [hm0] at hp
    exact List.perm_singleton.mp hp
  refine ⟨?_, hm, ?_, ?_⟩
  · intro catalog objects child parent hrow hc hp
    rw [prerequisites_GetDependencies, if_pos hc, mem_prerequisitesOf]
    exact ⟨_, hrow, by simp [edgeAsserted], rfl, rfl, hp⟩
  · rw [hm]; simp [prerequisites]
  · rw [hm]; simp [prerequisites, hne.symm]

theorem inheritance_child_depends_on_parent_witness :
    GetDependencies [⟨.inheritance, ⟨1259, 16392⟩, ⟨1259, 16386⟩⟩]
      [⟨1259, 16386⟩, ⟨1259, 16392⟩] = [(⟨1259, 16392⟩, [⟨1259, 16386⟩])] ∧
    prerequisites (GetDependencies [⟨.inheritance, ⟨1259, 16392⟩, ⟨1259, 16386⟩⟩]
      [⟨1259, 16386⟩, ⟨1259, 16392⟩]) ⟨1259, 16386⟩ = [] :=
  ⟨(inheritance_child_depends_on_parent ⟨1259, 16386⟩ ⟨1259, 16392⟩
      [⟨1259, 16386⟩, ⟨1259, 16392⟩] (by decide) (by decide)).2.1,
    (inheritance_child_depends_on_parent ⟨1259, 16386⟩ ⟨1259, 16392⟩
      [⟨1259, 16386⟩, ⟨1259, 16392⟩] (by decide) (by decide)).2.2.2⟩

/-- C22: for every table name `t`, attribute string `a` and destination `d`, the query of
`CopyTableIn` is `COPY <t><a> FROM PROGRAM '<read> <d> | <filter>' WITH CSV DELIMITER ','
ON SEGMENT;` where in single-data-file mode `<read>` is `cat` and `<filter>` is `cat -`,
whatever the plugin and compression settings, and otherwise `<filter>` is the
`InputCommand` of the pipe-through program and `<read>` is `<plugin executable>
restore_data <plugin config path>` when the plugin config flag is set, `cat` when it is
not; and this query is what `CopyTableIn` executes: its result is the same for any two
`Exec` that answer this query alike on the validated connection, and is the
affected-row count of this query when it succeeds. -/
theorem copy_query_text (env : Env) (exec : String → Nat → Except GoError Int)
    (t a d : String) (singleDataFile : Bool) (whichConn : Nat) :
    (singleDataFile = true → copyQuery env t a d singleDataFile
      = "COPY " ++ t ++ a ++ " FROM PROGRAM 'cat " ++ d ++ " | cat -' WITH CSV DELIMITER ','"
        ++ " ON SEGMENT;") ∧
    (singleDataFile = false → env.PluginConfigFlag ≠ "" → copyQuery env t a d singleDataFile
      = "COPY " ++ t ++ a ++ " FROM PROGRAM '" ++ env.ExecutablePath ++ " restore_data "
        ++ env.ConfigPath ++ " " ++ d ++ " | " ++ env.InputCommand
        ++ "' WITH CSV DELIMITER ',' ON SEGMENT;") ∧
    (singleDataFile = false → env.PluginConfigFlag = "" → copyQuery env t a d singleDataFile
      = "COPY " ++ t ++ a ++ " FROM PROGRAM 'cat " ++ d ++ " | " ++ env.InputCommand
        ++ "' WITH CSV DELIMITER ',' ON SEGMENT;") ∧
    (∀ exec' : String → Nat → Except GoError Int,
      exec' (copyQuery env t a d singleDataFile) (env.ValidateConnNum whichConn)
        = exec (copyQuery env t a d singleDataFile) (env.ValidateConnNum whichConn) →
      CopyTableIn env exec' t a d singleDataFile whichConn
        = CopyTableIn env exec t a d singleDataFile whichConn) ∧
    (∀ numRows,
      exec (copyQuery env t a d singleDataFile) (env.ValidateConnNum whichConn)
        = .ok numRows →
      CopyTableIn env exec t a d singleDataFile whichConn = .ret (numRows, none)) := by
  refine ⟨?_, ?_, ?_, ?_, ?_⟩
  · intro hs
    subst hs
    apply String.ext
    simp [copyQuery, readFromDestinationCommand, customPipeThroughCommand, tableDelim,
      String.data_append]
  · intro hs hp
    subst hs
    apply String.ext
    simp [copyQuery, readFromDestinationCommand, customPipeThroughCommand, tableDelim,
      String.data_append, hp]
  · intro hs hp
    subst hs
    apply String.ext
    simp [copyQuery, readFromDestinationCommand, customPipeThroughCommand, tableDelim,
      String.data_append, hp]
  · intro exec' h
    simp only [CopyTableIn, h]
  · intro numRows h
    simp only [CopyTableIn, h]

theorem copy_query_text_witness :
    copyQuery (sampleEnv true false 1 none) "public.t" "(i)"
      "<SEG_DATA_DIR>/gpbackup_<SEGID>_20190809230424_pipe_16385" true
      = "COPY public.t(i) FROM PROGRAM 'cat <SEG_DATA_DIR>/gpbackup_<SEGID>_20190809230424_pipe_16385 | cat -' WITH CSV DELIMITER ',' ON SEGMENT;" ∧
    copyQuery (sampleEnv false false 1 none) "public.t" "(i)"
      "<SEG_DATA_DIR>/gpbackup_<SEGID>_20190809230424_16385.gz" false
      = "COPY public.t(i) FROM PROGRAM 'cat <SEG_DATA_DIR>/gpbackup_<SEGID>_20190809230424_16385.gz | gzip -d -c' WITH CSV DELIMITER ',' ON SEGMENT;" ∧
    copyQuery pluginEnv "public.t" "(i)" "/backups/16385.gz" false
      = "COPY public.t(i) FROM PROGRAM '/usr/bin/s3_plugin restore_data /tmp/s3.yaml /backups/16385.gz | gzip -d -c' WITH CSV DELIMITER ',' ON SEGMENT;" ∧
    CopyTableIn (sampleEnv false false 1 none) ((sampleEnv false false 1 none).Exec 0)
      "public.t" "(i)" "<SEG_DATA_DIR>/gpbackup_<SEGID>_20190809230424_16385.gz" false 0
      = .ret (5, none) :=
  ⟨by decide, by decide, by decide,
    (copy_query_text (sampleEnv false false 1 none) ((sampleEnv false false 1 none).Exec 0)
      "public.t" "(i)" "<SEG_DATA_DIR>/gpbackup_<SEGID>_20190809230424_16385.gz" false
      0).2.2.2.2 5 rfl⟩

/-- C23: the destination `restoreSingleTableData` reads a table from is, when
`backupConfig.SingleDataFile` is set, the segment pipe path followed by `_` and the
decimal digits of the oid of the table, and otherwise the path that
`GetTableBackupFilePathForCopyCommand` gives for the oid and the extension of the
pipe-through program; and `restoreSingleTableData` hands this destination and the same
flag to `CopyTableIn`, whose outcome decides its own. -/
theorem destination_by_single_data_file (env : Env)
    (exec : String → Nat → Except GoError Int) (entry : MasterDataEntry)
    (tableNum totalTables whichConn : Nat) :
    (env.SingleDataFile = true → destinationToRead env entry
      = env.GetSegmentPipePathForCopyCommand ++ "_"
        ++ String.mk (Nat.toDigits 10 entry.Oid)) ∧
    (env.SingleDataFile = false → destinationToRead env entry
      = env.GetTableBackupFilePathForCopyCommand entry.Oid env.Extension false) ∧
    restoreSingleTableData env exec entry tableNum totalTables whichConn
      = (match CopyTableIn env exec (env.MakeFQN entry.Schema entry.Name)
            entry.AttributeString (destinationToRead env entry) env.SingleDataFile
            whichConn with
        | .panic => .panic
        | .ret (_, some err) => .ret (some err)
        | .ret (numRowsRestored, none) =>
          .ret (CheckRowsRestored numRowsRestored entry.RowsCopied
            (env.MakeFQN entry.Schema entry.Name))) := by
  refine ⟨?_, ?_, ?_⟩
  · intro hs
    simp only [destinationToRead, hs, if_true]
    rfl
  · intro hs
    simp [destinationToRead, hs]
  · simp only [restoreSingleTableData]
    generalize CopyTableIn env exec (env.MakeFQN entry.Schema entry.Name)
      entry.AttributeString (destinationToRead env entry) env.SingleDataFile whichConn = r
    rcases r with ⟨n, _ | e⟩ | _
    · simp only
      cases CheckRowsRestored n entry.RowsCopied (env.MakeFQN entry.Schema entry.Name) <;>
        rfl
    · rfl
    · rfl

theorem destination_by_single_data_file_witness :
    destinationToRead (sampleEnv true false 1 none) (sampleEntry 16385 5)
      = "<SEG_DATA_DIR>/gpbackup_<SEGID>_20190809230424_pipe_16385" ∧
    destinationToRead (sampleEnv false false 1 none) (sampleEntry 16385 5)
      = "<SEG_DATA_DIR>/gpbackup_<SEGID>_20190809230424_16385.gz" :=
  ⟨((destination_by_single_data_file (sampleEnv true false 1 none)
      ((sampleEnv true false 1 none).Exec 0) (sampleEntry 16385 5) 1 1 0).1 rfl).trans
      (by decide),
    ((destination_by_single_data_file (sampleEnv false false 1 none)
      ((sampleEnv false false 1 none).Exec 0) (sampleEntry 16385 5) 1 1 0).2.1 rfl).trans
      (by decide)⟩

/-- C24: in every state `s` of every run, (1) the first action of a worker is its call of
`setGUCsForConnection`, for its own connection; (2) every worker has made this call
exactly once if it has made its first action and not at all before, so no connection has
it twice, and when `restoreDataFromTimestamp` has returned every worker that was started
has made it exactly once; (3) in the record every call of `restoreSingleTableData` (and
with it of `CopyTableIn`) on a connection stands after the call of
`setGUCsForConnection` for that connection. -/
theorem gucs_set_once_before_any_restore (env : Env) (des : List MasterDataEntry)
    (sched : List Event) (s : PoolState) (hs : s = run env des sched) :
    (∀ j : Nat, s.panicked = false → s.workers[j]? = some .start →
      (step env des s (.worker j)).trace = s.trace ++ [.setGUCs j]) ∧
    ((∀ j : Nat, (gucConns s.trace).count j ≤ 1) ∧
      (∀ (j : Nat) (pc : WorkerPc), s.workers[j]? = some pc →
        (pc = .start → (gucConns s.trace).count j = 0) ∧
        (pc ≠ .start → (gucConns s.trace).count j = 1)) ∧
      (s.returned → ∀ j : Nat, j < s.workers.length → (gucConns s.trace).count j = 1)) ∧
    (∀ before c e tn tot r after, s.trace = before ++ Effect.restore c e tn tot r :: after →
      Effect.setGUCs c ∈ before) := by
  have hS : Sound env des s := hs ▸ sound_run env des sched
  have hg : ∀ j : Nat, (gucConns s.trace).count j = gucsDone s.workers[j]? :=
    hs ▸ guc_run env des sched
  have hP : Prepared s.trace := hs ▸ prepared_run env des sched
  refine ⟨?_, ⟨?_, ?_, ?_⟩, hP⟩
  · intro j hp hpc
    rw [step_worker env des s j hp]
    simp [workerStep, hpc, PoolState.emit, PoolState.setPc]
  · intro j
    rw [hg j]
    cases s.workers[j]? with
    | none => simp [gucsDone]
    | some pc => cases pc <;> simp [gucsDone]
  · intro j pc hpc
    rw [hg j, hpc]
    refine ⟨fun h => by rw [h]; rfl, fun h => ?_⟩
    cases pc <;> first | rfl | exact absurd rfl h
  · intro hret j hj
    obtain ⟨pc, hpc⟩ : ∃ pc, s.workers[j]? = some pc :=
      ⟨s.workers[j], List.getElem?_eq_getElem hj⟩
    rw [hg j, hpc, hS.all_done (by rw [hret.1]; decide) j pc hpc]
    rfl

theorem gucs_set_once_before_any_restore_witness :
    (run (sampleEnv false false 2 none) [sampleEntry 1 5, sampleEntry 2 5, sampleEntry 3 5]
      (mainRuns 9 ++ workerRuns 1 6 ++ roundRobin 2 14 ++ mainRuns 2)).returned ∧
    gucConns (run (sampleEnv false false 2 none)
      [sampleEntry 1 5, sampleEntry 2 5, sampleEntry 3 5]
      (mainRuns 9 ++ workerRuns 1 6 ++ roundRobin 2 14 ++ mainRuns 2)).trace = [1, 0] ∧
    (gucConns (run (sampleEnv false false 2 none)
      [sampleEntry 1 5, sampleEntry 2 5, sampleEntry 3 5]
      (mainRuns 9 ++ workerRuns 1 6 ++ roundRobin 2 14 ++ mainRuns 2)).trace).count 0 = 1 := by
  have h1 : (run (sampleEnv false false 2 none)
      [sampleEntry 1 5, sampleEntry 2 5, sampleEntry 3 5]
      (mainRuns 9 ++ workerRuns 1 6 ++ roundRobin 2 14 ++ mainRuns 2)).returned := by decide
  have h2 : gucConns (run (sampleEnv false false 2 none)
      [sampleEntry 1 5, sampleEntry 2 5, sampleEntry 3 5]
      (mainRuns 9 ++ workerRuns 1 6 ++ roundRobin 2 14 ++ mainRuns 2)).trace = [1, 0] := by
    decide
  have h3 : 0 < (run (sampleEnv false false 2 none)
      [sampleEntry 1 5, sampleEntry 2 5, sampleEntry 3 5]
      (mainRuns 9 ++ workerRuns 1 6 ++ roundRobin 2 14 ++ mainRuns 2)).workers.length := by
    decide
  exact ⟨h1, h2, (gucs_set_once_before_any_restore _ _ _ _ rfl).2.1.2.2 h1 0 h3⟩

/-- C25: when the COPY statement fails with a `pgx.PgError` `e`, `CopyTableIn` returns 0
rows and the error that wraps `e` with the message `Error loading data into table
<tableName>`, extended by `: <e.Where>` exactly when `e.Where` is not empty; when the
statement succeeds it returns the affected-row count of the statement and a `nil`
error. -/
theorem CopyTableIn_pg_error_or_success (env : Env)
    (exec : String → Nat → Except GoError Int) (tableName tableAttributes
      destinationToRead : String) (singleDataFile : Bool) (whichConn : Nat) :
    (∀ e : PgError,
      exec (copyQuery env tableName tableAttributes destinationToRead singleDataFile)
        (env.ValidateConnNum whichConn) = .error (.pg e) →
      (e.Where ≠ "" →
        CopyTableIn env exec tableName tableAttributes destinationToRead singleDataFile
          whichConn
          = .ret (0, some (.wrap (.pg e)
              ("Error loading data into table " ++ tableName ++ ": " ++ e.Where)))) ∧
      (e.Where = "" →
        CopyTableIn env exec tableName tableAttributes destinationToRead singleDataFile
          whichConn
          = .ret (0, some (.wrap (.pg e) ("Error loading data into table " ++ tableName))))) ∧
    (∀ numRows : Int,
      exec (copyQuery env tableName tableAttributes destinationToRead singleDataFile)
        (env.ValidateConnNum whichConn) = .ok numRows →
      CopyTableIn env exec tableName tableAttributes destinationToRead singleDataFile
        whichConn = .ret (numRows, none)) := by
  refine ⟨?_, ?_⟩
  · intro e he
    refine ⟨?_, ?_⟩
    · intro hw
      simp only [CopyTableIn, he, hw, ne_eq, not_false_eq_true, if_true]
    · intro hw
      simp only [CopyTableIn, he, hw, ne_eq, not_true_eq_false, if_false]
  · intro numRows h
    simp only [CopyTableIn, h]

theorem CopyTableIn_pg_error_or_success_witness :
    CopyTableIn (sampleEnv false false 1 none)
      (fun _ _ => .error (.pg ⟨"ERROR", "22P02", "invalid input syntax for integer",
        "COPY t, line 3, column i"⟩))
      "public.t" "(i)" "/data/t.gz" false 0
      = .ret (0, some (.wrap (.pg ⟨"ERROR", "22P02", "invalid input syntax for integer",
          "COPY t, line 3, column i"⟩)
        "Error loading data into table public.t: COPY t, line 3, column i")) ∧
    CopyTableIn (sampleEnv false false 1 none)
      (fun _ _ => .error (.pg ⟨"ERROR", "42P01", "relation does not exist", ""⟩))
      "public.t" "(i)" "/data/t.gz" false 0
      = .ret (0, some (.wrap (.pg ⟨"ERROR", "42P01", "relation does not exist", ""⟩)
        "Error loading data into table public.t")) :=
  ⟨(((CopyTableIn_pg_error_or_success (sampleEnv false false 1 none)
      (fun _ _ => .error (.pg ⟨"ERROR", "22P02", "invalid input syntax for integer",
        "COPY t, line 3, column i"⟩)) "public.t" "(i)" "/data/t.gz" false 0).1 _ rfl).1
      (by decide)).trans (by decide),
    (((CopyTableIn_pg_error_or_success (sampleEnv false false 1 none)
      (fun _ _ => .error (.pg ⟨"ERROR", "42P01", "relation does not exist", ""⟩))
      "public.t" "(i)" "/data/t.gz" false 0).1 _ rfl).2 rfl).trans (by decide)⟩

/-- C26 fails on the code: when `connectionPool.Exec` returns an error whose dynamic type
is not `pgx.PgError` (here a connection-level error), the type assertion
`err.(pgx.PgError)` of `CopyTableIn` panics: the function does not return `(0, err)`, nor
anything else. -/
theorem CopyTableIn_panics_on_other_error :
    CopyTableIn (sampleEnv false false 1 none) (fun _ _ => .error (.other "conn is dead"))
      "public.t" "(i)" "<SEG_DATA_DIR>/gpbackup_<SEGID>_20190809230424_16385.gz" false 0
      = .panic ∧
    ¬ ∃ result, CopyTableIn (sampleEnv false false 1 none)
      (fun _ _ => .error (.other "conn is dead"))
      "public.t" "(i)" "<SEG_DATA_DIR>/gpbackup_<SEGID>_20190809230424_16385.gz" false 0
      = .ret result := by
  refine ⟨rfl, ?_⟩
  rintro ⟨result, h⟩
  cases h

/-- C27: with an empty `dataEntries`, in either mode and under every schedule, the first
action of `restoreDataFromTimestamp` is its return, and the record of the run holds
nothing but the log line `No data to restore for timestamp = <Timestamp>`: no oid list is
written, no pipe created, no helper and no worker started, no GUCs set, no entry received
or copied, and the progress bar (its count and its `NotPrint`), `numErrors` and
`tableNum` are as they were. -/
theorem empty_dataEntries_returns_at_once (env : Env) (sched : List Event) (s : PoolState)
    (hs : s = run env [] sched) :
    (s.panicked = false ∧ s.workers = [] ∧ s.tasks = [] ∧ s.closed = false ∧
      s.progress = 0 ∧ s.notPrint = env.NotPrint ∧ s.numErrors = 0 ∧ s.tableNum = 1) ∧
    (∀ ef ∈ s.trace,
      ef = .verbose ("No data to restore for timestamp = " ++ env.Timestamp)) ∧
    (oidLists s.trace = [] ∧ firstPipes s.trace = [] ∧ gucConns s.trace = [] ∧
      dequeues s.trace = [] ∧ attempts s.trace = []) ∧
    (Event.main ∈ sched → s.returned ∧
      s.trace = [.verbose ("No data to restore for timestamp = " ++ env.Timestamp)]) ∧
    (Event.main ∉ sched → s.mainPc = .entry ∧ s.trace = []) := by
  obtain ⟨hU, hm, hn⟩ := untouched_runFrom env sched _ (untouched_init env)
  rw [show runFrom env [] (PoolState.init env) sched = s from hs.symm] at hU hm hn
  have htr : s.trace = [] ∨
      s.trace = [.verbose ("No data to restore for timestamp = " ++ env.Timestamp)] := by
    rcases hU.record with ⟨_, h⟩ | ⟨_, h⟩
    · exact Or.inl h
    · exact Or.inr h
  refine ⟨⟨hU.panicked, hU.workers, hU.tasks, hU.closed, hU.progress, hU.notPrint,
    hU.numErrors, hU.tableNum⟩, ?_, ?_, ?_, ?_⟩
  · rcases htr with h | h <;> simp [h]
  · rcases htr with h | h <;>
      simp [h, oidLists, firstPipes, gucConns, dequeues, attempts]
  · intro hmain
    have hret := hm (Or.inl hmain)
    refine ⟨⟨hret, hU.panicked⟩, ?_⟩
    rcases hU.record with ⟨hpc, _⟩ | ⟨_, h⟩
    · rw [hret] at hpc; cases hpc
    · exact h
  · intro hmain
    have hpc : s.mainPc = .entry := by rw [hn hmain]; rfl
    refine ⟨hpc, ?_⟩
    rcases hU.record with ⟨_, h⟩ | ⟨hret, _⟩
    · exact h
    · rw [hpc] at hret; cases hret

theorem empty_dataEntries_returns_at_once_witness :
    (run (sampleEnv true false 3 none) []
      [.worker 0, .interrupt, .main, .worker 1, .main]).returned ∧
    (run (sampleEnv true false 3 none) []
      [.worker 0, .interrupt, .main, .worker 1, .main]).trace
      = [.verbose "No data to restore for timestamp = 20190809230424"] ∧
    (run (sampleEnv true false 3 none) []
      [.worker 0, .interrupt, .main, .worker 1, .main]).workers = [] :=
  ⟨((empty_dataEntries_returns_at_once (sampleEnv true false 3 none)
      [.worker 0, .interrupt, .main, .worker 1, .main] _ rfl).2.2.2.1 (by decide)).1,
    ((empty_dataEntries_returns_at_once (sampleEnv true false 3 none)
      [.worker 0, .interrupt, .main, .worker 1, .main] _ rfl).2.2.2.1 (by decide)).2.trans
      (by decide),
    (empty_dataEntries_returns_at_once (sampleEnv true false 3 none)
      [.worker 0, .interrupt, .main, .worker 1, .main] _ rfl).1.2.1⟩

/-- C28: in every state `s` of every run, (1) the channel holds at most
`len(dataEntries)` entries, its capacity, and once it is closed the entries received and
the entries in it are exactly `dataEntries`; (2) a send always finds room: when the
calling goroutine stands at a send, the channel holds fewer than `len(dataEntries)`
entries and its next action puts the entry into the channel; (3) by its own actions
alone, whatever the workers have done and without any further action of a worker, the
calling goroutine gets past `close(tasks)` to `workerPool.Wait()` (or returns before it
starts the workers); (4) every run can be continued until the function returns or a
goroutine has panicked; (5) once `Wait` has returned, the entries left in the channel
stay there and are never handed to `restoreSingleTableData`; (6) with `NumConns = 0`
nothing panics, no worker exists, no entry is ever attempted, and after the close all of
`dataEntries` is in the channel. -/
theorem queuing_never_blocks (env : Env) (des : List MasterDataEntry)
    (sched : List Event) (s : PoolState) (hs : s = run env des sched) :
    (s.tasks.length ≤ des.length ∧
      (s.closed = true → dequeues s.trace ++ s.tasks = des)) ∧
    (∀ e rest, s.mainPc = .send (e :: rest) →
      s.tasks.length < des.length ∧
      (s.panicked = false → (step env des s .main).mainPc = .send rest ∧
        (step env des s .main).tasks = s.tasks ++ [e])) ∧
    (s.panicked = false → ∃ k, 5 ≤ (runFrom env des s (mainRuns k)).mainPc.phase) ∧
    (∃ ext, noInterrupt ext ∧ ((runFrom env des s ext).mainPc = .returned ∨
      (runFrom env des s ext).panicked = true)) ∧
    (6 ≤ s.mainPc.phase → ∀ ext,
      attempts (runFrom env des s ext).trace = attempts s.trace ∧
      (runFrom env des s ext).tasks = s.tasks) ∧
    (env.NumConns = 0 → s.panicked = false ∧ s.workers = [] ∧ attempts s.trace = [] ∧
      (s.closed = true → s.tasks = des)) := by
  have hS : Sound env des s := hs ▸ sound_run env des sched
  have hcap : s.tasks.length + (dequeues s.trace).length ≤ des.length :=
    hs ▸ capacity_run env des sched
  have hclosed : s.closed = true → dequeues s.trace ++ s.tasks = des :=
    hs ▸ closed_fifo_run env des sched
  refine ⟨⟨by omega, hclosed⟩, ?_, ?_, ?_, ?_, ?_⟩
  · intro e rest hpc
    obtain ⟨h1, h2, h3⟩ := send_not_blocked env des s hS e rest hpc
    refine ⟨h1, fun hp => ?_⟩
    rw [step_main env des s hp]
    exact ⟨h2, h3⟩
  · intro hp
    exact main_reaches_wait env des _ s hS hp (Nat.le_refl _)
  · obtain ⟨ext, h1, h2⟩ := can_finish env des sched
    rw [run_append, ← hs] at h2
    exact ⟨ext, h1, h2⟩
  · intro hp ext
    exact settled_runFrom env des ext s hS hp
  · intro hk
    obtain ⟨h1, h2⟩ := zero_conns_run env des hk sched
    rw [← hs] at h1 h2
    have hq := hS.quiet h2
    refine ⟨h1, h2, hq.2, fun hc => ?_⟩
    have := hclosed hc
    rw [hq.1] at this
    simpa using this

theorem queuing_never_blocks_witness :
    (run (sampleEnv false false 0 none) [sampleEntry 1 7, sampleEntry 2 5]
      (mainRuns 8)).returned ∧
    (run (sampleEnv false false 0 none) [sampleEntry 1 7, sampleEntry 2 5]
      (mainRuns 8)).tasks = [sampleEntry 1 7, sampleEntry 2 5] ∧
    attempts (run (sampleEnv false false 0 none) [sampleEntry 1 7, sampleEntry 2 5]
      (mainRuns 8)).trace = [] ∧
    (run (sampleEnv false false 1 none) [sampleEntry 1 7, sampleEntry 2 5, sampleEntry 3 5]
      (mainRuns 8 ++ workerRuns 0 6 ++ mainRuns 2)).returned ∧
    (run (sampleEnv false false 1 none) [sampleEntry 1 7, sampleEntry 2 5, sampleEntry 3 5]
      (mainRuns 8 ++ workerRuns 0 6 ++ mainRuns 2)).tasks
      = [sampleEntry 2 5, sampleEntry 3 5] ∧
    attempts (runFrom (sampleEnv false false 1 none)
      [sampleEntry 1 7, sampleEntry 2 5, sampleEntry 3 5]
      (run (sampleEnv false false 1 none) [sampleEntry 1 7, sampleEntry 2 5, sampleEntry 3 5]
        (mainRuns 8 ++ workerRuns 0 6 ++ mainRuns 2))
      (workerRuns 0 5 ++ mainRuns 3)).trace = [sampleEntry 1 7] := by
  have h1 : (run (sampleEnv false false 0 none) [sampleEntry 1 7, sampleEntry 2 5]
      (mainRuns 8)).returned := by decide
  have h2 : (run (sampleEnv false false 0 none) [sampleEntry 1 7, sampleEntry 2 5]
      (mainRuns 8)).closed = true := by decide
  have h3 := (queuing_never_blocks (sampleEnv false false 0 none)
    [sampleEntry 1 7, sampleEntry 2 5] (mainRuns 8) _ rfl).2.2.2.2.2 rfl
  have h4 : (run (sampleEnv false false 1 none)
      [sampleEntry 1 7, sampleEntry 2 5, sampleEntry 3 5]
      (mainRuns 8 ++ workerRuns 0 6 ++ mainRuns 2)).returned := by decide
  have h5 : (run (sampleEnv false false 1 none)
      [sampleEntry 1 7, sampleEntry 2 5, sampleEntry 3 5]
      (mainRuns 8 ++ workerRuns 0 6 ++ mainRuns 2)).tasks
      = [sampleEntry 2 5, sampleEntry 3 5] := by decide
  have h6 : attempts (run (sampleEnv false false 1 none)
      [sampleEntry 1 7, sampleEntry 2 5, sampleEntry 3 5]
      (mainRuns 8 ++ workerRuns 0 6 ++ mainRuns 2)).trace = [sampleEntry 1 7] := by decide
  have h7 := ((queuing_never_blocks (sampleEnv false false 1 none)
    [sampleEntry 1 7, sampleEntry 2 5, sampleEntry 3 5]
    (mainRuns 8 ++ workerRuns 0 6 ++ mainRuns 2) _ rfl).2.2.2.2.1
      (by rw [h4.1]; decide) (workerRuns 0 5 ++ mainRuns 3)).1
  exact ⟨h1, h3.2.2.2 h2, h3.2.2.1, h4, h5, h7.trans h6⟩

/-- C29, as the code has it: `tableNum` starts at 1, and in every state `s` of every run
it is 1 plus the number of progress increments plus the number of workers that have added
1 to `tableNum` and not yet advanced the progress bar (in `uint32` arithmetic): the two
are advanced by two consecutive statements, so `tableNum` is 1 plus the number of progress
increments whenever no worker stands between the two, as when
`restoreDataFromTimestamp` has returned.  With fewer than `2^32` entries, every value
handed to `restoreSingleTableData` is between 1 and `N = len(dataEntries)` and is logged
with `N`, at a verbosity above info as `(table <tableNum> of <N>)`; and with one
connection the calls are handed 1, 2, 3, ... in this order: the `i`-th attempted task is
reported as table `i` of `N`. -/
theorem tableNum_counts_progress (env : Env) (des : List MasterDataEntry)
    (sched : List Event) (s : PoolState) (hs : s = run env des sched) :
    (run env des []).tableNum = 1 ∧
    s.tableNum = wrapUint32 (1 + s.progress + total atIncr s.workers) ∧
    ((∀ pc ∈ s.workers, pc ≠ .incr) → s.tableNum = wrapUint32 (1 + s.progress)) ∧
    (s.returned → s.tableNum = wrapUint32 (1 + s.progress)) ∧
    (des.length < 2 ^ 32 → ∀ c e tn tot r, Effect.restore c e tn tot r ∈ s.trace →
      1 ≤ tn ∧ tn ≤ des.length ∧ tot = des.length ∧
      Effect.verbose (restoreVerboseLine env e tn des.length) ∈ s.trace) ∧
    (env.VerbosityAboveInfo = true → ∀ (e : MasterDataEntry) (tn tot : Nat),
      restoreVerboseLine env e tn tot = "Reading data for table "
        ++ env.MakeFQN e.Schema e.Name ++ " from file (table " ++ fmtUint tn ++ " of "
        ++ fmtUint tot ++ ")") ∧
    (env.NumConns = 1 → des.length < 2 ^ 32 →
      attemptNums s.trace = List.range' 1 (attempts s.trace).length) := by
  have hS : Sound env des s := hs ▸ sound_run env des sched
  have ht : s.tableNum = wrapUint32 (1 + s.progress + total atIncr s.workers) :=
    hs ▸ tableNum_run env des sched
  have hzero : (∀ pc ∈ s.workers, pc ≠ .incr) → s.tableNum = wrapUint32 (1 + s.progress) := by
    intro h
    have h0 : total atIncr s.workers = 0 := by
      apply total_eq_zero
      intro pc hpc
      have := h pc hpc
      cases pc <;> first | rfl | exact absurd rfl this
    rw [ht, h0, Nat.add_zero]
  refine ⟨rfl, ht, hzero, ?_, ?_, ?_, ?_⟩
  · intro hret
    apply hzero
    intro pc hpc
    obtain ⟨j, hj⟩ := List.mem_iff_getElem?.mp hpc
    rw [hS.all_done (by rw [hret.1]; decide) j pc hj]
    intro h
    cases h
  · intro hN c e tn tot r hm
    have hb := nums_run env des hN sched tn
      (mem_attemptNums.mpr ⟨c, e, tot, r, hs ▸ hm⟩)
    have hF := (faithful_run env des sched).restore_ok c e tn tot r (hs ▸ hm)
    have hv := reported_run env des sched c e tn tot r (hs ▸ hm)
    rw [← hs] at hv
    exact ⟨hb.1, hb.2, hF.2.2.1, hv⟩
  · intro hv e tn tot
    simp [restoreVerboseLine, hv]
  · intro hk hN
    have := (single_nums_run env des hk hN sched).2
    rw [← hs] at this
    exact this

theorem tableNum_counts_progress_witness :
    (run (sampleEnv false true 1 none) [sampleEntry 1 5, sampleEntry 2 7, sampleEntry 3 5]
      (mainRuns 8 ++ workerRuns 0 24 ++ mainRuns 2)).returned ∧
    (run (sampleEnv false true 1 none) [sampleEntry 1 5, sampleEntry 2 7, sampleEntry 3 5]
      (mainRuns 8 ++ workerRuns 0 24 ++ mainRuns 2)).progress = 3 ∧
    (run (sampleEnv false true 1 none) [sampleEntry 1 5, sampleEntry 2 7, sampleEntry 3 5]
      (mainRuns 8 ++ workerRuns 0 24 ++ mainRuns 2)).tableNum = 4 ∧
    attemptNums (run (sampleEnv false true 1 none)
      [sampleEntry 1 5, sampleEntry 2 7, sampleEntry 3 5]
      (mainRuns 8 ++ workerRuns 0 24 ++ mainRuns 2)).trace = [1, 2, 3] := by
  have h1 : (run (sampleEnv false true 1 none)
      [sampleEntry 1 5, sampleEntry 2 7, sampleEntry 3 5]
      (mainRuns 8 ++ workerRuns 0 24 ++ mainRuns 2)).returned := by decide
  have h2 : (run (sampleEnv false true 1 none)
      [sampleEntry 1 5, sampleEntry 2 7, sampleEntry 3 5]
      (mainRuns 8 ++ workerRuns 0 24 ++ mainRuns 2)).progress = 3 := by decide
  have h3 : (attempts (run (sampleEnv false true 1 none)
      [sampleEntry 1 5, sampleEntry 2 7, sampleEntry 3 5]
      (mainRuns 8 ++ workerRuns 0 24 ++ mainRuns 2)).trace).length = 3 := by decide
  have h4 := (tableNum_counts_progress (sampleEnv false true 1 none)
    [sampleEntry 1 5, sampleEntry 2 7, sampleEntry 3 5]
    (mainRuns 8 ++ workerRuns 0 24 ++ mainRuns 2) _ rfl).2.2.2.1 h1
  have h5 := (tableNum_counts_progress (sampleEnv false true 1 none)
    [sampleEntry 1 5, sampleEntry 2 7, sampleEntry 3 5]
    (mainRuns 8 ++ workerRuns 0 24 ++ mainRuns 2) _ rfl).2.2.2.2.2.2 rfl (by decide)
  rw [h2] at h4
  rw [h3] at h5
  exact ⟨h1, h2, h4.trans (by decide), h5.trans (by decide)⟩

/-- C29 fails as stated: two connections, three tables whose restores succeed, no
interrupt.  Worker 0 restores the first table and adds 1 to `tableNum`; before it
advances the progress bar, worker 1 receives the second table and calls
`restoreSingleTableData` with `tableNum = 2`: `tableNum` is 2 while the progress bar has
not been advanced at all. -/
theorem tableNum_ahead_of_progress :
    noInterrupt (mainRuns 9 ++ workerRuns 0 6 ++ workerRuns 1 4) ∧
    (run (sampleEnv false false 2 none) [sampleEntry 1 5, sampleEntry 2 5, sampleEntry 3 5]
      (mainRuns 9 ++ workerRuns 0 6 ++ workerRuns 1 4)).progress = 0 ∧
    (run (sampleEnv false false 2 none) [sampleEntry 1 5, sampleEntry 2 5, sampleEntry 3 5]
      (mainRuns 9 ++ workerRuns 0 6 ++ workerRuns 1 4)).tableNum = 2 ∧
    Effect.restore 1 (sampleEntry 2 5) 2 3 (.ret none)
      ∈ (run (sampleEnv false false 2 none)
        [sampleEntry 1 5, sampleEntry 2 5, sampleEntry 3 5]
        (mainRuns 9 ++ workerRuns 0 6 ++ workerRuns 1 4)).trace ∧
    ¬ ((run (sampleEnv false false 2 none) [sampleEntry 1 5, sampleEntry 2 5, sampleEntry 3 5]
      (mainRuns 9 ++ workerRuns 0 6 ++ workerRuns 1 4)).tableNum
      = 1 + (run (sampleEnv false false 2 none)
        [sampleEntry 1 5, sampleEntry 2 5, sampleEntry 3 5]
        (mainRuns 9 ++ workerRuns 0 6 ++ workerRuns 1 4)).progress) := by
  refine ⟨by decide, by decide, by decide, by decide, by decide⟩

/-- C30: when the counts differ, `CheckRowsRestored` returns the error made by
`errors.New` with the message `Expected to restore <rowsBackedUp> rows to table
<tableName>, but restored <rowsRestored> instead`: the backed-up count first, as the
expected value, the restored count second, both in decimal (the decimal digits of the
absolute value, after a `-` for a negative count). -/
theorem CheckRowsRestored_message (rowsRestored rowsBackedUp : Int) (tableName : String)
    (h : rowsRestored ≠ rowsBackedUp) :
    CheckRowsRestored rowsRestored rowsBackedUp tableName
      = some (.new ("Expected to restore " ++ fmtInt rowsBackedUp ++ " rows to table "
        ++ tableName ++ ", but restored " ++ fmtInt rowsRestored ++ " instead")) ∧
    (∀ n : Nat, fmtInt (Int.ofNat n) = String.mk (Nat.toDigits 10 n)) ∧
    (∀ n : Nat, fmtInt (Int.negSucc n) = "-" ++ String.mk (Nat.toDigits 10 (n + 1))) := by
  refine ⟨?_, fun _ => rfl, fun _ => rfl⟩
  simp [CheckRowsRestored, h]

theorem CheckRowsRestored_message_witness :
    CheckRowsRestored 5 7 "public.t"
      = some (.new "Expected to restore 7 rows to table public.t, but restored 5 instead") :=
  (CheckRowsRestored_message 5 7 "public.t" (by decide)).1.trans (by decide)

end Gpbackup
